import Mathlib

/-!
# Reference counting in the non-pointer isa (objc4-680)

A shallow embedding of the inline parts of `objc_object`
(`runtime/objc-object.h`, `SUPPORT_NONPOINTER_ISA` branch), of the `isa_t`
bit-field layout and `StripedMap` (`runtime/objc-private.h`), of the carry /
exclusive store helpers and the `spinlock_t` pair discipline
(`runtime/objc-os.h`), and of the weak table declared in `runtime/objc-weak.h`.

* Machine words are natural numbers below `2 ^ 64`; every wrapping operation
  carries its `% 2 ^ 64` explicitly.
* An object is its address, its isa word, its own entry of the side table and
  the trace of externally visible events (lock traffic, the `dealloc` message,
  the over-release report).
* Execution is single threaded.  The retry loops of the source are kept: one
  traversal of a loop body is a `*_pass` function, the loop is driven by a
  fuel counter, and `none` means the fuel ran out.
-/

namespace Objc

/-! ## Machine words, `addc` / `subc`, exclusive load and store (objc-os.h) -/

/-- The number of values of a `uintptr_t`. -/
def WORD : Nat := 2 ^ 64

/-- The helper `addc(lhs, rhs, carryin, &carryout)`, i.e. `__builtin_addcl`: the wrapped
sum together with the carry out. -/
def addc (lhs rhs carryin : Nat) : Nat × Nat :=
  ((lhs + rhs + carryin) % WORD, if WORD ≤ lhs + rhs + carryin then 1 else 0)

/-- The helper `subc(lhs, rhs, carryin, &carryout)`, i.e. `__builtin_subcl`: the wrapped
difference together with the borrow out. -/
def subc (lhs rhs carryin : Nat) : Nat × Nat :=
  ((lhs + 2 * WORD - (rhs % WORD + carryin % WORD)) % WORD,
   if lhs < rhs + carryin then 1 else 0)

/-- The load `LoadExclusive(src)`: the word stored at `src`. -/
def LoadExclusive (mem : Nat) : Nat := mem

/-- The store `StoreExclusive(dst, oldvalue, value)` as a compare-and-swap
(`__sync_bool_compare_and_swap`): success flag and the new content of `dst`. -/
def StoreExclusive (mem oldvalue value : Nat) : Bool × Nat :=
  if mem = oldvalue then (true, value) else (false, mem)

/-- The store `StoreReleaseExclusive(dst, oldvalue, value)`: the same store with release
ordering. -/
def StoreReleaseExclusive (mem oldvalue value : Nat) : Bool × Nat :=
  StoreExclusive mem oldvalue value

/-! ## The `isa_t` bit-fields (objc-private.h) -/

/-- The two architectures for which `isa_t` has a packed layout. -/
inductive Arch where
  | arm64
  | x86_64
deriving DecidableEq, Repr

/-- Build configuration: the architecture and the tagged-pointer flavour. -/
structure Config where
  arch : Arch
  SUPPORT_MSB_TAGGED_POINTERS : Bool
deriving DecidableEq, Repr

/-- Width of the `shiftcls` bit-field. -/
def shiftcls_width : Arch → Nat
  | .arm64 => 33
  | .x86_64 => 44

/-- Width of the `extra_rc` bit-field. -/
def extra_rc_width : Arch → Nat
  | .arm64 => 19
  | .x86_64 => 8

def ISA_MASK : Arch → Nat
  | .arm64 => 0x0000000ffffffff8
  | .x86_64 => 0x00007ffffffffff8

def ISA_MAGIC_MASK : Arch → Nat
  | .arm64 => 0x000003f000000001
  | .x86_64 => 0x001f800000000001

def ISA_MAGIC_VALUE : Arch → Nat
  | .arm64 => 0x000001a000000001
  | .x86_64 => 0x001d800000000001

/-- The constant `RC_ONE`: `1ULL<<45` on arm64, `1ULL<<56` on x86_64. -/
def RC_ONE : Arch → Nat
  | .arm64 => 2 ^ 45
  | .x86_64 => 2 ^ 56

/-- The constant `RC_HALF`: `1ULL<<18` on arm64, `1ULL<<7` on x86_64. -/
def RC_HALF : Arch → Nat
  | .arm64 => 2 ^ 18
  | .x86_64 => 2 ^ 7

/-- Read the bit-field of `width` bits that starts at bit `shift`. -/
def getField (bits shift width : Nat) : Nat :=
  bits / 2 ^ shift % 2 ^ width

/-- Assign `v` (truncated to `width` bits) to the bit-field at `shift`. -/
def setField (bits shift width v : Nat) : Nat :=
  bits / 2 ^ (shift + width) * 2 ^ (shift + width) + v % 2 ^ width * 2 ^ shift
    + bits % 2 ^ shift

/-- Bit offsets of the fields, in declaration order from the least
significant bit. -/
def off_indexed : Nat := 0
def off_has_assoc : Nat := 1
def off_has_cxx_dtor : Nat := 2
def off_shiftcls : Nat := 3
def off_magic (a : Arch) : Nat := 3 + shiftcls_width a
def off_weakly_referenced (a : Arch) : Nat := 9 + shiftcls_width a
def off_deallocating (a : Arch) : Nat := 10 + shiftcls_width a
def off_has_sidetable_rc (a : Arch) : Nat := 11 + shiftcls_width a
def off_extra_rc (a : Arch) : Nat := 12 + shiftcls_width a

def isa_indexed (bits : Nat) : Nat := getField bits off_indexed 1
def isa_has_assoc (bits : Nat) : Nat := getField bits off_has_assoc 1
def isa_has_cxx_dtor (bits : Nat) : Nat := getField bits off_has_cxx_dtor 1
def isa_shiftcls (a : Arch) (bits : Nat) : Nat := getField bits off_shiftcls (shiftcls_width a)
def isa_magic (a : Arch) (bits : Nat) : Nat := getField bits (off_magic a) 6
def isa_weakly_referenced (a : Arch) (bits : Nat) : Nat :=
  getField bits (off_weakly_referenced a) 1
def isa_deallocating (a : Arch) (bits : Nat) : Nat := getField bits (off_deallocating a) 1
def isa_has_sidetable_rc (a : Arch) (bits : Nat) : Nat :=
  getField bits (off_has_sidetable_rc a) 1
def isa_extra_rc (a : Arch) (bits : Nat) : Nat :=
  getField bits (off_extra_rc a) (extra_rc_width a)

def set_has_assoc (bits v : Nat) : Nat := setField bits off_has_assoc 1 v
def set_has_cxx_dtor (bits v : Nat) : Nat := setField bits off_has_cxx_dtor 1 v
def set_shiftcls (a : Arch) (bits v : Nat) : Nat := setField bits off_shiftcls (shiftcls_width a) v
def set_weakly_referenced (a : Arch) (bits v : Nat) : Nat :=
  setField bits (off_weakly_referenced a) 1 v
def set_deallocating (a : Arch) (bits v : Nat) : Nat := setField bits (off_deallocating a) 1 v
def set_has_sidetable_rc (a : Arch) (bits v : Nat) : Nat :=
  setField bits (off_has_sidetable_rc a) 1 v
def set_extra_rc (a : Arch) (bits v : Nat) : Nat :=
  setField bits (off_extra_rc a) (extra_rc_width a) v

/-- The bit-field view of an isa word: the anonymous struct of `isa_t`. A
one-bit field holds `0` or `1`. -/
structure IsaFields where
  indexed : Nat
  has_assoc : Nat
  has_cxx_dtor : Nat
  shiftcls : Nat
  magic : Nat
  weakly_referenced : Nat
  deallocating : Nat
  has_sidetable_rc : Nat
  extra_rc : Nat
deriving DecidableEq, Repr

/-- Read all bit-fields of an isa word. -/
def decode (a : Arch) (bits : Nat) : IsaFields :=
  { indexed := isa_indexed bits
    has_assoc := isa_has_assoc bits
    has_cxx_dtor := isa_has_cxx_dtor bits
    shiftcls := isa_shiftcls a bits
    magic := isa_magic a bits
    weakly_referenced := isa_weakly_referenced a bits
    deallocating := isa_deallocating a bits
    has_sidetable_rc := isa_has_sidetable_rc a bits
    extra_rc := isa_extra_rc a bits }

/-! ## Objects, side table, events -/

/-- Externally visible effects of the reference-counting primitives, in the
order in which they happen: taking and dropping the side-table lock, the
dealloc message, the over-release report, and the call of
`sidetable_moveExtraRC_nolock` with its three arguments. -/
inductive Event where
  | lock
  | unlock
  | dealloc
  | overrelease
  | moveExtraRC (extra_rc : Nat) (isDeallocating weaklyReferenced : Bool)
deriving DecidableEq, Repr

/-- The side-table record of one object. -/
structure SideTableEntry where
  retain_count : Nat
  weakly_referenced : Bool
  deallocating : Bool
deriving DecidableEq, Repr

/-- An `objc_object` together with the part of the global state that its
methods reach: `self` is the pointer `this`, `isa` is `isa.bits`,
`sidetable` is the entry of `this` in its side-table shard (`none` when
absent), `trace` lists the events so far, oldest first. -/
structure objc_object where
  self : Nat
  isa : Nat
  sidetable : Option SideTableEntry
  trace : List Event
deriving DecidableEq, Repr

/-- The view of a `Class` that `changeIsa` consults: the pointer itself and
the answers of `isFuture()`, `canAllocIndexed()` and `hasCxxDtor()`. -/
structure Class where
  addr : Nat
  isFuture : Bool
  canAllocIndexed : Bool
  hasCxxDtor : Bool
deriving DecidableEq, Repr

/-- The side-table-only primitives used for raw-pointer isa. They are defined
outside the inline header and are taken as parameters. -/
structure RawIsaOps where
  sidetable_retain : objc_object → Option Nat × objc_object
  sidetable_tryRetain : objc_object → Bool × objc_object
  sidetable_release : Bool → objc_object → Bool × objc_object
  sidetable_retainCount : objc_object → Nat × objc_object
  sidetable_setWeaklyReferenced_nolock : objc_object → objc_object
  sidetable_isWeaklyReferenced : objc_object → Bool
  sidetable_isDeallocating : objc_object → Bool

/-- Outcome of one traversal of a retry loop body. -/
inductive Pass (ρ : Type) where
  | done (r : ρ) (o : objc_object)
  | retry (sideTableLocked : Bool) (o : objc_object)
  | slow (o : objc_object)

/-- The constant `TAG_MASK`: the top bit for MSB tagged pointers, the low bit otherwise. -/
def TAG_MASK (cfg : Config) : Nat :=
  if cfg.SUPPORT_MSB_TAGGED_POINTERS then 2 ^ 63 else 1

/-- The method `objc_object::isTaggedPointer`. -/
def isTaggedPointer (cfg : Config) (o : objc_object) : Bool :=
  (o.self &&& TAG_MASK cfg) != 0

/-- Modelled from the spec: `sidetable_lock` (NSObject.mm is not part of the
sources). Scoped acquisition of the shard lock, recorded in the trace. -/
def sidetable_lock (o : objc_object) : objc_object :=
  { o with trace := o.trace ++ [Event.lock] }

/-- Modelled from the spec: `sidetable_unlock` (NSObject.mm is not part of the
sources). Release of the shard lock, recorded in the trace. -/
def sidetable_unlock (o : objc_object) : objc_object :=
  { o with trace := o.trace ++ [Event.unlock] }

/-- Modelled from the spec: `sidetable_addExtraRC_nolock` (NSObject.mm is not
part of the sources). Moves `delta_rc` counts into the entry, creating it on
first overflow. The boolean result of the C function is discarded by both
callers and is not modelled. -/
def sidetable_addExtraRC_nolock (delta_rc : Nat) (o : objc_object) : objc_object :=
  match o.sidetable with
  | none =>
    let created : SideTableEntry :=
      { retain_count := delta_rc, weakly_referenced := false, deallocating := false }
    { o with sidetable := some created }
  | some e => { o with sidetable := some { e with retain_count := e.retain_count + delta_rc } }

/-- Modelled from the spec: `sidetable_subExtraRC_nolock`, the spec's
`borrowCount` (NSObject.mm is not part of the sources). Transfers up to
`delta_rc` counts out of the entry and returns the amount transferred, zero if
the entry is absent or empty. -/
def sidetable_subExtraRC_nolock (delta_rc : Nat) (o : objc_object) : Nat × objc_object :=
  match o.sidetable with
  | none => (0, o)
  | some e =>
    let borrowed := min delta_rc e.retain_count
    (borrowed, { o with sidetable := some { e with retain_count := e.retain_count - borrowed } })

/-- Modelled from the spec: `sidetable_getExtraRC_nolock` (NSObject.mm is not
part of the sources). The count held by the entry, zero if absent. -/
def sidetable_getExtraRC_nolock (o : objc_object) : Nat :=
  match o.sidetable with
  | none => 0
  | some e => e.retain_count

/-- Modelled from the spec: `sidetable_moveExtraRC_nolock`, the spec's
`moveCountToSideTable` (NSObject.mm is not part of the sources). Migrates the
inline count and the two flags into the created or updated entry. The call and
its arguments are recorded in the trace, so that its place between the taking
and the dropping of the lock can be read off. -/
def sidetable_moveExtraRC_nolock (extra_rc : Nat) (isDeallocating weaklyReferenced : Bool)
    (o : objc_object) : objc_object :=
  let moved : SideTableEntry :=
    { retain_count := sidetable_getExtraRC_nolock o + extra_rc,
      weakly_referenced := weaklyReferenced,
      deallocating := isDeallocating }
  { self := o.self
    isa := o.isa
    sidetable := some moved
    trace := o.trace ++ [Event.moveExtraRC extra_rc isDeallocating weaklyReferenced] }

/-- Modelled from the spec: `overrelease_error` (NSObject.mm is not part of the
sources). The over-release is reported; the caller is told not to deallocate. -/
def overrelease_error (o : objc_object) : Bool × objc_object :=
  (false, { o with trace := o.trace ++ [Event.overrelease] })

/-- The message send `objc_msgSend(this, SEL_dealloc)`, recorded in the trace. -/
def send_dealloc (o : objc_object) : objc_object :=
  { o with trace := o.trace ++ [Event.dealloc] }

/-! ## Retain (objc-object.h) -/

/-- The label `unindexed:` of `rootRetain`. -/
def rootRetain_unindexed (ops : RawIsaOps) (tryRetain sideTableLocked : Bool)
    (o : objc_object) : Pass (Option Nat) :=
  let o1 := if !tryRetain && sideTableLocked then sidetable_unlock o else o
  if tryRetain then
    let r := ops.sidetable_tryRetain o1
    Pass.done (if r.1 then some o.self else none) r.2
  else
    let r := ops.sidetable_retain o1
    Pass.done r.1 r.2

/-- One traversal of the `do ... while (!StoreExclusive(...))` loop of
`objc_object::rootRetain(bool tryRetain, bool handleOverflow)` together with
the code after the loop. `Pass.slow` is the tail call
`return rootRetain_overflow(tryRetain)`. -/
def rootRetain_pass (cfg : Config) (ops : RawIsaOps) (tryRetain handleOverflow : Bool)
    (sideTableLocked : Bool) (o : objc_object) : Pass (Option Nat) :=
  let oldisa := LoadExclusive o.isa
  let newisa := oldisa
  if isa_indexed newisa = 0 then rootRetain_unindexed ops tryRetain sideTableLocked o
  else if tryRetain = true ∧ isa_deallocating cfg.arch newisa ≠ 0 then
    -- tryfail:
    let o1 := if !tryRetain && sideTableLocked then sidetable_unlock o else o
    Pass.done none o1
  else
    let r := addc newisa (RC_ONE cfg.arch) 0
    let newisa := r.1
    let carry := r.2
    if carry ≠ 0 ∧ handleOverflow = false then Pass.slow o
    else
      -- the overflow branch: keep half inline, prepare to move the other half
      let o1 :=
        if carry ≠ 0 ∧ tryRetain = false ∧ sideTableLocked = false then sidetable_lock o else o
      let sideTableLocked := if carry ≠ 0 then true else sideTableLocked
      let transcribeToSideTable : Bool := carry ≠ 0
      let newisa :=
        if carry ≠ 0 then
          set_has_sidetable_rc cfg.arch (set_extra_rc cfg.arch newisa (RC_HALF cfg.arch)) 1
        else newisa
      let st := StoreExclusive o1.isa oldisa newisa
      let o2 := { o1 with isa := st.2 }
      if !st.1 then Pass.retry sideTableLocked o2
      else
        let o3 :=
          if transcribeToSideTable then sidetable_addExtraRC_nolock (RC_HALF cfg.arch) o2 else o2
        let o4 := if !tryRetain && sideTableLocked then sidetable_unlock o3 else o3
        Pass.done (some o.self) o4

/-- The retry loop of `rootRetain`. The slow path `rootRetain_overflow(tryRetain)`
(NSObject.mm is not part of the sources) is modelled from the spec: the caller
retries with overflow handling, i.e. `rootRetain(tryRetain, true)`. -/
def rootRetain_loop (cfg : Config) (ops : RawIsaOps) :
    Nat → Bool → Bool → Bool → objc_object → Option (Option Nat × objc_object)
  | 0, _, _, _, _ => none
  | fuel + 1, tryRetain, handleOverflow, sideTableLocked, o =>
    match rootRetain_pass cfg ops tryRetain handleOverflow sideTableLocked o with
    | Pass.done r o1 => some (r, o1)
    | Pass.retry locked o1 => rootRetain_loop cfg ops fuel tryRetain handleOverflow locked o1
    | Pass.slow o1 =>
      if isTaggedPointer cfg o1 then some (some o1.self, o1)
      else rootRetain_loop cfg ops fuel tryRetain true false o1

/-- The method `objc_object::rootRetain(bool tryRetain, bool handleOverflow)`;
the result is `some this` or `none` for `nil`. -/
def rootRetain (cfg : Config) (ops : RawIsaOps) (fuel : Nat) (tryRetain handleOverflow : Bool)
    (o : objc_object) : Option (Option Nat × objc_object) :=
  if isTaggedPointer cfg o then some (some o.self, o)
  else rootRetain_loop cfg ops fuel tryRetain handleOverflow false o

/-- Modelled from the spec: `rootRetain_overflow` (NSObject.mm is not part of
the sources): the retry with overflow handling. -/
def rootRetain_overflow (cfg : Config) (ops : RawIsaOps) (fuel : Nat) (tryRetain : Bool)
    (o : objc_object) : Option (Option Nat × objc_object) :=
  rootRetain cfg ops fuel tryRetain true o

/-- The method `objc_object::rootRetain()`. -/
def rootRetain0 (cfg : Config) (ops : RawIsaOps) (fuel : Nat) (o : objc_object) :
    Option (Option Nat × objc_object) :=
  rootRetain cfg ops fuel false false o

/-- The method `objc_object::rootTryRetain()`. -/
def rootTryRetain (cfg : Config) (ops : RawIsaOps) (fuel : Nat) (o : objc_object) :
    Option (Bool × objc_object) :=
  (rootRetain cfg ops fuel true false o).map fun r => (r.1.isSome, r.2)

/-! ## Release (objc-object.h) -/

/-- The label `unindexed:` of `rootRelease`. -/
def rootRelease_unindexed (ops : RawIsaOps) (performDealloc sideTableLocked : Bool)
    (o : objc_object) : Pass Bool :=
  let o1 := if sideTableLocked then sidetable_unlock o else o
  let r := ops.sidetable_release performDealloc o1
  Pass.done r.1 r.2

/-- The part of `rootRelease` below the comment `Really deallocate.`; a failed
store is the `goto retry`. -/
def rootRelease_dealloc (cfg : Config) (performDealloc sideTableLocked : Bool)
    (oldisa newisa : Nat) (o : objc_object) : Pass Bool :=
  let o1 := if sideTableLocked then sidetable_unlock o else o
  if isa_deallocating cfg.arch newisa ≠ 0 then
    let r := overrelease_error o1
    Pass.done r.1 r.2
  else
    let newisa := set_deallocating cfg.arch newisa 1
    let st := StoreExclusive o1.isa oldisa newisa
    let o2 := { o1 with isa := st.2 }
    if !st.1 then Pass.retry sideTableLocked o2
    else
      let o3 := if performDealloc then send_dealloc o2 else o2
      Pass.done true o3

/-- The part of `rootRelease` that follows a positive borrow from the side
table: the store of the borrowed count, the immediate second attempt, and the
put-back with `goto retry` when both fail. -/
def rootRelease_borrowed (cfg : Config) (borrowed oldisa newisa : Nat) (o : objc_object) :
    Pass Bool :=
  let newisa := set_extra_rc cfg.arch newisa (borrowed - 1)
  let st := StoreExclusive o.isa oldisa newisa
  let o1 := { o with isa := st.2 }
  let second : Bool × objc_object :=
    if !st.1 then
      let oldisa2 := LoadExclusive o1.isa
      let newisa2 := oldisa2
      if isa_indexed newisa2 ≠ 0 then
        let r := addc newisa2 (RC_ONE cfg.arch * (borrowed - 1) % WORD) 0
        if r.2 = 0 then
          let st2 := StoreReleaseExclusive o1.isa oldisa2 r.1
          (st2.1, { o1 with isa := st2.2 })
        else (st.1, o1)
      else (st.1, o1)
    else (st.1, o1)
  if !second.1 then Pass.retry true (sidetable_addExtraRC_nolock borrowed second.2)
  else Pass.done false (sidetable_unlock second.2)

/-- One traversal of `objc_object::rootRelease(bool performDealloc, bool
handleUnderflow)` from the label `retry:` on. `Pass.slow` is the tail call
`return rootRelease_underflow(performDealloc)`. -/
def rootRelease_pass (cfg : Config) (ops : RawIsaOps) (performDealloc handleUnderflow : Bool)
    (sideTableLocked : Bool) (o : objc_object) : Pass Bool :=
  let oldisa := LoadExclusive o.isa
  let newisa := oldisa
  if isa_indexed newisa = 0 then rootRelease_unindexed ops performDealloc sideTableLocked o
  else
    let r := subc newisa (RC_ONE cfg.arch) 0
    let carry := r.2
    if carry = 0 then
      let st := StoreReleaseExclusive o.isa oldisa r.1
      let o1 := { o with isa := st.2 }
      if !st.1 then Pass.retry sideTableLocked o1
      else Pass.done false (if sideTableLocked then sidetable_unlock o1 else o1)
    else
      -- underflow: abandon newisa to undo the decrement
      let newisa := oldisa
      if isa_has_sidetable_rc cfg.arch newisa ≠ 0 then
        if handleUnderflow = false then Pass.slow o
        else
          let o1 := if !sideTableLocked then sidetable_lock o else o
          if sideTableLocked = false ∧ isa_indexed o1.isa = 0 then
            rootRelease_unindexed ops performDealloc true o1
          else
            let b := sidetable_subExtraRC_nolock (RC_HALF cfg.arch) o1
            let borrowed := b.1
            if borrowed > 0 then rootRelease_borrowed cfg borrowed oldisa newisa b.2
            else rootRelease_dealloc cfg performDealloc true oldisa newisa b.2
      else rootRelease_dealloc cfg performDealloc sideTableLocked oldisa newisa o

/-- The retry loop of `rootRelease`. The slow path
`rootRelease_underflow(performDealloc)` (NSObject.mm is not part of the
sources) is the call `rootRelease(performDealloc, true)`, as the comment at its
call site in objc-object.h records. -/
def rootRelease_loop (cfg : Config) (ops : RawIsaOps) :
    Nat → Bool → Bool → Bool → objc_object → Option (Bool × objc_object)
  | 0, _, _, _, _ => none
  | fuel + 1, performDealloc, handleUnderflow, sideTableLocked, o =>
    match rootRelease_pass cfg ops performDealloc handleUnderflow sideTableLocked o with
    | Pass.done r o1 => some (r, o1)
    | Pass.retry locked o1 =>
      rootRelease_loop cfg ops fuel performDealloc handleUnderflow locked o1
    | Pass.slow o1 =>
      if isTaggedPointer cfg o1 then some (false, o1)
      else rootRelease_loop cfg ops fuel performDealloc true false o1

/-- The method `objc_object::rootRelease(bool performDealloc, bool
handleUnderflow)`. -/
def rootRelease (cfg : Config) (ops : RawIsaOps) (fuel : Nat)
    (performDealloc handleUnderflow : Bool) (o : objc_object) : Option (Bool × objc_object) :=
  if isTaggedPointer cfg o then some (false, o)
  else rootRelease_loop cfg ops fuel performDealloc handleUnderflow false o

/-- Modelled from the spec: `rootRelease_underflow` (NSObject.mm is not part of
the sources): the retry with underflow handling. -/
def rootRelease_underflow (cfg : Config) (ops : RawIsaOps) (fuel : Nat) (performDealloc : Bool)
    (o : objc_object) : Option (Bool × objc_object) :=
  rootRelease cfg ops fuel performDealloc true o

/-- The method `objc_object::rootRelease()`. -/
def rootRelease0 (cfg : Config) (ops : RawIsaOps) (fuel : Nat) (o : objc_object) :
    Option (Bool × objc_object) :=
  rootRelease cfg ops fuel true false o

/-- The method `objc_object::rootReleaseShouldDealloc()`. -/
def rootReleaseShouldDealloc (cfg : Config) (ops : RawIsaOps) (fuel : Nat) (o : objc_object) :
    Option (Bool × objc_object) :=
  rootRelease cfg ops fuel false false o

/-- The method `objc_object::rootRetainCount()`. -/
def rootRetainCount (cfg : Config) (ops : RawIsaOps) (o : objc_object) : Nat × objc_object :=
  if isTaggedPointer cfg o then (o.self, o)
  else
    let o1 := sidetable_lock o
    let bits := LoadExclusive o1.isa
    if isa_indexed bits ≠ 0 then
      let rc := (1 + isa_extra_rc cfg.arch bits) % WORD
      let rc :=
        if isa_has_sidetable_rc cfg.arch bits ≠ 0 then (rc + sidetable_getExtraRC_nolock o1) % WORD
        else rc
      (rc, sidetable_unlock o1)
    else ops.sidetable_retainCount (sidetable_unlock o1)

/-! ## Flag setters, `initIsa`, `changeIsa` (objc-object.h) -/

/-- One traversal of `objc_object::setHasAssociatedObjects` from `retry:` on. -/
def setHasAssociatedObjects_pass (o : objc_object) : Pass Unit :=
  let oldisa := LoadExclusive o.isa
  let newisa := oldisa
  if isa_indexed newisa = 0 then Pass.done () o
  else if isa_has_assoc newisa ≠ 0 then Pass.done () o
  else
    let newisa := set_has_assoc newisa 1
    let st := StoreExclusive o.isa oldisa newisa
    if !st.1 then Pass.retry false { o with isa := st.2 }
    else Pass.done () { o with isa := st.2 }

/-- The retry loop of `setHasAssociatedObjects`. -/
def setHasAssociatedObjects_loop : Nat → objc_object → Option objc_object
  | 0, _ => none
  | fuel + 1, o =>
    match setHasAssociatedObjects_pass o with
    | Pass.done _ o1 => some o1
    | Pass.retry _ o1 => setHasAssociatedObjects_loop fuel o1
    | Pass.slow _ => none

/-- The method `objc_object::setHasAssociatedObjects`. -/
def setHasAssociatedObjects (cfg : Config) (fuel : Nat) (o : objc_object) : Option objc_object :=
  if isTaggedPointer cfg o then some o else setHasAssociatedObjects_loop fuel o

/-- One traversal of `objc_object::setWeaklyReferenced_nolock` from `retry:` on. -/
def setWeaklyReferenced_nolock_pass (cfg : Config) (ops : RawIsaOps) (o : objc_object) :
    Pass Unit :=
  let oldisa := LoadExclusive o.isa
  let newisa := oldisa
  if isa_indexed newisa = 0 then Pass.done () (ops.sidetable_setWeaklyReferenced_nolock o)
  else if isa_weakly_referenced cfg.arch newisa ≠ 0 then Pass.done () o
  else
    let newisa := set_weakly_referenced cfg.arch newisa 1
    let st := StoreExclusive o.isa oldisa newisa
    if !st.1 then Pass.retry false { o with isa := st.2 }
    else Pass.done () { o with isa := st.2 }

/-- The method `objc_object::setWeaklyReferenced_nolock` with its retry loop. -/
def setWeaklyReferenced_nolock (cfg : Config) (ops : RawIsaOps) :
    Nat → objc_object → Option objc_object
  | 0, _ => none
  | fuel + 1, o =>
    match setWeaklyReferenced_nolock_pass cfg ops o with
    | Pass.done _ o1 => some o1
    | Pass.retry _ o1 => setWeaklyReferenced_nolock cfg ops fuel o1
    | Pass.slow _ => none

/-- The method `objc_object::initIsa(Class cls, bool indexed, bool hasCxxDtor)`. -/
def initIsa (cfg : Config) (cls : Class) (indexed hasCxxDtor : Bool) (o : objc_object) :
    objc_object :=
  if !indexed then { o with isa := cls.addr }
  else
    let bits := ISA_MAGIC_VALUE cfg.arch
    let bits := set_has_cxx_dtor bits hasCxxDtor.toNat
    let bits := set_shiftcls cfg.arch bits (cls.addr / 2 ^ 3)
    { o with isa := bits }

/-- The method `objc_object::initInstanceIsa(Class cls, bool hasCxxDtor)`. -/
def initInstanceIsa (cfg : Config) (cls : Class) (hasCxxDtor : Bool) (o : objc_object) :
    objc_object :=
  initIsa cfg cls true hasCxxDtor o

/-- The store that ends the loop body of `changeIsa`, and the code after the
loop: transcription to the side table, unlock, and the old class. -/
def changeIsa_store (cfg : Config) (sideTableLocked transcribeToSideTable : Bool)
    (oldisa newisa : Nat) (o : objc_object) : Pass Nat :=
  let st := StoreExclusive o.isa oldisa newisa
  let o1 := { o with isa := st.2 }
  if !st.1 then Pass.retry sideTableLocked o1
  else
    let o2 :=
      if transcribeToSideTable then
        sidetable_moveExtraRC_nolock (isa_extra_rc cfg.arch oldisa)
          (isa_deallocating cfg.arch oldisa != 0) (isa_weakly_referenced cfg.arch oldisa != 0) o1
      else o1
    let o3 := if sideTableLocked then sidetable_unlock o2 else o2
    let oldCls :=
      if isa_indexed oldisa ≠ 0 then isa_shiftcls cfg.arch oldisa * 2 ^ 3 % WORD else oldisa
    Pass.done oldCls o3

/-- One traversal of the loop of `objc_object::changeIsa(Class newCls)`. -/
def changeIsa_pass (cfg : Config) (newCls : Class) (sideTableLocked : Bool) (o : objc_object) :
    Pass Nat :=
  let oldisa := LoadExclusive o.isa
  if (oldisa = 0 ∨ isa_indexed oldisa ≠ 0) ∧ newCls.isFuture = false
      ∧ newCls.canAllocIndexed = true then
    -- 0 -> indexed, indexed -> indexed
    let newisa := if oldisa = 0 then ISA_MAGIC_VALUE cfg.arch else oldisa
    let newisa := set_has_cxx_dtor newisa newCls.hasCxxDtor.toNat
    let newisa := set_shiftcls cfg.arch newisa (newCls.addr / 2 ^ 3)
    changeIsa_store cfg sideTableLocked false oldisa newisa o
  else if isa_indexed oldisa ≠ 0 then
    -- indexed -> not indexed
    let o1 := if !sideTableLocked then sidetable_lock o else o
    changeIsa_store cfg true true oldisa newCls.addr o1
  else
    -- not indexed -> not indexed
    changeIsa_store cfg sideTableLocked false oldisa newCls.addr o

/-- The method `objc_object::changeIsa(Class newCls)` with its retry loop; the
result is the old class pointer. -/
def changeIsa_loop (cfg : Config) (newCls : Class) :
    Nat → Bool → objc_object → Option (Nat × objc_object)
  | 0, _, _ => none
  | fuel + 1, sideTableLocked, o =>
    match changeIsa_pass cfg newCls sideTableLocked o with
    | Pass.done r o1 => some (r, o1)
    | Pass.retry locked o1 => changeIsa_loop cfg newCls fuel locked o1
    | Pass.slow _ => none

/-- The method `objc_object::changeIsa(Class newCls)`. -/
def changeIsa (cfg : Config) (newCls : Class) (fuel : Nat) (o : objc_object) :
    Option (Nat × objc_object) :=
  changeIsa_loop cfg newCls fuel false o

/-! ## Call sequences -/

/-- The three reference-counting entry points applied to one object. -/
inductive Call where
  | retain
  | tryRetain
  | release
deriving DecidableEq, Repr

/-- Perform one call: `rootRetain()`, `rootTryRetain()` or `rootRelease()`. -/
def runCall (cfg : Config) (ops : RawIsaOps) (fuel : Nat) (c : Call) (o : objc_object) :
    Option objc_object :=
  match c with
  | Call.retain => (rootRetain0 cfg ops fuel o).map Prod.snd
  | Call.tryRetain => (rootTryRetain cfg ops fuel o).map Prod.snd
  | Call.release => (rootRelease0 cfg ops fuel o).map Prod.snd

/-- Perform a sequence of calls, first call first. -/
def runCalls (cfg : Config) (ops : RawIsaOps) (fuel : Nat) :
    List Call → objc_object → Option objc_object
  | [], o => some o
  | c :: cs, o =>
    match runCall cfg ops fuel c o with
    | none => none
    | some o1 => runCalls cfg ops fuel cs o1

/-- A raw-isa side table that does nothing; used to instantiate the parameter
where the isa is indexed and the raw-isa primitives are never reached. -/
def inertOps : RawIsaOps where
  sidetable_retain := fun o => (some o.self, o)
  sidetable_tryRetain := fun o => (true, o)
  sidetable_release := fun _ o => (false, o)
  sidetable_retainCount := fun o => (0, o)
  sidetable_setWeaklyReferenced_nolock := fun o => o
  sidetable_isWeaklyReferenced := fun _ => false
  sidetable_isDeallocating := fun _ => false

/-- A fresh object at address `0x1000` with an all-zero isa word. -/
def blank : objc_object := { self := 0x1000, isa := 0, sidetable := none, trace := [] }

/-- A class at `0x2000` that allows an indexed isa. -/
def plainClass : Class :=
  { addr := 0x2000, isFuture := false, canAllocIndexed := true, hasCxxDtor := false }

/-- The x86_64 build with low-bit tagged pointers. -/
def x86 : Config := { arch := Arch.x86_64, SUPPORT_MSB_TAGGED_POINTERS := false }

/-- The arm64 build with high-bit tagged pointers. -/
def arm : Config := { arch := Arch.arm64, SUPPORT_MSB_TAGGED_POINTERS := true }


/-- A sample object at `0x1000` of class `plainClass`: an indexed isa with the
given inline count and flags, and the given side-table count (`none` for no
entry). -/
def sample (cfg : Config) (extra_rc has_sidetable_rc deallocating : Nat)
    (side : Option Nat) : objc_object :=
  { self := 0x1000
    isa := set_extra_rc cfg.arch
      (set_has_sidetable_rc cfg.arch
        (set_deallocating cfg.arch (initInstanceIsa cfg plainClass false blank).isa deallocating)
        has_sidetable_rc) extra_rc
    sidetable := side.map fun c =>
      { retain_count := c, weakly_referenced := false, deallocating := false }
    trace := [] }

/-! ## Class pointer and flag readers (objc-object.h) -/

/-- The method `objc_object::ISA()`: the class pointer kept in the isa word,
`isa.bits & ISA_MASK`. -/
def ISA (cfg : Config) (o : objc_object) : Nat :=
  o.isa &&& ISA_MASK cfg.arch

/-- The method `objc_object::isWeaklyReferenced()`. -/
def isWeaklyReferenced (cfg : Config) (ops : RawIsaOps) (o : objc_object) : Bool :=
  if isa_indexed o.isa ≠ 0 then isa_weakly_referenced cfg.arch o.isa != 0
  else ops.sidetable_isWeaklyReferenced o

/-- The method `objc_object::rootIsDeallocating()`. -/
def rootIsDeallocating (cfg : Config) (ops : RawIsaOps) (o : objc_object) : Bool :=
  if isTaggedPointer cfg o then false
  else if isa_indexed o.isa ≠ 0 then isa_deallocating cfg.arch o.isa != 0
  else ops.sidetable_isDeallocating o

/-! ## Lock striping (objc-private.h) and the lock pair discipline (objc-os.h) -/

/-- The constant `StripeCount` of `StripedMap`: 8 on embedded targets, 64
otherwise. -/
def StripeCount (TARGET_OS_EMBEDDED : Bool) : Nat :=
  if TARGET_OS_EMBEDDED then 8 else 64

/-- The function `StripedMap::indexForPointer`; the result is narrowed to
`unsigned int`. -/
def indexForPointer (TARGET_OS_EMBEDDED : Bool) (p : Nat) : Nat :=
  let addr := p
  ((addr >>> 4) ^^^ (addr >>> 9)) % StripeCount TARGET_OS_EMBEDDED % 2 ^ 32

/-- A `StripedMap<T>`: the array of stripes. -/
structure StripedMap (T : Type) where
  array : List T

/-- The operator `StripedMap::operator[]`: `array[indexForPointer(p)].value`;
`none` stands for an access outside the array. -/
def StripedMap.subscript {T : Type} (TARGET_OS_EMBEDDED : Bool) (m : StripedMap T) (p : Nat) :
    Option T :=
  m.array[indexForPointer TARGET_OS_EMBEDDED p]?

/-- What a `spinlock_t` operation does to the lock at an address. -/
inductive LockOp where
  | acquire (lock : Nat)
  | release (lock : Nat)
deriving DecidableEq, Repr

/-- The function `spinlock_t::lockTwo(lock1, lock2)`: the acquisitions it
performs, first one first. Locks are identified by their addresses. -/
def lockTwo (lock1 lock2 : Nat) : List LockOp :=
  if lock1 > lock2 then [LockOp.acquire lock1, LockOp.acquire lock2]
  else [LockOp.acquire lock2] ++ (if lock2 ≠ lock1 then [LockOp.acquire lock1] else [])

/-- The function `spinlock_t::unlockTwo(lock1, lock2)`: the releases it
performs, first one first. -/
def unlockTwo (lock1 lock2 : Nat) : List LockOp :=
  [LockOp.release lock1] ++ (if lock2 ≠ lock1 then [LockOp.release lock2] else [])

/-! ## Weak references (objc-weak.h declares them; objc-weak.mm is not part of the sources) -/

/-- The constant `WEAK_INLINE_COUNT`. -/
def WEAK_INLINE_COUNT : Nat := 4

/-- The record `weak_entry_t` of one referent: the referrer locations, kept in
the small inline array or, once that is full, out of line. -/
inductive weak_entry_t where
  | inline_referrers (refs : List Nat)
  | out_of_line (refs : List Nat)
deriving DecidableEq, Repr

/-- The referrer locations recorded in an entry. -/
def weak_entry_t.referrers : weak_entry_t → List Nat
  | weak_entry_t.inline_referrers refs => refs
  | weak_entry_t.out_of_line refs => refs

/-- Modelled from the spec: recording one more referrer in a Weak Entry
(objc-weak.mm is not part of the sources); the entry grows from inline to
out-of-line storage when the inline capacity is exceeded. -/
def weak_entry_insert (e : weak_entry_t) (referrer : Nat) : weak_entry_t :=
  match e with
  | weak_entry_t.inline_referrers refs =>
    if refs.length < WEAK_INLINE_COUNT then weak_entry_t.inline_referrers (refs ++ [referrer])
    else weak_entry_t.out_of_line (refs ++ [referrer])
  | weak_entry_t.out_of_line refs => weak_entry_t.out_of_line (refs ++ [referrer])

/-- The part of the process state that weak references reach: the objects by
address, the weak table from referent to entry, and the contents of the
`__weak` storage locations (`0` is nil). -/
structure World where
  objects : Nat → objc_object
  weak_table : List (Nat × weak_entry_t)
  weak_vars : Nat → Nat

/-- Modelled from the spec: `weak_register_no_lock`, the spec's
`registerReferrer` (objc-weak.mm is not part of the sources). A deallocating
referent is refused, nil is returned and nothing is stored (the crashing
variant is not told apart here); otherwise the location is recorded in the
referent's entry, created on first registration, and the referent is marked
weakly referenced. -/
def weak_register_no_lock (cfg : Config) (ops : RawIsaOps) (fuel : Nat) (referent referrer : Nat)
    (w : World) : Option (Option Nat × World) :=
  if rootIsDeallocating cfg ops (w.objects referent) then some (none, w)
  else
    match setWeaklyReferenced_nolock cfg ops fuel (w.objects referent) with
    | none => none
    | some o1 =>
      let entry :=
        match w.weak_table.lookup referent with
        | none => weak_entry_t.inline_referrers [referrer]
        | some e => weak_entry_insert e referrer
      let table := (referent, entry) :: w.weak_table.filter fun kv => kv.1 != referent
      some (some referent,
        { objects := Function.update w.objects referent o1
          weak_table := table
          weak_vars := w.weak_vars })

/-- Modelled from the spec: `weak_clear_no_lock`, the spec's
`clearAllWeakReferences` (objc-weak.mm is not part of the sources). Every
registered referrer location of the referent is set to nil, then the entry is
removed. -/
def weak_clear_no_lock (referent : Nat) (w : World) : World :=
  match w.weak_table.lookup referent with
  | none => w
  | some e =>
    { objects := w.objects
      weak_table := w.weak_table.filter fun kv => kv.1 != referent
      weak_vars := fun l => if l ∈ e.referrers then 0 else w.weak_vars l }

/-- Modelled from the spec: `clearDeallocating_slow` (NSObject.mm is not part of
the sources). Under the side-table lock the weak references of a weakly
referenced object are cleared and the side-table entry of an object with
side-table count is removed. -/
def clearDeallocating_slow (cfg : Config) (this : Nat) (w : World) : World :=
  let o := w.objects this
  let o1 := sidetable_lock o
  let w1 := if isa_weakly_referenced cfg.arch o.isa ≠ 0 then weak_clear_no_lock this w else w
  let o2 : objc_object :=
    if isa_has_sidetable_rc cfg.arch o.isa ≠ 0 then
      { self := o1.self, isa := o1.isa, sidetable := none, trace := o1.trace }
    else o1
  { objects := Function.update w1.objects this (sidetable_unlock o2)
    weak_table := w1.weak_table
    weak_vars := w1.weak_vars }

/-- The method `objc_object::clearDeallocating()` of the object at address
`this`; `sidetable_clearDeallocating`, the raw-isa path, is a parameter. -/
def clearDeallocating (cfg : Config) (sidetable_clearDeallocating : Nat → World → World)
    (this : Nat) (w : World) : World :=
  if isa_indexed (w.objects this).isa = 0 then sidetable_clearDeallocating this w
  else if isa_weakly_referenced cfg.arch (w.objects this).isa ≠ 0
      ∨ isa_has_sidetable_rc cfg.arch (w.objects this).isa ≠ 0 then
    clearDeallocating_slow cfg this w
  else w

/-- A world with one weakly referenced x86_64 object at `0x1000`, two `__weak`
variables at `0x500` and `0x508` that hold it, and both registered. -/
def weakWorld : World :=
  { objects := fun _ =>
      { self := 0x1000, isa := set_weakly_referenced Arch.x86_64 (sample x86 0 0 1 none).isa 1,
        sidetable := none, trace := [] }
    weak_table := [(0x1000, weak_entry_t.inline_referrers [0x500, 0x508])]
    weak_vars := fun l => if l = 0x500 ∨ l = 0x508 then 0x1000 else 0 }

/-! ## Loads and stores apart (objc-object.h)

The passes above run the load and the store of one traversal back to back. The
definitions of this section take the loaded value as an argument, so that the
object at the time of the store may differ from the object that was loaded
from: this is what another thread's store in between looks like to the
compare-and-swap. -/

/-- The body of the `do ... while` loop of `rootRetain` after
`oldisa = LoadExclusive(&isa.bits)`, together with the code after the loop:
`oldisa` is the value that was loaded, `o` is the object when the store is
attempted. With `oldisa = LoadExclusive o.isa` this is `rootRetain_pass`. -/
def rootRetain_stored (cfg : Config) (ops : RawIsaOps) (tryRetain handleOverflow : Bool)
    (sideTableLocked : Bool) (oldisa : Nat) (o : objc_object) : Pass (Option Nat) :=
  let newisa := oldisa
  if isa_indexed newisa = 0 then rootRetain_unindexed ops tryRetain sideTableLocked o
  else if tryRetain = true ∧ isa_deallocating cfg.arch newisa ≠ 0 then
    -- tryfail:
    let o1 := if !tryRetain && sideTableLocked then sidetable_unlock o else o
    Pass.done none o1
  else
    let r := addc newisa (RC_ONE cfg.arch) 0
    let newisa := r.1
    let carry := r.2
    if carry ≠ 0 ∧ handleOverflow = false then Pass.slow o
    else
      let o1 :=
        if carry ≠ 0 ∧ tryRetain = false ∧ sideTableLocked = false then sidetable_lock o else o
      let sideTableLocked := if carry ≠ 0 then true else sideTableLocked
      let transcribeToSideTable : Bool := carry ≠ 0
      let newisa :=
        if carry ≠ 0 then
          set_has_sidetable_rc cfg.arch (set_extra_rc cfg.arch newisa (RC_HALF cfg.arch)) 1
        else newisa
      let st := StoreExclusive o1.isa oldisa newisa
      let o2 := { o1 with isa := st.2 }
      if !st.1 then Pass.retry sideTableLocked o2
      else
        let o3 :=
          if transcribeToSideTable then sidetable_addExtraRC_nolock (RC_HALF cfg.arch) o2 else o2
        let o4 := if !tryRetain && sideTableLocked then sidetable_unlock o3 else o3
        Pass.done (some o.self) o4

/-- The code of `rootRelease` after `oldisa = LoadExclusive(&isa.bits)` at the
label `retry:`: `oldisa` is the value that was loaded, `o` is the object when
the stores are attempted. With `oldisa = LoadExclusive o.isa` this is
`rootRelease_pass`. -/
def rootRelease_stored (cfg : Config) (ops : RawIsaOps) (performDealloc handleUnderflow : Bool)
    (sideTableLocked : Bool) (oldisa : Nat) (o : objc_object) : Pass Bool :=
  let newisa := oldisa
  if isa_indexed newisa = 0 then rootRelease_unindexed ops performDealloc sideTableLocked o
  else
    let r := subc newisa (RC_ONE cfg.arch) 0
    let carry := r.2
    if carry = 0 then
      let st := StoreReleaseExclusive o.isa oldisa r.1
      let o1 := { o with isa := st.2 }
      if !st.1 then Pass.retry sideTableLocked o1
      else Pass.done false (if sideTableLocked then sidetable_unlock o1 else o1)
    else
      -- underflow: abandon newisa to undo the decrement
      let newisa := oldisa
      if isa_has_sidetable_rc cfg.arch newisa ≠ 0 then
        if handleUnderflow = false then Pass.slow o
        else
          let o1 := if !sideTableLocked then sidetable_lock o else o
          if sideTableLocked = false ∧ isa_indexed o1.isa = 0 then
            rootRelease_unindexed ops performDealloc true o1
          else
            let b := sidetable_subExtraRC_nolock (RC_HALF cfg.arch) o1
            let borrowed := b.1
            if borrowed > 0 then rootRelease_borrowed cfg borrowed oldisa newisa b.2
            else rootRelease_dealloc cfg performDealloc true oldisa newisa b.2
      else rootRelease_dealloc cfg performDealloc sideTableLocked oldisa newisa o

/-- The part of `rootRelease` that follows a positive borrow, with the stores
of other threads made explicit: `o.isa` is the isa word when the first store is
attempted, `reread` is the word that `LoadExclusive` returns in the immediate
second attempt, and `atstore` is the word in memory when
`StoreReleaseExclusive` is attempted. With `reread = atstore = o.isa` this is
`rootRelease_borrowed`. -/
def rootRelease_borrowed_racing (cfg : Config) (borrowed oldisa newisa : Nat)
    (reread atstore : Nat) (o : objc_object) : Pass Bool :=
  let newisa := set_extra_rc cfg.arch newisa (borrowed - 1)
  let st := StoreExclusive o.isa oldisa newisa
  let o1 := { o with isa := st.2 }
  let second : Bool × objc_object :=
    if !st.1 then
      let o2 := { o1 with isa := reread }
      let oldisa2 := LoadExclusive o2.isa
      let newisa2 := oldisa2
      if isa_indexed newisa2 ≠ 0 then
        let r := addc newisa2 (RC_ONE cfg.arch * (borrowed - 1) % WORD) 0
        if r.2 = 0 then
          let o3 := { o2 with isa := atstore }
          let st2 := StoreReleaseExclusive o3.isa oldisa2 r.1
          (st2.1, { o3 with isa := st2.2 })
        else (st.1, o2)
      else (st.1, o2)
    else (st.1, o1)
  if !second.1 then Pass.retry true (sidetable_addExtraRC_nolock borrowed second.2)
  else Pass.done false (sidetable_unlock second.2)

/-- Where a thread stands in `rootRetain` or `rootRelease`: before the
`LoadExclusive` of a traversal (with the current `handleOverflow` or
`handleUnderflow` and `sideTableLocked`), between the load and the store
(holding the loaded word), or after its return. -/
inductive Phase (ρ : Type) where
  | loading (handle : Bool) (sideTableLocked : Bool)
  | storing (handle : Bool) (sideTableLocked : Bool) (oldisa : Nat)
  | returned (r : ρ)
deriving DecidableEq, Repr

/-- Two threads on one object: one inside `rootRelease(performDealloc,
handleUnderflow)`, the other inside `rootRetain(true, handleOverflow)`, the
try-retain. -/
structure Race where
  obj : objc_object
  releasing : Phase Bool
  retaining : Phase (Option Nat)
deriving DecidableEq, Repr

/-- The two threads of a `Race`. -/
inductive Thread where
  | releaser
  | retainer
deriving DecidableEq, Repr

/-- One step of the releasing thread: the load, or everything from the load to
the next store or return. -/
def Race.stepRelease (cfg : Config) (ops : RawIsaOps) (performDealloc : Bool) (s : Race) : Race :=
  match s.releasing with
  | Phase.loading h l =>
    { obj := s.obj, releasing := Phase.storing h l (LoadExclusive s.obj.isa),
      retaining := s.retaining }
  | Phase.storing h l oldisa =>
    match rootRelease_stored cfg ops performDealloc h l oldisa s.obj with
    | Pass.done r o => { obj := o, releasing := Phase.returned r, retaining := s.retaining }
    | Pass.retry locked o =>
      { obj := o, releasing := Phase.loading h locked, retaining := s.retaining }
    | Pass.slow o =>
      { obj := o,
        releasing := if isTaggedPointer cfg o then Phase.returned false
          else Phase.loading true false,
        retaining := s.retaining }
  | Phase.returned _ => s

/-- One step of the try-retaining thread: the load, or everything from the load
to the next store or return. -/
def Race.stepTryRetain (cfg : Config) (ops : RawIsaOps) (s : Race) : Race :=
  match s.retaining with
  | Phase.loading h l =>
    { obj := s.obj, releasing := s.releasing,
      retaining := Phase.storing h l (LoadExclusive s.obj.isa) }
  | Phase.storing h l oldisa =>
    match rootRetain_stored cfg ops true h l oldisa s.obj with
    | Pass.done r o => { obj := o, releasing := s.releasing, retaining := Phase.returned r }
    | Pass.retry locked o =>
      { obj := o, releasing := s.releasing, retaining := Phase.loading h locked }
    | Pass.slow o =>
      { obj := o, releasing := s.releasing,
        retaining := if isTaggedPointer cfg o then Phase.returned (some o.self)
          else Phase.loading true false }
  | Phase.returned _ => s

/-- One step of the thread that the scheduler picks. -/
def Race.step (cfg : Config) (ops : RawIsaOps) (performDealloc : Bool) (t : Thread) (s : Race) :
    Race :=
  match t with
  | Thread.releaser => Race.stepRelease cfg ops performDealloc s
  | Thread.retainer => Race.stepTryRetain cfg ops s

/-- An interleaving: the threads take their steps in the order of the schedule. -/
def Race.run (cfg : Config) (ops : RawIsaOps) (performDealloc : Bool) :
    List Thread → Race → Race
  | [], s => s
  | t :: rest, s => Race.run cfg ops performDealloc rest (Race.step cfg ops performDealloc t s)

/-- The start of the race: `rootRelease(performDealloc, false)` and
`rootTryRetain()`, which is `rootRetain(true, false)`, have both passed the
tagged-pointer test and have not loaded yet. -/
def Race.start (o : objc_object) : Race :=
  { obj := o, releasing := Phase.loading false false, retaining := Phase.loading false false }

/-- A thread that has not returned and that, between its load and its store,
holds one of the words `vals`. -/
def Phase.pending {ρ : Type} (vals : List Nat) : Phase ρ → Prop
  | Phase.loading _ _ => True
  | Phase.storing _ _ v => v ∈ vals
  | Phase.returned _ => False

/-- The states that the race on an object `o` with retain count 1 passes
through. The pointer and the side-table entry stay as they are, and one of
five holds: nothing is stored yet; the try-retain has stored its increment and
returned the object; the release has then stored its decrement and returned
false; the release has stored the deallocating bit and returned true; the
try-retain has then returned nil. -/
def Race.reachable (cfg : Config) (o : objc_object) (s : Race) : Prop :=
  s.obj.self = o.self ∧ s.obj.sidetable = o.sidetable
    ∧ ((s.obj.isa = o.isa ∧ Phase.pending [o.isa] s.releasing
          ∧ Phase.pending [o.isa] s.retaining)
      ∨ (s.obj.isa = (addc o.isa (RC_ONE cfg.arch) 0).1
          ∧ s.retaining = Phase.returned (some o.self)
          ∧ Phase.pending [o.isa, (addc o.isa (RC_ONE cfg.arch) 0).1] s.releasing)
      ∨ (s.obj.isa = o.isa ∧ s.retaining = Phase.returned (some o.self)
          ∧ s.releasing = Phase.returned false)
      ∨ (s.obj.isa = set_deallocating cfg.arch o.isa 1
          ∧ s.releasing = Phase.returned true
          ∧ Phase.pending [o.isa, set_deallocating cfg.arch o.isa 1] s.retaining)
      ∨ (s.obj.isa = set_deallocating cfg.arch o.isa 1
          ∧ s.releasing = Phase.returned true
          ∧ s.retaining = Phase.returned none))

/-- A bound on the steps that the releasing thread of the race on `o` still
takes: at most one slow-path restart and one store lost to the try-retain. -/
def Race.releaseBound (o : objc_object) (s : Race) : Nat :=
  match s.releasing with
  | Phase.returned _ => 0
  | Phase.loading h _ => if s.obj.isa = o.isa then (if h then 4 else 6) else 2
  | Phase.storing h _ v =>
    if s.obj.isa = o.isa then (if h then 3 else 5) else if v = s.obj.isa then 1 else 3

/-- A bound on the steps that the try-retaining thread of the race on `o` still
takes: at most one store lost to the release. -/
def Race.retainBound (o : objc_object) (s : Race) : Nat :=
  match s.retaining with
  | Phase.returned _ => 0
  | Phase.loading _ _ => if s.obj.isa = o.isa then 4 else 2
  | Phase.storing _ _ v =>
    if s.obj.isa = o.isa then 3 else if v = s.obj.isa then 1 else 3

/-! ## Deallocation (objc-object.h) -/

/-- What `rootDealloc` does with the memory of the object. -/
inductive Disposal where
  | skipped
  | freed
  | disposed
deriving DecidableEq, Repr

/-- The method `objc_object::rootDealloc()`: nothing for a tagged pointer,
`free(this)` on the fast path, `object_dispose((id)this)` otherwise. -/
def rootDealloc (cfg : Config) (o : objc_object) : Disposal :=
  if isTaggedPointer cfg o then Disposal.skipped
  else if isa_indexed o.isa ≠ 0
      ∧ isa_weakly_referenced cfg.arch o.isa = 0
      ∧ isa_has_assoc o.isa = 0
      ∧ isa_has_cxx_dtor o.isa = 0
      ∧ isa_has_sidetable_rc cfg.arch o.isa = 0 then
    Disposal.freed
  else Disposal.disposed

/-- The branch that `objc_object::clearDeallocating()` takes. -/
inductive ClearPath where
  | sidetable
  | slow
  | nothing
deriving DecidableEq, Repr

/-- The branch selection of `objc_object::clearDeallocating()`, the same tests
as in `clearDeallocating`. -/
def clearDeallocating_path (cfg : Config) (o : objc_object) : ClearPath :=
  if isa_indexed o.isa = 0 then ClearPath.sidetable
  else if isa_weakly_referenced cfg.arch o.isa ≠ 0 ∨ isa_has_sidetable_rc cfg.arch o.isa ≠ 0 then
    ClearPath.slow
  else ClearPath.nothing

/-! ## Class flags (objc-runtime-new.h) -/

/-- The method `class_rw_t::setFlags`: `OSAtomicOr32Barrier(set, &flags)` on the
32-bit flags word; the result is the new value of `flags`. -/
def class_rw_t.setFlags (flags set : Nat) : Nat :=
  (flags ||| set) % 2 ^ 32

/-- The method `class_rw_t::clearFlags`: `OSAtomicXor32Barrier(clear, &flags)`
on the 32-bit flags word; the result is the new value of `flags`. -/
def class_rw_t.clearFlags (flags clear : Nat) : Nat :=
  (flags ^^^ clear) % 2 ^ 32

/-- The method `class_rw_t::changeFlags`: the stored word is
`(oldf | set) & ~clear`; the compare-and-swap loop is run without
interference. -/
def class_rw_t.changeFlags (flags set clear : Nat) : Nat :=
  ((flags ||| set) &&& (2 ^ 32 - 1 - clear % 2 ^ 32)) % 2 ^ 32

/-- The method `objc_class::clearInfo`: `data()->clearFlags(clear)`. -/
def objc_class.clearInfo (flags clear : Nat) : Nat :=
  class_rw_t.clearFlags flags clear

/-- The flag `RW_HAS_DEFAULT_AWZ`, `1<<16`. -/
def RW_HAS_DEFAULT_AWZ : Nat := 2 ^ 16

/-- The flag `RW_REALIZED`, `1<<31`. -/
def RW_REALIZED : Nat := 2 ^ 31

/-- The flag `RW_INITIALIZING`, `1<<28`. -/
def RW_INITIALIZING : Nat := 2 ^ 28

/-- The method `objc_class::hasDefaultAWZ` where the bit is kept in the flags
of `class_rw_t`: `data()->flags & RW_HAS_DEFAULT_AWZ`. -/
def objc_class.hasDefaultAWZ (flags : Nat) : Bool :=
  flags &&& RW_HAS_DEFAULT_AWZ != 0

/-- The method `objc_class::setHasCustomAWZ` where the bit is kept in the flags
of `class_rw_t`: `data()->clearFlags(RW_HAS_DEFAULT_AWZ)`. -/
def objc_class.setHasCustomAWZ (flags : Nat) : Nat :=
  class_rw_t.clearFlags flags RW_HAS_DEFAULT_AWZ

/-! ## Entry lists (objc-runtime-new.h) -/

/-- The constant `WORD_MASK` for `__LP64__`, the word size of both
architectures of `Arch`. -/
def WORD_MASK : Nat := 7

/-- The function `word_align(uint32_t x)`: `(x + WORD_MASK) & ~WORD_MASK`,
formed in `unsigned long` and narrowed to `uint32_t` on return. -/
def word_align (x : Nat) : Nat :=
  ((x + WORD_MASK) % WORD &&& (WORD - 1 - WORD_MASK)) % 2 ^ 32

/-- The part of `class_ro_t` read here: the 32-bit `instanceSize`. -/
structure class_ro_t where
  instanceSize : Nat
deriving DecidableEq, Repr

/-- The method `objc_class::unalignedInstanceSize` of a realized class. -/
def objc_class.unalignedInstanceSize (ro : class_ro_t) : Nat :=
  ro.instanceSize % 2 ^ 32

/-- The method `objc_class::alignedInstanceSize`. -/
def objc_class.alignedInstanceSize (ro : class_ro_t) : Nat :=
  word_align (objc_class.unalignedInstanceSize ro)

/-- The method `objc_class::instanceSize(size_t extraBytes)`; the sum is formed
in `size_t`. -/
def objc_class.instanceSize (ro : class_ro_t) (extraBytes : Nat) : Nat :=
  let size := (objc_class.alignedInstanceSize ro + extraBytes) % WORD
  if size < 16 then 16 else size

/-! ## Lists of lists (objc-runtime-new.h) -/

/-- The struct `list_array_tt::array_t`: the 32-bit `count` and the slots
`lists` of the allocation, each a pointer to a list. -/
structure array_t where
  count : Nat
  lists : List Nat
deriving DecidableEq, Repr

/-- The union of `list_array_tt`: either the pointer `list` (`0` is nil), or,
when the low bit of `arrayAndFlag` is set, the array it points to. -/
inductive list_array_tt where
  | single (list : Nat)
  | many (array : array_t)
deriving DecidableEq, Repr

/-- The method `list_array_tt::hasArray`. -/
def list_array_tt.hasArray : list_array_tt → Bool
  | list_array_tt.single _ => false
  | list_array_tt.many _ => true

/-- The method `list_array_tt::countLists`. -/
def list_array_tt.countLists : list_array_tt → Nat
  | list_array_tt.many a => a.count
  | list_array_tt.single list => if list ≠ 0 then 1 else 0

/-- The list pointers met when stepping from `beginLists()` to `endLists()`:
the first `count` slots of the array, or the single list if it is not nil. -/
def list_array_tt.iterated : list_array_tt → List Nat
  | list_array_tt.many a => a.lists.take a.count
  | list_array_tt.single list => if list ≠ 0 then [list] else []

/-- The method `list_array_tt::count`: the loop `result += (*lists)->count`
over the iterated lists, in `uint32_t`; `count_of` reads the `count` word of
the list at an address. -/
def list_array_tt.count (count_of : Nat → Nat) (s : list_array_tt) : Nat :=
  s.iterated.foldl (fun result list => (result + count_of list % 2 ^ 32) % 2 ^ 32) 0

/-- The method `list_array_tt::attachLists`; `addedLists` is the memory that
the first argument points to, of which `addedCount` slots are read. -/
def list_array_tt.attachLists (s : list_array_tt) (addedLists : List Nat) (addedCount : Nat) :
    list_array_tt :=
  if addedCount = 0 then s
  else
    match s with
    | list_array_tt.many a =>
      -- many lists -> many lists
      let oldCount := a.count
      let newCount := (oldCount + addedCount) % 2 ^ 32
      list_array_tt.many
        { count := newCount, lists := addedLists.take addedCount ++ a.lists.take oldCount }
    | list_array_tt.single list =>
      if list = 0 ∧ addedCount = 1 then
        -- 0 lists -> 1 list
        list_array_tt.single (addedLists.headD 0)
      else
        -- 1 list -> many lists
        let oldList := list
        let oldCount := if oldList ≠ 0 then 1 else 0
        let newCount := (oldCount + addedCount) % 2 ^ 32
        list_array_tt.many
          { count := newCount
            lists := addedLists.take addedCount ++ (if oldList ≠ 0 then [oldList] else []) }

/-! ## The tree of realized classes (objc-runtime-new.h) -/

/-- The links between realized classes, by class address (`0` is nil):
`cls->superclass`, `cls->data()->firstSubclass` and
`cls->data()->nextSiblingClass`. -/
structure ClassLinks where
  superclass : Nat → Nat
  firstSubclass : Nat → Nat
  nextSiblingClass : Nat → Nat

/-- The inner loop of `foreach_realized_class_and_subclass_2`:
`while (!cls->data()->nextSiblingClass && cls != top) cls = cls->superclass;`
The result is the class at which the loop stops. -/
def climb (g : ClassLinks) (top : Nat) : Nat → Nat → Option Nat
  | 0, _ => none
  | fuel + 1, cls =>
    if g.nextSiblingClass cls = 0 ∧ cls ≠ top then climb g top fuel (g.superclass cls)
    else some cls

/-- The loop `while (1)` of `foreach_realized_class_and_subclass_2(top, code)`
from the class `cls` on; `visited` lists the classes on which `code` has been
invoked so far, and the result is that list when the loop is left. -/
def foreach_loop (g : ClassLinks) (code : Nat → Bool) (top : Nat) :
    Nat → Nat → List Nat → Option (List Nat)
  | 0, _, _ => none
  | fuel + 1, cls, visited =>
    let visited := visited ++ [cls]
    if !code cls then some visited
    else if g.firstSubclass cls ≠ 0 then
      foreach_loop g code top fuel (g.firstSubclass cls) visited
    else
      match climb g top (fuel + 1) cls with
      | none => none
      | some c =>
        if c = top then some visited
        else foreach_loop g code top fuel (g.nextSiblingClass c) visited

/-- The function `foreach_realized_class_and_subclass_2(top, code)`; the result
lists the classes on which `code` was invoked, in order. -/
def foreach_realized_class_and_subclass_2 (g : ClassLinks) (fuel : Nat) (top : Nat)
    (code : Nat → Bool) : Option (List Nat) :=
  foreach_loop g code top fuel top []

/-- The function `foreach_realized_class_and_subclass(top, code)`: the block
passed on invokes `code` and returns true. -/
def foreach_realized_class_and_subclass (g : ClassLinks) (fuel : Nat) (top : Nat) :
    Option (List Nat) :=
  foreach_realized_class_and_subclass_2 g fuel top (fun _ => true)

/-- What the loop of `foreach_realized_class_and_subclass_2` does once `cls`
and everything below it have been visited: the inner loop from `cls` upwards,
then the `break` at `top` or the step to the sibling that was found. -/
def foreach_leave (g : ClassLinks) (code : Nat → Bool) (top : Nat) (fuel : Nat) (cls : Nat)
    (visited : List Nat) : Option (List Nat) :=
  match climb g top (fuel + 1) cls with
  | none => none
  | some c =>
    if c = top then some visited
    else foreach_loop g code top fuel (g.nextSiblingClass c) visited

/-- The classes of a list up to and including the first one on which `code`
returns false; the whole list if there is none. -/
def visitedUntil (code : Nat → Bool) : List Nat → List Nat
  | [] => []
  | c :: rest => if code c then c :: visitedUntil code rest else [c]

/-- A finite forest of classes in first-child, next-sibling form:
`node cls subclasses siblings` is the class `cls`, the forest of its
subclasses, and the forest of the siblings that follow it. -/
inductive Forest where
  | none
  | node (cls : Nat) (subclasses : Forest) (siblings : Forest)
deriving DecidableEq, Repr

/-- The first class of a forest, nil if it is empty. -/
def Forest.head : Forest → Nat
  | Forest.none => 0
  | Forest.node cls _ _ => cls

/-- The classes of a forest, each class before its subclasses and those before
its following siblings. -/
def Forest.classes : Forest → List Nat
  | Forest.none => []
  | Forest.node cls subclasses siblings => cls :: (subclasses.classes ++ siblings.classes)

/-- The links `g` are consistent with the forest `f` whose classes all have the
superclass `parent`: every class is not nil, its superclass is `parent`, its
first subclass is the head of its subclasses, and its next sibling is the head
of the siblings that follow. -/
def Forest.linked (g : ClassLinks) (parent : Nat) : Forest → Prop
  | Forest.none => True
  | Forest.node cls subclasses siblings =>
    cls ≠ 0 ∧ g.superclass cls = parent
      ∧ g.firstSubclass cls = subclasses.head
      ∧ g.nextSiblingClass cls = siblings.head
      ∧ Forest.linked g cls subclasses ∧ Forest.linked g parent siblings

/-- A well-formed class tree below `top`: `top` is not nil, its first subclass
is the head of the forest `subclasses`, the links of the forest are
consistent, and no class occurs twice. The siblings and the superclass of
`top` are not constrained. -/
def wellFormedTree (g : ClassLinks) (top : Nat) (subclasses : Forest) : Prop :=
  top ≠ 0 ∧ g.firstSubclass top = subclasses.head ∧ Forest.linked g top subclasses
    ∧ (top :: subclasses.classes).Nodup

/-- The links of the six classes `1` to `6`: `2` and `5` are the subclasses of
`1`, `3` and `4` those of `2`, and `6` is a sibling of `1`. -/
def sampleLinks : ClassLinks :=
  { superclass := fun c => if c = 2 ∨ c = 5 then 1 else if c = 3 ∨ c = 4 then 2 else 0
    firstSubclass := fun c => if c = 1 then 2 else if c = 2 then 3 else 0
    nextSiblingClass := fun c =>
      if c = 1 then 6 else if c = 2 then 5 else if c = 3 then 4 else 0 }

/-- The forest of the subclasses of class `1` in `sampleLinks`. -/
def sampleForest : Forest :=
  Forest.node 2 (Forest.node 3 Forest.none (Forest.node 4 Forest.none Forest.none))
    (Forest.node 5 Forest.none Forest.none)

/-! ## Bit-field lemmas -/

theorem addc_fst_lt (x y c : Nat) : (addc x y c).1 < WORD :=
  Nat.mod_lt _ (by decide)

theorem subc_fst_lt (x y c : Nat) : (subc x y c).1 < WORD :=
  Nat.mod_lt _ (by decide)

theorem storeExclusive_same (m v : Nat) : StoreExclusive m m v = (true, v) := by
  simp [StoreExclusive]

theorem storeReleaseExclusive_same (m v : Nat) : StoreReleaseExclusive m m v = (true, v) := by
  simp [StoreReleaseExclusive, StoreExclusive]

theorem rc_half_double (a : Arch) : 2 * RC_HALF a = 2 ^ extra_rc_width a := by
  cases a <;> simp [RC_HALF, extra_rc_width]

theorem rc_half_pos (a : Arch) : 0 < RC_HALF a := by
  cases a <;> simp [RC_HALF]

theorem decode_addc (a : Arch) (b : Nat) :
    decode a (addc b (RC_ONE a) 0).1
      = { decode a b with extra_rc := (isa_extra_rc a b + 1) % 2 ^ extra_rc_width a } := by
  cases a <;>
    simp only [decode, addc, WORD, RC_ONE, isa_indexed, isa_has_assoc, isa_has_cxx_dtor,
      isa_shiftcls, isa_magic, isa_weakly_referenced, isa_deallocating, isa_has_sidetable_rc,
      isa_extra_rc, getField, off_indexed, off_has_assoc, off_has_cxx_dtor, off_shiftcls,
      off_magic, off_weakly_referenced, off_deallocating, off_has_sidetable_rc, off_extra_rc,
      shiftcls_width, extra_rc_width, IsaFields.mk.injEq] <;>
    refine ⟨?_, ?_, ?_, ?_, ?_, ?_, ?_, ?_, ?_⟩ <;> omega

theorem addc_carry_iff (a : Arch) (b : Nat) (hb : b < WORD) :
    (addc b (RC_ONE a) 0).2 ≠ 0 ↔ isa_extra_rc a b + 1 = 2 ^ extra_rc_width a := by
  cases a <;>
    simp only [addc, WORD, RC_ONE, isa_extra_rc, getField, off_extra_rc, shiftcls_width,
      extra_rc_width] at hb ⊢ <;>
    split <;> omega

theorem decode_subc (a : Arch) (b : Nat) (hb : b < WORD) :
    decode a (subc b (RC_ONE a) 0).1
      = { decode a b with
          extra_rc := (isa_extra_rc a b + 2 ^ extra_rc_width a - 1) % 2 ^ extra_rc_width a } := by
  cases a <;>
    simp only [decode, subc, WORD, RC_ONE, isa_indexed, isa_has_assoc, isa_has_cxx_dtor,
      isa_shiftcls, isa_magic, isa_weakly_referenced, isa_deallocating, isa_has_sidetable_rc,
      isa_extra_rc, getField, off_indexed, off_has_assoc, off_has_cxx_dtor, off_shiftcls,
      off_magic, off_weakly_referenced, off_deallocating, off_has_sidetable_rc, off_extra_rc,
      shiftcls_width, extra_rc_width, IsaFields.mk.injEq] at hb ⊢ <;>
    refine ⟨?_, ?_, ?_, ?_, ?_, ?_, ?_, ?_, ?_⟩ <;> omega

theorem subc_borrow_iff (a : Arch) (b : Nat) (hb : b < WORD) :
    (subc b (RC_ONE a) 0).2 = 0 ↔ isa_extra_rc a b ≠ 0 := by
  cases a <;>
    simp only [subc, WORD, RC_ONE, isa_extra_rc, getField, off_extra_rc, shiftcls_width,
      extra_rc_width] at hb ⊢ <;>
    split <;> omega

theorem decode_set_extra_rc (a : Arch) (b v : Nat) :
    decode a (set_extra_rc a b v) = { decode a b with extra_rc := v % 2 ^ extra_rc_width a } := by
  cases a <;>
    simp only [decode, set_extra_rc, setField, isa_indexed, isa_has_assoc, isa_has_cxx_dtor,
      isa_shiftcls, isa_magic, isa_weakly_referenced, isa_deallocating, isa_has_sidetable_rc,
      isa_extra_rc, getField, off_indexed, off_has_assoc, off_has_cxx_dtor, off_shiftcls,
      off_magic, off_weakly_referenced, off_deallocating, off_has_sidetable_rc, off_extra_rc,
      shiftcls_width, extra_rc_width, IsaFields.mk.injEq] <;>
    refine ⟨?_, ?_, ?_, ?_, ?_, ?_, ?_, ?_, ?_⟩ <;> omega

theorem decode_set_has_sidetable_rc (a : Arch) (b v : Nat) :
    decode a (set_has_sidetable_rc a b v) = { decode a b with has_sidetable_rc := v % 2 } := by
  cases a <;>
    simp only [decode, set_has_sidetable_rc, setField, isa_indexed, isa_has_assoc,
      isa_has_cxx_dtor,
      isa_shiftcls, isa_magic, isa_weakly_referenced, isa_deallocating, isa_has_sidetable_rc,
      isa_extra_rc, getField, off_indexed, off_has_assoc, off_has_cxx_dtor, off_shiftcls,
      off_magic, off_weakly_referenced, off_deallocating, off_has_sidetable_rc, off_extra_rc,
      shiftcls_width, extra_rc_width, IsaFields.mk.injEq] <;>
    refine ⟨?_, ?_, ?_, ?_, ?_, ?_, ?_, ?_, ?_⟩ <;> omega

theorem decode_set_deallocating (a : Arch) (b v : Nat) :
    decode a (set_deallocating a b v) = { decode a b with deallocating := v % 2 } := by
  cases a <;>
    simp only [decode, set_deallocating, setField, isa_indexed, isa_has_assoc,
      isa_has_cxx_dtor,
      isa_shiftcls, isa_magic, isa_weakly_referenced, isa_deallocating, isa_has_sidetable_rc,
      isa_extra_rc, getField, off_indexed, off_has_assoc, off_has_cxx_dtor, off_shiftcls,
      off_magic, off_weakly_referenced, off_deallocating, off_has_sidetable_rc, off_extra_rc,
      shiftcls_width, extra_rc_width, IsaFields.mk.injEq] <;>
    refine ⟨?_, ?_, ?_, ?_, ?_, ?_, ?_, ?_, ?_⟩ <;> omega

theorem decode_set_weakly_referenced (a : Arch) (b v : Nat) :
    decode a (set_weakly_referenced a b v) = { decode a b with weakly_referenced := v % 2 } := by
  cases a <;>
    simp only [decode, set_weakly_referenced, setField, isa_indexed, isa_has_assoc,
      isa_has_cxx_dtor,
      isa_shiftcls, isa_magic, isa_weakly_referenced, isa_deallocating, isa_has_sidetable_rc,
      isa_extra_rc, getField, off_indexed, off_has_assoc, off_has_cxx_dtor, off_shiftcls,
      off_magic, off_weakly_referenced, off_deallocating, off_has_sidetable_rc, off_extra_rc,
      shiftcls_width, extra_rc_width, IsaFields.mk.injEq] <;>
    refine ⟨?_, ?_, ?_, ?_, ?_, ?_, ?_, ?_, ?_⟩ <;> omega

theorem decode_set_has_assoc (a : Arch) (b v : Nat) :
    decode a (set_has_assoc b v) = { decode a b with has_assoc := v % 2 } := by
  cases a <;>
    simp only [decode, set_has_assoc, setField, isa_indexed, isa_has_assoc,
      isa_has_cxx_dtor,
      isa_shiftcls, isa_magic, isa_weakly_referenced, isa_deallocating, isa_has_sidetable_rc,
      isa_extra_rc, getField, off_indexed, off_has_assoc, off_has_cxx_dtor, off_shiftcls,
      off_magic, off_weakly_referenced, off_deallocating, off_has_sidetable_rc, off_extra_rc,
      shiftcls_width, extra_rc_width, IsaFields.mk.injEq] <;>
    refine ⟨?_, ?_, ?_, ?_, ?_, ?_, ?_, ?_, ?_⟩ <;> omega

theorem decode_set_has_cxx_dtor (a : Arch) (b v : Nat) :
    decode a (set_has_cxx_dtor b v) = { decode a b with has_cxx_dtor := v % 2 } := by
  cases a <;>
    simp only [decode, set_has_cxx_dtor, setField, isa_indexed, isa_has_assoc,
      isa_has_cxx_dtor,
      isa_shiftcls, isa_magic, isa_weakly_referenced, isa_deallocating, isa_has_sidetable_rc,
      isa_extra_rc, getField, off_indexed, off_has_assoc, off_has_cxx_dtor, off_shiftcls,
      off_magic, off_weakly_referenced, off_deallocating, off_has_sidetable_rc, off_extra_rc,
      shiftcls_width, extra_rc_width, IsaFields.mk.injEq] <;>
    refine ⟨?_, ?_, ?_, ?_, ?_, ?_, ?_, ?_, ?_⟩ <;> omega

theorem decode_set_shiftcls (a : Arch) (b v : Nat) :
    decode a (set_shiftcls a b v) = { decode a b with shiftcls := v % 2 ^ shiftcls_width a } := by
  cases a <;>
    simp only [decode, set_shiftcls, setField, isa_indexed, isa_has_assoc,
      isa_has_cxx_dtor,
      isa_shiftcls, isa_magic, isa_weakly_referenced, isa_deallocating, isa_has_sidetable_rc,
      isa_extra_rc, getField, off_indexed, off_has_assoc, off_has_cxx_dtor, off_shiftcls,
      off_magic, off_weakly_referenced, off_deallocating, off_has_sidetable_rc, off_extra_rc,
      shiftcls_width, extra_rc_width, IsaFields.mk.injEq] <;>
    refine ⟨?_, ?_, ?_, ?_, ?_, ?_, ?_, ?_, ?_⟩ <;> omega

theorem set_extra_rc_lt (a : Arch) (b v : Nat) (hb : b < WORD) : set_extra_rc a b v < WORD := by
  cases a <;>
    simp only [set_extra_rc, setField, WORD, off_extra_rc, shiftcls_width, extra_rc_width]
      at hb ⊢ <;> omega

theorem set_has_sidetable_rc_lt (a : Arch) (b v : Nat) (hb : b < WORD) :
    set_has_sidetable_rc a b v < WORD := by
  cases a <;>
    simp only [set_has_sidetable_rc, setField, WORD, off_has_sidetable_rc, shiftcls_width]
      at hb ⊢ <;> omega

theorem set_deallocating_lt (a : Arch) (b v : Nat) (hb : b < WORD) :
    set_deallocating a b v < WORD := by
  cases a <;>
    simp only [set_deallocating, setField, WORD, off_deallocating, shiftcls_width]
      at hb ⊢ <;> omega

theorem set_weakly_referenced_lt (a : Arch) (b v : Nat) (hb : b < WORD) :
    set_weakly_referenced a b v < WORD := by
  cases a <;>
    simp only [set_weakly_referenced, setField, WORD, off_weakly_referenced, shiftcls_width]
      at hb ⊢ <;> omega

theorem set_has_assoc_lt (b v : Nat) (hb : b < WORD) : set_has_assoc b v < WORD := by
  simp only [set_has_assoc, setField, WORD, off_has_assoc] at hb ⊢; omega

theorem set_has_cxx_dtor_lt (b v : Nat) (hb : b < WORD) : set_has_cxx_dtor b v < WORD := by
  simp only [set_has_cxx_dtor, setField, WORD, off_has_cxx_dtor] at hb ⊢; omega

theorem set_shiftcls_lt (a : Arch) (b v : Nat) (hb : b < WORD) : set_shiftcls a b v < WORD := by
  cases a <;>
    simp only [set_shiftcls, setField, WORD, off_shiftcls, shiftcls_width] at hb ⊢ <;> omega

theorem isa_extra_rc_lt (a : Arch) (b : Nat) : isa_extra_rc a b < 2 ^ extra_rc_width a := by
  simp only [isa_extra_rc, getField]; exact Nat.mod_lt _ (Nat.two_pow_pos _)

theorem isa_magic_value_lt (a : Arch) : ISA_MAGIC_VALUE a < WORD := by
  cases a <;> simp [ISA_MAGIC_VALUE, WORD]

theorem decode_magic_value (a : Arch) :
    decode a (ISA_MAGIC_VALUE a) =
      { indexed := 1, has_assoc := 0, has_cxx_dtor := 0, shiftcls := 0,
        magic := (match a with | Arch.arm64 => 0x1a | Arch.x86_64 => 0x3b),
        weakly_referenced := 0, deallocating := 0, has_sidetable_rc := 0, extra_rc := 0 } := by
  cases a <;> decide

/-! ## Retain: what one call does -/

theorem isa_extra_rc_eq (a : Arch) (b : Nat) : isa_extra_rc a b = (decode a b).extra_rc := rfl
theorem isa_indexed_eq (a : Arch) (b : Nat) : isa_indexed b = (decode a b).indexed := rfl
theorem isa_deallocating_eq (a : Arch) (b : Nat) :
    isa_deallocating a b = (decode a b).deallocating := rfl
theorem isa_has_sidetable_rc_eq (a : Arch) (b : Nat) :
    isa_has_sidetable_rc a b = (decode a b).has_sidetable_rc := rfl

theorem rootRetain_pass_tryfail (cfg : Config) (ops : RawIsaOps) (h : Bool) (o : objc_object)
    (hi : isa_indexed o.isa ≠ 0) (hd : isa_deallocating cfg.arch o.isa ≠ 0) :
    rootRetain_pass cfg ops true h false o = Pass.done none o := by
  simp [rootRetain_pass, LoadExclusive, hi, hd]

theorem rootRetain_pass_fast (cfg : Config) (ops : RawIsaOps) (t h : Bool) (o : objc_object)
    (hi : isa_indexed o.isa ≠ 0) (hd : ¬ (t = true ∧ isa_deallocating cfg.arch o.isa ≠ 0))
    (hc : (addc o.isa (RC_ONE cfg.arch) 0).2 = 0) :
    rootRetain_pass cfg ops t h false o
      = Pass.done (some o.self) { o with isa := (addc o.isa (RC_ONE cfg.arch) 0).1 } := by
  simp only [rootRetain_pass, LoadExclusive, hi, hd, hc, if_false]
  simp [storeExclusive_same]

theorem rootRetain_pass_slow (cfg : Config) (ops : RawIsaOps) (t : Bool) (o : objc_object)
    (hi : isa_indexed o.isa ≠ 0) (hd : ¬ (t = true ∧ isa_deallocating cfg.arch o.isa ≠ 0))
    (hc : (addc o.isa (RC_ONE cfg.arch) 0).2 ≠ 0) :
    rootRetain_pass cfg ops t false false o = Pass.slow o := by
  simp only [rootRetain_pass, LoadExclusive, hi, hd, if_false]
  simp [hc]

theorem rootRetain_pass_overflow (cfg : Config) (ops : RawIsaOps) (t : Bool) (o : objc_object)
    (hi : isa_indexed o.isa ≠ 0) (hd : ¬ (t = true ∧ isa_deallocating cfg.arch o.isa ≠ 0))
    (hc : (addc o.isa (RC_ONE cfg.arch) 0).2 ≠ 0) :
    rootRetain_pass cfg ops t true false o
      = Pass.done (some o.self)
          { self := o.self
            isa := set_has_sidetable_rc cfg.arch
              (set_extra_rc cfg.arch (addc o.isa (RC_ONE cfg.arch) 0).1 (RC_HALF cfg.arch)) 1
            sidetable := (sidetable_addExtraRC_nolock (RC_HALF cfg.arch) o).sidetable
            trace := o.trace ++ (if t = true then [] else [Event.lock, Event.unlock]) } := by
  simp only [rootRetain_pass, LoadExclusive, hi, hd, if_false]
  cases t <;>
    simp [hc, sidetable_lock, sidetable_unlock, sidetable_addExtraRC_nolock, StoreExclusive] <;>
    cases o.sidetable <;> simp

theorem rc_half_mod (a : Arch) : RC_HALF a % 2 ^ extra_rc_width a = RC_HALF a := by
  cases a <;> simp [RC_HALF, extra_rc_width]

/-- The slow exit of a pass is the call `rootRetain_overflow(tryRetain)`. -/
theorem rootRetain_loop_slow (cfg : Config) (ops : RawIsaOps) (fuel : Nat) (t h l : Bool)
    (o o1 : objc_object) (hp : rootRetain_pass cfg ops t h l o = Pass.slow o1) :
    rootRetain_loop cfg ops (fuel + 1) t h l o = rootRetain_overflow cfg ops fuel t o1 := by
  simp [rootRetain_loop, hp, rootRetain_overflow, rootRetain]

theorem rootRetain_tryfail (cfg : Config) (ops : RawIsaOps) (n : Nat) (h : Bool)
    (o : objc_object) (hi : isa_indexed o.isa ≠ 0) (ht : isTaggedPointer cfg o = false)
    (hd : isa_deallocating cfg.arch o.isa ≠ 0) :
    rootRetain cfg ops (n + 1) true h o = some (none, o) := by
  simp [rootRetain, ht, rootRetain_loop, rootRetain_pass_tryfail cfg ops h o hi hd]

theorem rootRetain_fast (cfg : Config) (ops : RawIsaOps) (n : Nat) (t h : Bool)
    (o : objc_object) (hw : o.isa < WORD) (hi : isa_indexed o.isa ≠ 0)
    (ht : isTaggedPointer cfg o = false)
    (hd : ¬ (t = true ∧ isa_deallocating cfg.arch o.isa ≠ 0))
    (he : isa_extra_rc cfg.arch o.isa + 1 ≠ 2 ^ extra_rc_width cfg.arch) :
    rootRetain cfg ops (n + 1) t h o
      = some (some o.self, { o with isa := (addc o.isa (RC_ONE cfg.arch) 0).1 }) := by
  have hc : (addc o.isa (RC_ONE cfg.arch) 0).2 = 0 := by
    by_contra hne
    exact he ((addc_carry_iff cfg.arch o.isa hw).1 hne)
  simp [rootRetain, ht, rootRetain_loop, rootRetain_pass_fast cfg ops t h o hi hd hc]

theorem rootRetain_overflowing (cfg : Config) (ops : RawIsaOps) (n : Nat) (t h : Bool)
    (o : objc_object) (hw : o.isa < WORD) (hi : isa_indexed o.isa ≠ 0)
    (ht : isTaggedPointer cfg o = false)
    (hd : ¬ (t = true ∧ isa_deallocating cfg.arch o.isa ≠ 0))
    (he : isa_extra_rc cfg.arch o.isa + 1 = 2 ^ extra_rc_width cfg.arch) :
    rootRetain cfg ops (n + 2) t h o
      = some (some o.self,
          { self := o.self
            isa := set_has_sidetable_rc cfg.arch
              (set_extra_rc cfg.arch (addc o.isa (RC_ONE cfg.arch) 0).1 (RC_HALF cfg.arch)) 1
            sidetable := (sidetable_addExtraRC_nolock (RC_HALF cfg.arch) o).sidetable
            trace := o.trace ++ (if t = true then [] else [Event.lock, Event.unlock]) }) := by
  have hc : (addc o.isa (RC_ONE cfg.arch) 0).2 ≠ 0 := (addc_carry_iff cfg.arch o.isa hw).2 he
  cases h
  · simp only [rootRetain, ht, rootRetain_loop, rootRetain_pass_slow cfg ops t o hi hd hc,
      rootRetain_pass_overflow cfg ops t o hi hd hc]
    simp
  · simp only [rootRetain, ht, rootRetain_loop, rootRetain_pass_overflow cfg ops t o hi hd hc]
    simp

/-- What a retain does to an indexed isa, by cases on the inline count. -/
theorem rootRetain_spec (cfg : Config) (ops : RawIsaOps) (n : Nat) (t h : Bool)
    (o : objc_object) (hw : o.isa < WORD) (hi : isa_indexed o.isa ≠ 0)
    (ht : isTaggedPointer cfg o = false)
    (hd : ¬ (t = true ∧ isa_deallocating cfg.arch o.isa ≠ 0)) :
    ∃ o', rootRetain cfg ops (n + 2) t h o = some (some o.self, o') ∧ o'.self = o.self
      ∧ o'.isa < WORD
      ∧ (isa_extra_rc cfg.arch o.isa + 1 ≠ 2 ^ extra_rc_width cfg.arch →
          decode cfg.arch o'.isa
            = { decode cfg.arch o.isa with extra_rc := isa_extra_rc cfg.arch o.isa + 1 }
          ∧ o'.sidetable = o.sidetable ∧ o'.trace = o.trace)
      ∧ (isa_extra_rc cfg.arch o.isa + 1 = 2 ^ extra_rc_width cfg.arch →
          decode cfg.arch o'.isa
            = { decode cfg.arch o.isa with
                extra_rc := RC_HALF cfg.arch, has_sidetable_rc := 1 }
          ∧ o'.sidetable = (sidetable_addExtraRC_nolock (RC_HALF cfg.arch) o).sidetable
          ∧ o'.trace = o.trace ++ (if t = true then [] else [Event.lock, Event.unlock])) := by
  by_cases he : isa_extra_rc cfg.arch o.isa + 1 = 2 ^ extra_rc_width cfg.arch
  · refine ⟨_, rootRetain_overflowing cfg ops n t h o hw hi ht hd he, rfl, ?_, ?_, ?_⟩
    · exact set_has_sidetable_rc_lt _ _ _ (set_extra_rc_lt _ _ _ (addc_fst_lt _ _ _))
    · intro hne; exact absurd he hne
    · intro _
      refine ⟨?_, rfl, rfl⟩
      simp only [decode_set_has_sidetable_rc, decode_set_extra_rc, decode_addc, rc_half_mod]
  · refine ⟨_, rootRetain_fast cfg ops (n + 1) t h o hw hi ht hd he, rfl, addc_fst_lt _ _ _,
      ?_, ?_⟩
    · intro _
      refine ⟨?_, rfl, rfl⟩
      have hlt := isa_extra_rc_lt cfg.arch o.isa
      simp only [decode_addc]
      rw [Nat.mod_eq_of_lt (by omega)]
    · intro he'; exact absurd he' he

/-! ## Side table lemmas -/

theorem sub_fst (d : Nat) (o : objc_object) :
    (sidetable_subExtraRC_nolock d o).1 = min d (sidetable_getExtraRC_nolock o) := by
  cases o with
  | mk self isa st tr => cases st <;> simp [sidetable_subExtraRC_nolock, sidetable_getExtraRC_nolock]

theorem sub_get (d : Nat) (o : objc_object) :
    sidetable_getExtraRC_nolock (sidetable_subExtraRC_nolock d o).2
      = sidetable_getExtraRC_nolock o - min d (sidetable_getExtraRC_nolock o) := by
  cases o with
  | mk self isa st tr => cases st <;> simp [sidetable_subExtraRC_nolock, sidetable_getExtraRC_nolock]

theorem sub_frame (d : Nat) (o : objc_object) :
    (sidetable_subExtraRC_nolock d o).2.self = o.self
      ∧ (sidetable_subExtraRC_nolock d o).2.isa = o.isa
      ∧ (sidetable_subExtraRC_nolock d o).2.trace = o.trace := by
  cases o with
  | mk self isa st tr => cases st <;> simp [sidetable_subExtraRC_nolock]

theorem sub_empty (d : Nat) (o : objc_object) (h : sidetable_getExtraRC_nolock o = 0) :
    (sidetable_subExtraRC_nolock d o).2 = o := by
  cases o with
  | mk self isa st tr =>
    cases st with
    | none => simp [sidetable_subExtraRC_nolock]
    | some e =>
      cases e with
      | mk rc w dl =>
        simp only [sidetable_getExtraRC_nolock] at h
        subst h
        simp [sidetable_subExtraRC_nolock]

theorem add_get (d : Nat) (o : objc_object) :
    sidetable_getExtraRC_nolock (sidetable_addExtraRC_nolock d o)
      = sidetable_getExtraRC_nolock o + d := by
  cases o with
  | mk self isa st tr => cases st <;> simp [sidetable_addExtraRC_nolock, sidetable_getExtraRC_nolock]

theorem sub_sidetable_congr (d : Nat) (o o' : objc_object) (h : o'.sidetable = o.sidetable) :
    (sidetable_subExtraRC_nolock d o').2.sidetable
      = (sidetable_subExtraRC_nolock d o).2.sidetable
      ∧ (sidetable_subExtraRC_nolock d o').1 = (sidetable_subExtraRC_nolock d o).1 := by
  cases o with
  | mk self isa st tr =>
    cases o' with
    | mk self' isa' st' tr' =>
      simp only at h
      subst h
      cases st' <;> simp [sidetable_subExtraRC_nolock]

/-! ## Release: what one call does -/

theorem rootRelease_pass_fast (cfg : Config) (ops : RawIsaOps) (pd h : Bool) (o : objc_object)
    (hi : isa_indexed o.isa ≠ 0) (hc : (subc o.isa (RC_ONE cfg.arch) 0).2 = 0) :
    rootRelease_pass cfg ops pd h false o
      = Pass.done false { o with isa := (subc o.isa (RC_ONE cfg.arch) 0).1 } := by
  simp only [rootRelease_pass, LoadExclusive, hi, hc, if_false]
  simp [storeReleaseExclusive_same]

theorem rootRelease_pass_slow (cfg : Config) (ops : RawIsaOps) (pd : Bool) (o : objc_object)
    (hi : isa_indexed o.isa ≠ 0) (hc : (subc o.isa (RC_ONE cfg.arch) 0).2 ≠ 0)
    (hs : isa_has_sidetable_rc cfg.arch o.isa ≠ 0) :
    rootRelease_pass cfg ops pd false false o = Pass.slow o := by
  simp only [rootRelease_pass, LoadExclusive, hi, hc, if_false]
  simp [hs]

theorem rootRelease_dealloc_first (cfg : Config) (pd locked : Bool) (o : objc_object)
    (hd : isa_deallocating cfg.arch o.isa = 0) :
    rootRelease_dealloc cfg pd locked o.isa o.isa o
      = Pass.done true
          { self := o.self
            isa := set_deallocating cfg.arch o.isa 1
            sidetable := o.sidetable
            trace := o.trace ++ (if locked = true then [Event.unlock] else [])
              ++ (if pd = true then [Event.dealloc] else []) } := by
  cases locked <;> cases pd <;>
    simp [rootRelease_dealloc, hd, sidetable_unlock, send_dealloc, StoreExclusive]

theorem rootRelease_dealloc_again (cfg : Config) (pd locked : Bool) (o : objc_object)
    (hd : isa_deallocating cfg.arch o.isa ≠ 0) :
    rootRelease_dealloc cfg pd locked o.isa o.isa o
      = Pass.done (overrelease_error
            { o with trace := o.trace ++ (if locked = true then [Event.unlock] else []) }).1
          (overrelease_error
            { o with trace := o.trace ++ (if locked = true then [Event.unlock] else []) }).2 := by
  cases locked <;> simp [rootRelease_dealloc, hd, sidetable_unlock]

theorem rootRelease_pass_nosidetable (cfg : Config) (ops : RawIsaOps) (pd h : Bool)
    (o : objc_object) (hi : isa_indexed o.isa ≠ 0)
    (hc : (subc o.isa (RC_ONE cfg.arch) 0).2 ≠ 0)
    (hs : isa_has_sidetable_rc cfg.arch o.isa = 0) :
    rootRelease_pass cfg ops pd h false o = rootRelease_dealloc cfg pd false o.isa o.isa o := by
  simp only [rootRelease_pass, LoadExclusive, hi, hc, if_false]
  simp [hs]

theorem rootRelease_pass_borrow (cfg : Config) (ops : RawIsaOps) (pd : Bool) (o : objc_object)
    (hi : isa_indexed o.isa ≠ 0) (hc : (subc o.isa (RC_ONE cfg.arch) 0).2 ≠ 0)
    (hs : isa_has_sidetable_rc cfg.arch o.isa ≠ 0)
    (hb : sidetable_getExtraRC_nolock o ≠ 0) :
    rootRelease_pass cfg ops pd true false o
      = Pass.done false
          { self := o.self
            isa := set_extra_rc cfg.arch o.isa
              (min (RC_HALF cfg.arch) (sidetable_getExtraRC_nolock o) - 1)
            sidetable := (sidetable_subExtraRC_nolock (RC_HALF cfg.arch) o).2.sidetable
            trace := o.trace ++ [Event.lock, Event.unlock] } := by
  have hpos := rc_half_pos cfg.arch
  cases o with
  | mk self isa st tr =>
    cases st with
    | none => simp [sidetable_getExtraRC_nolock] at hb
    | some e =>
      simp only [sidetable_getExtraRC_nolock] at hb
      simp only at hi hc hs
      have hmin : 0 < min (RC_HALF cfg.arch) e.retain_count := by
        simp only [lt_min_iff]; omega
      simp only [rootRelease_pass, LoadExclusive, hi, hc, if_false]
      simp [hs, hi, sidetable_lock, sidetable_subExtraRC_nolock, hmin, rootRelease_borrowed,
        StoreExclusive, sidetable_unlock, sidetable_getExtraRC_nolock, LoadExclusive]

theorem rootRelease_pass_drained (cfg : Config) (ops : RawIsaOps) (pd : Bool) (o : objc_object)
    (hi : isa_indexed o.isa ≠ 0) (hc : (subc o.isa (RC_ONE cfg.arch) 0).2 ≠ 0)
    (hs : isa_has_sidetable_rc cfg.arch o.isa ≠ 0)
    (hb : sidetable_getExtraRC_nolock o = 0) :
    rootRelease_pass cfg ops pd true false o
      = rootRelease_dealloc cfg pd true o.isa o.isa
          { o with trace := o.trace ++ [Event.lock] } := by
  have h0 : (sidetable_subExtraRC_nolock (RC_HALF cfg.arch) (sidetable_lock o)).1 = 0 := by
    rw [sub_fst]; simp [sidetable_lock, sidetable_getExtraRC_nolock] at hb ⊢
    right; exact hb
  have h1 : (sidetable_subExtraRC_nolock (RC_HALF cfg.arch) (sidetable_lock o)).2
      = sidetable_lock o := sub_empty _ _ (by simpa [sidetable_lock, sidetable_getExtraRC_nolock] using hb)
  simp only [sidetable_lock] at h0 h1
  simp only [rootRelease_pass, LoadExclusive, hi, hc, if_false]
  simp [hs, hi, h0, h1, sidetable_lock]

/-- The slow exit of a pass is the call `rootRelease_underflow(performDealloc)`. -/
theorem rootRelease_loop_slow (cfg : Config) (ops : RawIsaOps) (fuel : Nat) (pd h l : Bool)
    (o o1 : objc_object) (hp : rootRelease_pass cfg ops pd h l o = Pass.slow o1) :
    rootRelease_loop cfg ops (fuel + 1) pd h l o = rootRelease_underflow cfg ops fuel pd o1 := by
  simp [rootRelease_loop, hp, rootRelease_underflow, rootRelease]

theorem rootRelease_fast (cfg : Config) (ops : RawIsaOps) (n : Nat) (pd h : Bool)
    (o : objc_object) (hw : o.isa < WORD) (hi : isa_indexed o.isa ≠ 0)
    (ht : isTaggedPointer cfg o = false) (he : isa_extra_rc cfg.arch o.isa ≠ 0) :
    rootRelease cfg ops (n + 1) pd h o
      = some (false, { o with isa := (subc o.isa (RC_ONE cfg.arch) 0).1 }) := by
  have hc := (subc_borrow_iff cfg.arch o.isa hw).2 he
  simp [rootRelease, ht, rootRelease_loop, rootRelease_pass_fast cfg ops pd h o hi hc]

theorem rootRelease_borrow (cfg : Config) (ops : RawIsaOps) (n : Nat) (pd h : Bool)
    (o : objc_object) (hw : o.isa < WORD) (hi : isa_indexed o.isa ≠ 0)
    (ht : isTaggedPointer cfg o = false) (he : isa_extra_rc cfg.arch o.isa = 0)
    (hs : isa_has_sidetable_rc cfg.arch o.isa ≠ 0)
    (hb : sidetable_getExtraRC_nolock o ≠ 0) :
    rootRelease cfg ops (n + 2) pd h o
      = some (false,
          { self := o.self
            isa := set_extra_rc cfg.arch o.isa
              (min (RC_HALF cfg.arch) (sidetable_getExtraRC_nolock o) - 1)
            sidetable := (sidetable_subExtraRC_nolock (RC_HALF cfg.arch) o).2.sidetable
            trace := o.trace ++ [Event.lock, Event.unlock] }) := by
  have hc : (subc o.isa (RC_ONE cfg.arch) 0).2 ≠ 0 := by
    intro h0; exact (subc_borrow_iff cfg.arch o.isa hw).1 h0 he
  cases h
  · simp only [rootRelease, ht, rootRelease_loop, rootRelease_pass_slow cfg ops pd o hi hc hs,
      rootRelease_pass_borrow cfg ops pd o hi hc hs hb]
    simp
  · simp only [rootRelease, ht, rootRelease_loop,
      rootRelease_pass_borrow cfg ops pd o hi hc hs hb]
    simp

/-- The lock traffic of the underflow path: the side table is consulted only
when `has_sidetable_rc` is set. -/
theorem rootRelease_pass_zero (cfg : Config) (ops : RawIsaOps) (n : Nat) (pd h : Bool)
    (o : objc_object) (hw : o.isa < WORD) (hi : isa_indexed o.isa ≠ 0)
    (ht : isTaggedPointer cfg o = false) (he : isa_extra_rc cfg.arch o.isa = 0)
    (hz : isa_has_sidetable_rc cfg.arch o.isa = 0 ∨ sidetable_getExtraRC_nolock o = 0) :
    rootRelease cfg ops (n + 2) pd h o
      = match
          rootRelease_dealloc cfg pd (decide (isa_has_sidetable_rc cfg.arch o.isa ≠ 0)) o.isa o.isa
            { o with trace := o.trace
                ++ (if isa_has_sidetable_rc cfg.arch o.isa ≠ 0 then [Event.lock] else []) } with
        | Pass.done r o1 => some (r, o1)
        | Pass.retry _ _ => none
        | Pass.slow _ => none := by
  have hc : (subc o.isa (RC_ONE cfg.arch) 0).2 ≠ 0 := by
    intro h0; exact (subc_borrow_iff cfg.arch o.isa hw).1 h0 he
  by_cases hs : isa_has_sidetable_rc cfg.arch o.isa = 0
  · simp only [rootRelease, ht, rootRelease_loop,
      rootRelease_pass_nosidetable cfg ops pd h o hi hc hs]
    by_cases hd : isa_deallocating cfg.arch o.isa = 0
    · simp [hs, rootRelease_dealloc_first cfg pd false o hd]
    · simp [hs, rootRelease_dealloc_again cfg pd false o hd]
  · have hb : sidetable_getExtraRC_nolock o = 0 := by
      rcases hz with hz | hz
      · exact absurd hz hs
      · exact hz
    have hi' : isa_indexed ({ o with trace := o.trace ++ [Event.lock] } : objc_object).isa ≠ 0 := hi
    by_cases hd : isa_deallocating cfg.arch o.isa = 0
    · have hd' : isa_deallocating cfg.arch
          ({ o with trace := o.trace ++ [Event.lock] } : objc_object).isa = 0 := hd
      have key := rootRelease_dealloc_first cfg pd true _ hd'
      simp only at key
      cases h
      · simp only [rootRelease, ht, rootRelease_loop,
          rootRelease_pass_slow cfg ops pd o hi hc hs,
          rootRelease_pass_drained cfg ops pd o hi hc hs hb]
        simp [hs, key]
      · simp only [rootRelease, ht, rootRelease_loop,
          rootRelease_pass_drained cfg ops pd o hi hc hs hb]
        simp [hs, key]
    · have hd' : isa_deallocating cfg.arch
          ({ o with trace := o.trace ++ [Event.lock] } : objc_object).isa ≠ 0 := hd
      have key := rootRelease_dealloc_again cfg pd true _ hd'
      simp only at key
      cases h
      · simp only [rootRelease, ht, rootRelease_loop,
          rootRelease_pass_slow cfg ops pd o hi hc hs,
          rootRelease_pass_drained cfg ops pd o hi hc hs hb]
        simp [hs, key]
      · simp only [rootRelease, ht, rootRelease_loop,
          rootRelease_pass_drained cfg ops pd o hi hc hs hb]
        simp [hs, key]

theorem rootRelease_last (cfg : Config) (ops : RawIsaOps) (n : Nat) (pd h : Bool)
    (o : objc_object) (hw : o.isa < WORD) (hi : isa_indexed o.isa ≠ 0)
    (ht : isTaggedPointer cfg o = false) (he : isa_extra_rc cfg.arch o.isa = 0)
    (hz : isa_has_sidetable_rc cfg.arch o.isa = 0 ∨ sidetable_getExtraRC_nolock o = 0)
    (hd : isa_deallocating cfg.arch o.isa = 0) :
    rootRelease cfg ops (n + 2) pd h o
      = some (true,
          { self := o.self
            isa := set_deallocating cfg.arch o.isa 1
            sidetable := o.sidetable
            trace := o.trace
              ++ (if isa_has_sidetable_rc cfg.arch o.isa ≠ 0 then [Event.lock, Event.unlock]
                  else [])
              ++ (if pd = true then [Event.dealloc] else []) }) := by
  rw [rootRelease_pass_zero cfg ops n pd h o hw hi ht he hz]
  have hd' : isa_deallocating cfg.arch
      ({ o with trace := o.trace
          ++ (if isa_has_sidetable_rc cfg.arch o.isa ≠ 0 then [Event.lock] else []) }
        : objc_object).isa = 0 := hd
  have key := rootRelease_dealloc_first cfg pd
    (decide (isa_has_sidetable_rc cfg.arch o.isa ≠ 0)) _ hd'
  simp only at key
  rw [key]
  by_cases hs : isa_has_sidetable_rc cfg.arch o.isa = 0 <;> simp [hs]

theorem rootRelease_over (cfg : Config) (ops : RawIsaOps) (n : Nat) (pd h : Bool)
    (o : objc_object) (hw : o.isa < WORD) (hi : isa_indexed o.isa ≠ 0)
    (ht : isTaggedPointer cfg o = false) (he : isa_extra_rc cfg.arch o.isa = 0)
    (hz : isa_has_sidetable_rc cfg.arch o.isa = 0 ∨ sidetable_getExtraRC_nolock o = 0)
    (hd : isa_deallocating cfg.arch o.isa ≠ 0) :
    rootRelease cfg ops (n + 2) pd h o
      = some (overrelease_error
          { o with trace := o.trace
              ++ (if isa_has_sidetable_rc cfg.arch o.isa ≠ 0 then [Event.lock, Event.unlock]
                  else []) }) := by
  rw [rootRelease_pass_zero cfg ops n pd h o hw hi ht he hz]
  have hd' : isa_deallocating cfg.arch
      ({ o with trace := o.trace
          ++ (if isa_has_sidetable_rc cfg.arch o.isa ≠ 0 then [Event.lock] else []) }
        : objc_object).isa ≠ 0 := hd
  have key := rootRelease_dealloc_again cfg pd
    (decide (isa_has_sidetable_rc cfg.arch o.isa ≠ 0)) _ hd'
  simp only at key
  rw [key]
  by_cases hs : isa_has_sidetable_rc cfg.arch o.isa = 0 <;> simp [hs, overrelease_error]

/-! ## One retain, one release: counts, flags and events -/

/-- A retain that is not refused returns the object, keeps it well formed,
keeps the deallocating flag, and raises the count by one; it sends no dealloc
and reports nothing. -/
theorem retain_step (cfg : Config) (ops : RawIsaOps) (n : Nat) (t h : Bool)
    (o : objc_object) (hw : o.isa < WORD) (hi : isa_indexed o.isa ≠ 0)
    (ht : isTaggedPointer cfg o = false)
    (hd : ¬ (t = true ∧ isa_deallocating cfg.arch o.isa ≠ 0)) :
    ∃ o', rootRetain cfg ops (n + 2) t h o = some (some o.self, o')
      ∧ o'.self = o.self ∧ o'.isa < WORD
      ∧ isa_indexed o'.isa = isa_indexed o.isa
      ∧ isa_deallocating cfg.arch o'.isa = isa_deallocating cfg.arch o.isa
      ∧ isa_extra_rc cfg.arch o'.isa + sidetable_getExtraRC_nolock o'
          = isa_extra_rc cfg.arch o.isa + sidetable_getExtraRC_nolock o + 1
      ∧ ((isa_has_sidetable_rc cfg.arch o.isa = 0 → sidetable_getExtraRC_nolock o = 0) →
          (isa_has_sidetable_rc cfg.arch o'.isa = 0 → sidetable_getExtraRC_nolock o' = 0)
          ∧ isa_extra_rc cfg.arch o'.isa
              + (if isa_has_sidetable_rc cfg.arch o'.isa ≠ 0 then
                  sidetable_getExtraRC_nolock o' else 0)
            = isa_extra_rc cfg.arch o.isa
              + (if isa_has_sidetable_rc cfg.arch o.isa ≠ 0 then
                  sidetable_getExtraRC_nolock o else 0) + 1)
      ∧ o'.trace.count Event.dealloc = o.trace.count Event.dealloc
      ∧ o'.trace.count Event.overrelease = o.trace.count Event.overrelease := by
  obtain ⟨o', hr, hself, hw', hfast, hover⟩ := rootRetain_spec cfg ops n t h o hw hi ht hd
  refine ⟨o', hr, hself, hw', ?_⟩
  have hdbl := rc_half_double cfg.arch
  by_cases he : isa_extra_rc cfg.arch o.isa + 1 = 2 ^ extra_rc_width cfg.arch
  · obtain ⟨hdec, hst, htr⟩ := hover he
    have hg : sidetable_getExtraRC_nolock o'
        = sidetable_getExtraRC_nolock o + RC_HALF cfg.arch := by
      rw [← add_get]; simp only [sidetable_getExtraRC_nolock, hst]
    simp only [isa_indexed_eq cfg.arch, isa_deallocating_eq, isa_extra_rc_eq,
      isa_has_sidetable_rc_eq, hdec, hg] at he ⊢
    refine ⟨trivial, trivial, by omega, ?_, ?_, ?_⟩
    · intro hcons
      refine ⟨fun h1 => absurd h1 (by decide), ?_⟩
      simp only [ne_eq, one_ne_zero, not_false_eq_true, if_true]
      by_cases hs : (decode cfg.arch o.isa).has_sidetable_rc = 0
      · have := hcons hs
        simp only [hs, ne_eq, not_true_eq_false, if_false]
        omega
      · simp only [hs, ne_eq, not_false_eq_true, if_true]
        omega
    · rw [htr]; cases t <;> simp
    · rw [htr]; cases t <;> simp
  · obtain ⟨hdec, hst, htr⟩ := hfast he
    have hg : sidetable_getExtraRC_nolock o' = sidetable_getExtraRC_nolock o := by
      simp only [sidetable_getExtraRC_nolock, hst]
    simp only [isa_indexed_eq cfg.arch, isa_deallocating_eq, isa_extra_rc_eq,
      isa_has_sidetable_rc_eq, hdec, hg, htr] at he ⊢
    refine ⟨trivial, trivial, by omega, ?_, trivial, trivial⟩
    intro hcons
    refine ⟨hcons, by omega⟩

/-- A release of an indexed isa always returns; it keeps the object well
formed and never clears the deallocating flag. While the count is above one it
returns false and lowers the count by one; at count one with the flag clear it
returns true, sets the flag and sends dealloc when asked to; at count one with
the flag set it reports the over-release and leaves the isa word alone. -/
theorem release_step (cfg : Config) (ops : RawIsaOps) (n : Nat) (pd h : Bool)
    (o : objc_object) (hw : o.isa < WORD) (hi : isa_indexed o.isa ≠ 0)
    (ht : isTaggedPointer cfg o = false) :
    ∃ r o', rootRelease cfg ops (n + 2) pd h o = some (r, o')
      ∧ o'.self = o.self ∧ o'.isa < WORD
      ∧ isa_indexed o'.isa = isa_indexed o.isa
      ∧ isa_has_sidetable_rc cfg.arch o'.isa = isa_has_sidetable_rc cfg.arch o.isa
      ∧ sidetable_getExtraRC_nolock o' ≤ sidetable_getExtraRC_nolock o
      ∧ (isa_deallocating cfg.arch o.isa ≠ 0 → isa_deallocating cfg.arch o'.isa ≠ 0)
      ∧ (isa_extra_rc cfg.arch o.isa
            + (if isa_has_sidetable_rc cfg.arch o.isa ≠ 0 then
                sidetable_getExtraRC_nolock o else 0) ≠ 0 →
          r = false
          ∧ isa_extra_rc cfg.arch o'.isa
              + (if isa_has_sidetable_rc cfg.arch o'.isa ≠ 0 then
                  sidetable_getExtraRC_nolock o' else 0) + 1
            = isa_extra_rc cfg.arch o.isa
              + (if isa_has_sidetable_rc cfg.arch o.isa ≠ 0 then
                  sidetable_getExtraRC_nolock o else 0)
          ∧ isa_deallocating cfg.arch o'.isa = isa_deallocating cfg.arch o.isa
          ∧ o'.trace.count Event.dealloc = o.trace.count Event.dealloc
          ∧ o'.trace.count Event.overrelease = o.trace.count Event.overrelease)
      ∧ (isa_extra_rc cfg.arch o.isa
            + (if isa_has_sidetable_rc cfg.arch o.isa ≠ 0 then
                sidetable_getExtraRC_nolock o else 0) = 0 →
          isa_deallocating cfg.arch o.isa = 0 →
          r = true
          ∧ isa_deallocating cfg.arch o'.isa = 1
          ∧ isa_extra_rc cfg.arch o'.isa = 0
          ∧ o'.sidetable = o.sidetable
          ∧ o'.trace.count Event.dealloc
              = o.trace.count Event.dealloc + (if pd = true then 1 else 0)
          ∧ o'.trace.count Event.overrelease = o.trace.count Event.overrelease)
      ∧ (isa_extra_rc cfg.arch o.isa
            + (if isa_has_sidetable_rc cfg.arch o.isa ≠ 0 then
                sidetable_getExtraRC_nolock o else 0) = 0 →
          isa_deallocating cfg.arch o.isa ≠ 0 →
          r = (overrelease_error o).1
          ∧ o'.isa = o.isa
          ∧ o'.sidetable = o.sidetable
          ∧ o'.trace.count Event.dealloc = o.trace.count Event.dealloc
          ∧ o'.trace.count Event.overrelease = o.trace.count Event.overrelease + 1) := by
  have hlt := isa_extra_rc_lt cfg.arch o.isa
  have hpos := rc_half_pos cfg.arch
  have hdbl := rc_half_double cfg.arch
  by_cases he : isa_extra_rc cfg.arch o.isa = 0
  · by_cases hz : isa_has_sidetable_rc cfg.arch o.isa = 0 ∨ sidetable_getExtraRC_nolock o = 0
    · have hG : isa_extra_rc cfg.arch o.isa
            + (if isa_has_sidetable_rc cfg.arch o.isa ≠ 0 then
                sidetable_getExtraRC_nolock o else 0) = 0 := by
        rcases hz with hz | hz <;> simp [he, hz]
      by_cases hd : isa_deallocating cfg.arch o.isa = 0
      · refine ⟨true, _, rootRelease_last cfg ops n pd h o hw hi ht he hz hd, rfl,
          set_deallocating_lt _ _ _ hw, ?_, ?_, le_refl _, ?_, ?_, ?_, ?_⟩
        · simp only [isa_indexed_eq cfg.arch, decode_set_deallocating]
        · simp only [isa_has_sidetable_rc_eq, decode_set_deallocating]
        · intro hd'; exact absurd hd hd'
        · intro hne; exact absurd hG hne
        · intro _ _
          refine ⟨rfl, ?_, ?_, rfl, ?_, ?_⟩
          · simp only [isa_deallocating_eq, decode_set_deallocating]
          · simp only [isa_extra_rc_eq, decode_set_deallocating] at he ⊢; exact he
          · by_cases hs : isa_has_sidetable_rc cfg.arch o.isa = 0 <;> cases pd <;> simp [hs]
          · by_cases hs : isa_has_sidetable_rc cfg.arch o.isa = 0 <;> cases pd <;> simp [hs]
        · intro _ hd'; exact absurd hd hd'
      · refine ⟨_, _, rootRelease_over cfg ops n pd h o hw hi ht he hz hd, rfl, hw, rfl, rfl,
          le_refl _, ?_, ?_, ?_, ?_⟩
        · intro _; exact hd
        · intro hne; exact absurd hG hne
        · intro _ hd'; exact absurd hd' hd
        · intro _ _
          refine ⟨rfl, rfl, rfl, ?_, ?_⟩
          · by_cases hs : isa_has_sidetable_rc cfg.arch o.isa = 0 <;>
              simp [hs, overrelease_error]
          · by_cases hs : isa_has_sidetable_rc cfg.arch o.isa = 0 <;>
              simp [hs, overrelease_error]
    · have hs : isa_has_sidetable_rc cfg.arch o.isa ≠ 0 := fun h0 => hz (Or.inl h0)
      have hb : sidetable_getExtraRC_nolock o ≠ 0 := fun h0 => hz (Or.inr h0)
      have hg : sidetable_getExtraRC_nolock
          ({ self := o.self
             isa := set_extra_rc cfg.arch o.isa
               (min (RC_HALF cfg.arch) (sidetable_getExtraRC_nolock o) - 1)
             sidetable := (sidetable_subExtraRC_nolock (RC_HALF cfg.arch) o).2.sidetable
             trace := o.trace ++ [Event.lock, Event.unlock] } : objc_object)
          = sidetable_getExtraRC_nolock (sidetable_subExtraRC_nolock (RC_HALF cfg.arch) o).2 :=
        rfl
      refine ⟨false, _, rootRelease_borrow cfg ops n pd h o hw hi ht he hs hb, rfl,
        set_extra_rc_lt _ _ _ hw, ?_, ?_, ?_, ?_, ?_, ?_, ?_⟩
      · simp only [isa_indexed_eq cfg.arch, decode_set_extra_rc]
      · simp only [isa_has_sidetable_rc_eq, decode_set_extra_rc]
      · rw [hg, sub_get]; omega
      · simp only [isa_deallocating_eq, decode_set_extra_rc]; exact id
      · intro _
        simp only [isa_deallocating_eq, isa_extra_rc_eq, isa_has_sidetable_rc_eq,
          decode_set_extra_rc, hg, sub_get] at he hs ⊢
        simp only [hs, ne_eq, not_false_eq_true, if_true]
        refine ⟨trivial, ?_, trivial, by simp, by simp⟩
        rw [Nat.mod_eq_of_lt (by omega)]
        omega
      · intro hG; simp [he, hs, hb] at hG
      · intro hG; simp [he, hs, hb] at hG
  · have hg : sidetable_getExtraRC_nolock
        ({ o with isa := (subc o.isa (RC_ONE cfg.arch) 0).1 } : objc_object)
        = sidetable_getExtraRC_nolock o := rfl
    have hm : (isa_extra_rc cfg.arch o.isa + 2 ^ extra_rc_width cfg.arch - 1)
        % 2 ^ extra_rc_width cfg.arch = isa_extra_rc cfg.arch o.isa - 1 := by
      have h1 : isa_extra_rc cfg.arch o.isa + 2 ^ extra_rc_width cfg.arch - 1
          = (isa_extra_rc cfg.arch o.isa - 1) + 2 ^ extra_rc_width cfg.arch := by omega
      rw [h1, Nat.add_mod_right, Nat.mod_eq_of_lt (by omega)]
    refine ⟨false, _, rootRelease_fast cfg ops (n + 1) pd h o hw hi ht he, rfl,
      subc_fst_lt _ _ _, ?_, ?_, le_refl _, ?_, ?_, ?_, ?_⟩
    · simp only [isa_indexed_eq cfg.arch, decode_subc cfg.arch o.isa hw]
    · simp only [isa_has_sidetable_rc_eq, decode_subc cfg.arch o.isa hw]
    · simp only [isa_deallocating_eq, decode_subc cfg.arch o.isa hw]; exact id
    · intro _
      simp only [isa_deallocating_eq, isa_extra_rc_eq, isa_has_sidetable_rc_eq,
        decode_subc cfg.arch o.isa hw, hg] at he hm ⊢
      refine ⟨trivial, ?_, trivial, trivial, trivial⟩
      rw [hm]; omega
    · intro hG; omega
    · intro hG; omega

/-! ## Flag setters and `changeIsa` on an indexed isa -/

theorem isa_indexed_ne_zero (b : Nat) (hi : isa_indexed b ≠ 0) : b ≠ 0 := by
  intro h0
  subst h0
  exact hi (by decide)

theorem setWeaklyReferenced_indexed (cfg : Config) (ops : RawIsaOps) (n : Nat)
    (o : objc_object) (hi : isa_indexed o.isa ≠ 0) :
    setWeaklyReferenced_nolock cfg ops (n + 1) o
      = some (if isa_weakly_referenced cfg.arch o.isa ≠ 0 then o
              else { o with isa := set_weakly_referenced cfg.arch o.isa 1 }) := by
  by_cases hwk : isa_weakly_referenced cfg.arch o.isa = 0
  · simp [setWeaklyReferenced_nolock, setWeaklyReferenced_nolock_pass, LoadExclusive, hi, hwk,
      StoreExclusive]
  · simp [setWeaklyReferenced_nolock, setWeaklyReferenced_nolock_pass, LoadExclusive, hi, hwk]

theorem setHasAssociatedObjects_indexed (cfg : Config) (n : Nat) (o : objc_object)
    (hi : isa_indexed o.isa ≠ 0) (ht : isTaggedPointer cfg o = false) :
    setHasAssociatedObjects cfg (n + 1) o
      = some (if isa_has_assoc o.isa ≠ 0 then o
              else { o with isa := set_has_assoc o.isa 1 }) := by
  by_cases ha : isa_has_assoc o.isa = 0
  · simp [setHasAssociatedObjects, ht, setHasAssociatedObjects_loop,
      setHasAssociatedObjects_pass, LoadExclusive, hi, ha, StoreExclusive]
  · simp [setHasAssociatedObjects, ht, setHasAssociatedObjects_loop,
      setHasAssociatedObjects_pass, LoadExclusive, hi, ha]

theorem changeIsa_indexed_to_indexed (cfg : Config) (newCls : Class) (n : Nat)
    (o : objc_object) (hi : isa_indexed o.isa ≠ 0) (hf : newCls.isFuture = false)
    (hc : newCls.canAllocIndexed = true) :
    changeIsa cfg newCls (n + 1) o
      = some (isa_shiftcls cfg.arch o.isa * 2 ^ 3 % WORD,
          { self := o.self
            isa := set_shiftcls cfg.arch
              (set_has_cxx_dtor o.isa newCls.hasCxxDtor.toNat) (newCls.addr / 2 ^ 3)
            sidetable := o.sidetable
            trace := o.trace }) := by
  have h0 := isa_indexed_ne_zero o.isa hi
  simp [changeIsa, changeIsa_loop, changeIsa_pass, changeIsa_store, LoadExclusive, hi, hf, hc,
    h0, StoreExclusive]

/-- C9: the deallocating flag of an indexed isa is monotonic. Once it is set, it
is still set after `rootRetain` (any arguments), `rootTryRetain`,
`rootRelease` (any arguments), `setWeaklyReferenced_nolock`,
`setHasAssociatedObjects`, and `changeIsa` to a class that keeps the isa
indexed; each of these calls returns. -/
theorem C9_deallocating_monotonic (cfg : Config) (ops : RawIsaOps) (n : Nat)
    (o : objc_object) (hw : o.isa < WORD) (hi : isa_indexed o.isa ≠ 0)
    (ht : isTaggedPointer cfg o = false) (hd : isa_deallocating cfg.arch o.isa ≠ 0) :
    (∀ t h, ∃ r o', rootRetain cfg ops (n + 2) t h o = some (r, o')
        ∧ isa_deallocating cfg.arch o'.isa ≠ 0)
    ∧ (∃ r o', rootTryRetain cfg ops (n + 2) o = some (r, o')
        ∧ isa_deallocating cfg.arch o'.isa ≠ 0)
    ∧ (∀ pd h, ∃ r o', rootRelease cfg ops (n + 2) pd h o = some (r, o')
        ∧ isa_deallocating cfg.arch o'.isa ≠ 0)
    ∧ (∃ o', setWeaklyReferenced_nolock cfg ops (n + 1) o = some o'
        ∧ isa_deallocating cfg.arch o'.isa ≠ 0)
    ∧ (∃ o', setHasAssociatedObjects cfg (n + 1) o = some o'
        ∧ isa_deallocating cfg.arch o'.isa ≠ 0)
    ∧ (∀ newCls : Class, newCls.isFuture = false → newCls.canAllocIndexed = true →
        ∃ r o', changeIsa cfg newCls (n + 1) o = some (r, o')
          ∧ isa_indexed o'.isa ≠ 0
          ∧ isa_deallocating cfg.arch o'.isa ≠ 0) := by
  have hretain : ∀ t h, ∃ r o', rootRetain cfg ops (n + 2) t h o = some (r, o')
      ∧ isa_deallocating cfg.arch o'.isa ≠ 0 := by
    intro t h
    cases t
    · have hnd : ¬ (false = true ∧ isa_deallocating cfg.arch o.isa ≠ 0) := fun hx => by
        cases hx.1
      obtain ⟨o', hr, _, _, _, hdl, _⟩ := retain_step cfg ops n false h o hw hi ht hnd
      exact ⟨_, o', hr, by rw [hdl]; exact hd⟩
    · exact ⟨none, o, rootRetain_tryfail cfg ops (n + 1) h o hi ht hd, hd⟩
  refine ⟨hretain, ?_, ?_, ?_, ?_, ?_⟩
  · exact ⟨false, o, by
      simp [rootTryRetain, rootRetain_tryfail cfg ops (n + 1) false o hi ht hd], hd⟩
  · intro pd h
    obtain ⟨r, o', hr, _, _, _, _, _, hmono, _⟩ := release_step cfg ops n pd h o hw hi ht
    exact ⟨r, o', hr, hmono hd⟩
  · refine ⟨_, setWeaklyReferenced_indexed cfg ops n o hi, ?_⟩
    by_cases hwk : isa_weakly_referenced cfg.arch o.isa = 0
    · simp only [hwk, ne_eq, not_true_eq_false, if_false, isa_deallocating_eq,
        decode_set_weakly_referenced]
      exact hd
    · simp only [hwk, ne_eq, not_false_eq_true, if_true]
      exact hd
  · refine ⟨_, setHasAssociatedObjects_indexed cfg n o hi ht, ?_⟩
    by_cases ha : isa_has_assoc o.isa = 0
    · simp only [ha, ne_eq, not_true_eq_false, if_false, isa_deallocating_eq,
        decode_set_has_assoc]
      exact hd
    · simp only [ha, ne_eq, not_false_eq_true, if_true]
      exact hd
  · intro newCls hf hc
    refine ⟨_, _, changeIsa_indexed_to_indexed cfg newCls n o hi hf hc, ?_, ?_⟩
    · simp only [isa_indexed_eq cfg.arch, decode_set_shiftcls, decode_set_has_cxx_dtor] at hi ⊢
      exact hi
    · simp only [isa_deallocating_eq, decode_set_shiftcls, decode_set_has_cxx_dtor] at hd ⊢
      exact hd

/-- C9 at a sample x86_64 object that is deallocating: the flag survives a
release. -/
theorem C9_deallocating_monotonic_witness :
    ∃ r o', rootRelease x86 inertOps 2 true false (sample x86 1 0 1 none) = some (r, o')
      ∧ isa_deallocating x86.arch o'.isa ≠ 0 :=
  (C9_deallocating_monotonic x86 inertOps 0 (sample x86 1 0 1 none)
    (by decide) (by decide) (by decide) (by decide)).2.2.1 true false

/-! ## Call sequences -/

theorem isTaggedPointer_congr (cfg : Config) (o o' : objc_object) (h : o'.self = o.self) :
    isTaggedPointer cfg o' = isTaggedPointer cfg o := by
  simp only [isTaggedPointer, h]

/-- One call on a well-formed indexed object returns a well-formed indexed
object; the deallocating flag is never cleared, and a dealloc message is added
exactly when the call is a release that sets the flag. -/
theorem call_step (cfg : Config) (ops : RawIsaOps) (n : Nat) (c : Call) (o : objc_object)
    (hw : o.isa < WORD) (hi : isa_indexed o.isa ≠ 0) (ht : isTaggedPointer cfg o = false) :
    ∃ o', runCall cfg ops (n + 2) c o = some o'
      ∧ o'.isa < WORD ∧ isa_indexed o'.isa ≠ 0 ∧ isTaggedPointer cfg o' = false
      ∧ (isa_deallocating cfg.arch o.isa ≠ 0 → isa_deallocating cfg.arch o'.isa ≠ 0)
      ∧ o'.trace.count Event.dealloc
          = o.trace.count Event.dealloc
            + (if c = Call.release ∧ isa_deallocating cfg.arch o.isa = 0
                  ∧ isa_deallocating cfg.arch o'.isa ≠ 0 then 1 else 0) := by
  cases c with
  | retain =>
    have hnd : ¬ (false = true ∧ isa_deallocating cfg.arch o.isa ≠ 0) := fun hx => by
      cases hx.1
    obtain ⟨o', hr, hself, hw', hi', hdl, _, _, hD, _⟩ :=
      retain_step cfg ops n false false o hw hi ht hnd
    refine ⟨o', by simp [runCall, rootRetain0, hr], hw', by rw [hi']; exact hi,
      by rw [isTaggedPointer_congr cfg o o' hself]; exact ht, by rw [hdl]; exact id, ?_⟩
    simp [hD]
  | tryRetain =>
    by_cases hd : isa_deallocating cfg.arch o.isa = 0
    · have hnd : ¬ (true = true ∧ isa_deallocating cfg.arch o.isa ≠ 0) := fun hx => hx.2 hd
      obtain ⟨o', hr, hself, hw', hi', hdl, _, _, hD, _⟩ :=
        retain_step cfg ops n true false o hw hi ht hnd
      refine ⟨o', by simp [runCall, rootTryRetain, hr], hw', by rw [hi']; exact hi,
        by rw [isTaggedPointer_congr cfg o o' hself]; exact ht, by rw [hdl]; exact id, ?_⟩
      simp [hD]
    · have hr := rootRetain_tryfail cfg ops (n + 1) false o hi ht hd
      exact ⟨o, by simp [runCall, rootTryRetain, hr], hw, hi, ht, id, by simp⟩
  | release =>
    obtain ⟨r, o', hr, hself, hw', hi', _, _, hmono, hlive, hlast, hover⟩ :=
      release_step cfg ops n true false o hw hi ht
    refine ⟨o', by simp [runCall, rootRelease0, hr], hw', by rw [hi']; exact hi,
      by rw [isTaggedPointer_congr cfg o o' hself]; exact ht, hmono, ?_⟩
    by_cases hG : isa_extra_rc cfg.arch o.isa
        + (if isa_has_sidetable_rc cfg.arch o.isa ≠ 0 then
            sidetable_getExtraRC_nolock o else 0) = 0
    · by_cases hd : isa_deallocating cfg.arch o.isa = 0
      · obtain ⟨_, hd', _, _, hD, _⟩ := hlast hG hd
        simp [hD, hd, hd']
      · obtain ⟨_, _, _, hD, _⟩ := hover hG hd
        simp [hD, hd]
    · obtain ⟨_, _, hd', hD, _⟩ := hlive hG
      rw [hD, hd']
      by_cases hd : isa_deallocating cfg.arch o.isa = 0 <;> simp [hd]

/-- Along any call sequence the number of dealloc messages sent plus one for a
still clear deallocating flag never grows. -/
theorem calls_potential (cfg : Config) (ops : RawIsaOps) (n : Nat) (calls : List Call) :
    ∀ o : objc_object, o.isa < WORD → isa_indexed o.isa ≠ 0 → isTaggedPointer cfg o = false →
      ∃ o', runCalls cfg ops (n + 2) calls o = some o'
        ∧ o.trace.count Event.dealloc ≤ o'.trace.count Event.dealloc
        ∧ o'.trace.count Event.dealloc
            + (if isa_deallocating cfg.arch o'.isa = 0 then 1 else 0)
          ≤ o.trace.count Event.dealloc
            + (if isa_deallocating cfg.arch o.isa = 0 then 1 else 0) := by
  induction calls with
  | nil =>
    intro o _ _ _
    exact ⟨o, rfl, le_refl _, le_refl _⟩
  | cons c cs ih =>
    intro o hw hi ht
    obtain ⟨o1, hr, hw1, hi1, ht1, hmono, hD⟩ := call_step cfg ops n c o hw hi ht
    obtain ⟨o2, hr2, hle, hpot⟩ := ih o1 hw1 hi1 ht1
    refine ⟨o2, by simp [runCalls, hr, hr2], ?_, ?_⟩
    · rw [hD] at hle; omega
    · by_cases hd : isa_deallocating cfg.arch o.isa = 0
      · by_cases hd1 : isa_deallocating cfg.arch o1.isa = 0
        · simp only [hd, hd1, ne_eq, not_true_eq_false, and_false, if_false, if_true] at hD hpot ⊢
          omega
        · simp only [hd, hd1, ne_eq, not_false_eq_true, and_true, if_false, if_true] at hD hpot ⊢
          split at hD <;> omega
      · have hd1 := hmono hd
        simp only [hd, hd1, ne_eq, false_and, and_false, if_false] at hD hpot ⊢
        omega

/-- C8: for an object with an indexed isa and any finite sequence of
`rootRetain`, `rootTryRetain` and `rootRelease` calls on it, the dealloc message
is sent at most once. A single call sends it exactly when it is the release
that changes the deallocating flag from clear to set (and the object it leaves
is again a well-formed indexed object, so this applies at every point of a
sequence); over a whole sequence at most one is sent, and none at all once the
flag is set. -/
theorem C8_dealloc_at_most_once (cfg : Config) (ops : RawIsaOps) (n : Nat) (o : objc_object)
    (hw : o.isa < WORD) (hi : isa_indexed o.isa ≠ 0) (ht : isTaggedPointer cfg o = false) :
    (∀ c : Call, ∃ o', runCall cfg ops (n + 2) c o = some o'
        ∧ o'.isa < WORD ∧ isa_indexed o'.isa ≠ 0 ∧ isTaggedPointer cfg o' = false
        ∧ o'.trace.count Event.dealloc
            = o.trace.count Event.dealloc
              + (if c = Call.release ∧ isa_deallocating cfg.arch o.isa = 0
                    ∧ isa_deallocating cfg.arch o'.isa ≠ 0 then 1 else 0))
    ∧ (∀ calls : List Call, ∃ o', runCalls cfg ops (n + 2) calls o = some o'
        ∧ o'.trace.count Event.dealloc ≤ o.trace.count Event.dealloc + 1
        ∧ (isa_deallocating cfg.arch o.isa ≠ 0 →
            o'.trace.count Event.dealloc = o.trace.count Event.dealloc)) := by
  constructor
  · intro c
    obtain ⟨o', hr, hw', hi', ht', _, hD⟩ := call_step cfg ops n c o hw hi ht
    exact ⟨o', hr, hw', hi', ht', hD⟩
  · intro calls
    obtain ⟨o', hr, hle, hpot⟩ := calls_potential cfg ops n calls o hw hi ht
    refine ⟨o', hr, ?_, ?_⟩
    · split at hpot <;> split at hpot <;> omega
    · intro hd
      simp only [hd, if_false] at hpot
      split at hpot <;> omega

/-- C8 at a fresh x86_64 object released twice and then retained: one dealloc
message in all. -/
theorem C8_dealloc_at_most_once_witness :
    ∃ o', runCalls x86 inertOps 2 [Call.release, Call.release, Call.retain]
        (sample x86 0 0 0 none) = some o'
      ∧ o'.trace.count Event.dealloc ≤ (sample x86 0 0 0 none).trace.count Event.dealloc + 1 := by
  obtain ⟨o', h1, h2, _⟩ :=
    (C8_dealloc_at_most_once x86 inertOps 0 (sample x86 0 0 0 none)
      (by decide) (by decide) (by decide)).2 [Call.release, Call.release, Call.retain]
  exact ⟨o', h1, h2⟩

/-! ## The retain count along a live call sequence -/

theorem rootRetainCount_indexed (cfg : Config) (ops : RawIsaOps) (o : objc_object)
    (ht : isTaggedPointer cfg o = false) (hi : isa_indexed o.isa ≠ 0) :
    rootRetainCount cfg ops o
      = ((1 + isa_extra_rc cfg.arch o.isa
            + (if isa_has_sidetable_rc cfg.arch o.isa ≠ 0 then sidetable_getExtraRC_nolock o
               else 0)) % WORD,
         { o with trace := o.trace ++ [Event.lock, Event.unlock] }) := by
  by_cases hs : isa_has_sidetable_rc cfg.arch o.isa = 0
  · simp [rootRetainCount, ht, hi, hs, LoadExclusive, sidetable_lock, sidetable_unlock]
  · simp [rootRetainCount, ht, hi, hs, LoadExclusive, sidetable_lock, sidetable_unlock,
      sidetable_getExtraRC_nolock]

theorem decode_initIsa (cfg : Config) (cls : Class) (d : Bool) (o : objc_object) :
    decode cfg.arch (initIsa cfg cls true d o).isa
      = { decode cfg.arch (ISA_MAGIC_VALUE cfg.arch) with
          has_cxx_dtor := d.toNat % 2
          shiftcls := cls.addr / 2 ^ 3 % 2 ^ shiftcls_width cfg.arch } := by
  simp only [initIsa, Bool.not_true, Bool.false_eq_true, if_false, decode_set_shiftcls,
    decode_set_has_cxx_dtor]

theorem initIsa_lt (cfg : Config) (cls : Class) (d : Bool) (o : objc_object) :
    (initIsa cfg cls true d o).isa < WORD := by
  simp only [initIsa, Bool.not_true, Bool.false_eq_true, if_false]
  exact set_shiftcls_lt _ _ _ (set_has_cxx_dtor_lt _ _ (isa_magic_value_lt _))

/-- A live object: well formed, indexed, not deallocating, with no side-table
count unless `has_sidetable_rc` says so. Along a sequence of retains and
releases that never lets the releases overtake the count, the object stays
live and the count follows the calls. -/
theorem live_calls (cfg : Config) (ops : RawIsaOps) (n : Nat) (calls : List Call) :
    ∀ o : objc_object, o.isa < WORD → isa_indexed o.isa ≠ 0 → isTaggedPointer cfg o = false →
      isa_deallocating cfg.arch o.isa = 0 →
      (isa_has_sidetable_rc cfg.arch o.isa = 0 → sidetable_getExtraRC_nolock o = 0) →
      (∀ c ∈ calls, c = Call.retain ∨ c = Call.release) →
      (∀ k, (calls.take k).count Call.release
          ≤ isa_extra_rc cfg.arch o.isa
            + (if isa_has_sidetable_rc cfg.arch o.isa ≠ 0 then sidetable_getExtraRC_nolock o
               else 0)
            + (calls.take k).count Call.retain) →
      ∃ o', runCalls cfg ops (n + 2) calls o = some o'
        ∧ isa_indexed o'.isa ≠ 0 ∧ isTaggedPointer cfg o' = false
        ∧ isa_deallocating cfg.arch o'.isa = 0
        ∧ isa_extra_rc cfg.arch o'.isa
            + (if isa_has_sidetable_rc cfg.arch o'.isa ≠ 0 then sidetable_getExtraRC_nolock o'
               else 0)
            + calls.count Call.release
          = isa_extra_rc cfg.arch o.isa
            + (if isa_has_sidetable_rc cfg.arch o.isa ≠ 0 then sidetable_getExtraRC_nolock o
               else 0)
            + calls.count Call.retain := by
  induction calls with
  | nil =>
    intro o _ hi ht hd _ _ _
    exact ⟨o, rfl, hi, ht, hd, rfl⟩
  | cons c cs ih =>
    intro o hw hi ht hd hcons hcalls hlive
    have hc := hcalls c (List.mem_cons_self _ _)
    have hcs : ∀ c' ∈ cs, c' = Call.retain ∨ c' = Call.release :=
      fun c' hc' => hcalls c' (List.mem_cons_of_mem _ hc')
    rcases hc with hc | hc
    · subst hc
      have hnd : ¬ (false = true ∧ isa_deallocating cfg.arch o.isa ≠ 0) := fun hx => by
        cases hx.1
      obtain ⟨o1, hr, hself, hw1, hi1, hdl, _, hgated, _, _⟩ :=
        retain_step cfg ops n false false o hw hi ht hnd
      obtain ⟨hcons1, hG⟩ := hgated hcons
      have hlive1 : ∀ k, (cs.take k).count Call.release
          ≤ isa_extra_rc cfg.arch o1.isa
            + (if isa_has_sidetable_rc cfg.arch o1.isa ≠ 0 then
                sidetable_getExtraRC_nolock o1 else 0)
            + (cs.take k).count Call.retain := by
        intro k
        have := hlive (k + 1)
        simp only [List.take_succ_cons, List.count_cons_self, List.count_cons_of_ne
          (show Call.release ≠ Call.retain by decide)] at this
        rw [hG]; omega
      obtain ⟨o2, hr2, hi2, ht2, hd2, hsum⟩ :=
        ih o1 hw1 (by rw [hi1]; exact hi)
          (by rw [isTaggedPointer_congr cfg o o1 hself]; exact ht)
          (by rw [hdl]; exact hd) hcons1 hcs hlive1
      refine ⟨o2, by simp [runCalls, runCall, rootRetain0, hr, hr2], hi2, ht2, hd2, ?_⟩
      simp only [List.count_cons_self, List.count_cons_of_ne
        (show Call.release ≠ Call.retain by decide)]
      rw [hG] at hsum; omega
    · subst hc
      have h1 := hlive 1
      simp only [List.take_succ_cons, List.take_zero, List.count_cons_self, List.count_nil,
        List.count_cons_of_ne (show Call.retain ≠ Call.release by decide)] at h1
      have hG0 : isa_extra_rc cfg.arch o.isa
          + (if isa_has_sidetable_rc cfg.arch o.isa ≠ 0 then
              sidetable_getExtraRC_nolock o else 0) ≠ 0 := by omega
      obtain ⟨r, o1, hr, hself, hw1, hi1, hhs, hget, _, hlv, _, _⟩ :=
        release_step cfg ops n true false o hw hi ht
      obtain ⟨_, hG, hdl, _, _⟩ := hlv hG0
      have hcons1 : isa_has_sidetable_rc cfg.arch o1.isa = 0 →
          sidetable_getExtraRC_nolock o1 = 0 := by
        intro h0
        rw [hhs] at h0
        have := hcons h0
        omega
      have hlive1 : ∀ k, (cs.take k).count Call.release
          ≤ isa_extra_rc cfg.arch o1.isa
            + (if isa_has_sidetable_rc cfg.arch o1.isa ≠ 0 then
                sidetable_getExtraRC_nolock o1 else 0)
            + (cs.take k).count Call.retain := by
        intro k
        have := hlive (k + 1)
        simp only [List.take_succ_cons, List.count_cons_self, List.count_cons_of_ne
          (show Call.retain ≠ Call.release by decide)] at this
        omega
      obtain ⟨o2, hr2, hi2, ht2, hd2, hsum⟩ :=
        ih o1 hw1 (by rw [hi1]; exact hi)
          (by rw [isTaggedPointer_congr cfg o o1 hself]; exact ht)
          (by rw [hdl]; exact hd) hcons1 hcs hlive1
      refine ⟨o2, by simp [runCalls, runCall, rootRelease0, hr, hr2], hi2, ht2, hd2, ?_⟩
      simp only [List.count_cons_self, List.count_cons_of_ne
        (show Call.retain ≠ Call.release by decide)]
      omega

/-- C1: a freshly initialised, non-tagged object with an indexed isa and no
side-table count is taken through any sequence of `N` `rootRetain` and `M`
`rootRelease` calls in which every prefix has at least as many retains as
releases. Every call returns, and `rootRetainCount` afterwards returns
`1 + N - M` as a `uintptr_t`, i.e. exactly `1 + N - M` whenever that is below
`2 ^ 64`; no bound on `N` relative to the inline `extra_rc` capacity is
needed. -/
theorem C1_retainCount_after_calls (cfg : Config) (ops : RawIsaOps) (n : Nat) (cls : Class)
    (hasCxxDtor : Bool) (o : objc_object) (calls : List Call)
    (ht : isTaggedPointer cfg o = false) (hside : sidetable_getExtraRC_nolock o = 0)
    (hcalls : ∀ c ∈ calls, c = Call.retain ∨ c = Call.release)
    (hlive : ∀ k, k ≤ calls.length →
      (calls.take k).count Call.release ≤ (calls.take k).count Call.retain) :
    ∃ o', runCalls cfg ops (n + 2) calls (initIsa cfg cls true hasCxxDtor o) = some o'
      ∧ (rootRetainCount cfg ops o').1
          = (1 + calls.count Call.retain - calls.count Call.release) % WORD
      ∧ (1 + calls.count Call.retain - calls.count Call.release < WORD →
          (rootRetainCount cfg ops o').1
            = 1 + calls.count Call.retain - calls.count Call.release) := by
  have hall : ∀ k, (calls.take k).count Call.release ≤ (calls.take k).count Call.retain := by
    intro k
    by_cases hk : k ≤ calls.length
    · exact hlive k hk
    · have hlen := hlive calls.length (le_refl _)
      rw [List.take_of_length_le (by omega)]
      simpa using hlen
  have hdec := decode_initIsa cfg cls hasCxxDtor o
  have hmag := decode_magic_value cfg.arch
  have hi0 : isa_indexed (initIsa cfg cls true hasCxxDtor o).isa = 1 := by
    rw [isa_indexed_eq cfg.arch, hdec, hmag]
  have he0 : isa_extra_rc cfg.arch (initIsa cfg cls true hasCxxDtor o).isa = 0 := by
    rw [isa_extra_rc_eq, hdec, hmag]
  have hs0 : isa_has_sidetable_rc cfg.arch (initIsa cfg cls true hasCxxDtor o).isa = 0 := by
    rw [isa_has_sidetable_rc_eq, hdec, hmag]
  have hd0 : isa_deallocating cfg.arch (initIsa cfg cls true hasCxxDtor o).isa = 0 := by
    rw [isa_deallocating_eq, hdec, hmag]
  have hself : (initIsa cfg cls true hasCxxDtor o).self = o.self := by simp [initIsa]
  have hst : sidetable_getExtraRC_nolock (initIsa cfg cls true hasCxxDtor o) = 0 := by
    simpa [initIsa, sidetable_getExtraRC_nolock] using hside
  obtain ⟨o', hr, hi', ht', _, hsum⟩ :=
    live_calls cfg ops n calls (initIsa cfg cls true hasCxxDtor o)
      (initIsa_lt cfg cls hasCxxDtor o) (by rw [hi0]; decide)
      (by rw [isTaggedPointer_congr cfg o _ hself]; exact ht) hd0 (fun _ => hst) hcalls
      (by intro k; rw [he0, hs0]; simpa using hall k)
  have hM : calls.count Call.release ≤ calls.count Call.retain := by
    have := hall calls.length
    simpa using this
  have hval : (rootRetainCount cfg ops o').1
      = (1 + calls.count Call.retain - calls.count Call.release) % WORD := by
    rw [rootRetainCount_indexed cfg ops o' ht' hi']
    rw [he0, hs0] at hsum
    simp only [ne_eq, not_true_eq_false, if_false, Nat.zero_add] at hsum
    have harg : 1 + isa_extra_rc cfg.arch o'.isa
        + (if isa_has_sidetable_rc cfg.arch o'.isa ≠ 0 then sidetable_getExtraRC_nolock o'
           else 0)
        = 1 + calls.count Call.retain - calls.count Call.release := by
      simp only [ne_eq]
      omega
    simp only [harg]
  refine ⟨o', hr, hval, ?_⟩
  intro hlt
  rw [hval, Nat.mod_eq_of_lt hlt]

set_option maxRecDepth 1000000

/-- C1 on x86_64, past the inline capacity: 256 retains and one release of a
fresh object leave a retain count of 256. -/
theorem C1_retainCount_after_calls_witness :
    ∃ o', runCalls x86 inertOps 2 (List.replicate 256 Call.retain ++ [Call.release])
        (initIsa x86 plainClass true false blank) = some o'
      ∧ (rootRetainCount x86 inertOps o').1 = 256 := by
  obtain ⟨o', h1, _, h3⟩ :=
    C1_retainCount_after_calls x86 inertOps 0 plainClass false blank
      (List.replicate 256 Call.retain ++ [Call.release]) (by decide) (by decide) (by decide)
      (by decide)
  exact ⟨o', h1, h3 (by decide)⟩

/-- C2: for a non-tagged object with an indexed isa whose deallocating flag is
clear, `rootRelease` (with enough fuel, whatever its two arguments) returns
true exactly when the count before the call was 1, i.e. `extra_rc = 0` and
nothing can be borrowed from the side table. In that case the deallocating
flag is set and `extra_rc` stays 0; otherwise the count (inline plus side
table) decreases by exactly one and the flag stays clear. -/
theorem C2_rootRelease_result (cfg : Config) (ops : RawIsaOps) (n : Nat) (pd h : Bool)
    (o : objc_object) (hw : o.isa < WORD) (hi : isa_indexed o.isa ≠ 0)
    (ht : isTaggedPointer cfg o = false) (hd : isa_deallocating cfg.arch o.isa = 0) :
    ∃ r o', rootRelease cfg ops (n + 2) pd h o = some (r, o')
      ∧ (r = true ↔
          isa_extra_rc cfg.arch o.isa
            + (if isa_has_sidetable_rc cfg.arch o.isa ≠ 0 then sidetable_getExtraRC_nolock o
               else 0) = 0)
      ∧ (r = true → isa_deallocating cfg.arch o'.isa = 1 ∧ isa_extra_rc cfg.arch o'.isa = 0)
      ∧ (r = false →
          isa_extra_rc cfg.arch o'.isa
            + (if isa_has_sidetable_rc cfg.arch o'.isa ≠ 0 then sidetable_getExtraRC_nolock o'
               else 0) + 1
            = isa_extra_rc cfg.arch o.isa
              + (if isa_has_sidetable_rc cfg.arch o.isa ≠ 0 then sidetable_getExtraRC_nolock o
                 else 0)
          ∧ isa_deallocating cfg.arch o'.isa = 0) := by
  have hlt := isa_extra_rc_lt cfg.arch o.isa
  by_cases he : isa_extra_rc cfg.arch o.isa = 0
  · by_cases hs : isa_has_sidetable_rc cfg.arch o.isa = 0
    · refine ⟨true, _, rootRelease_last cfg ops n pd h o hw hi ht he (Or.inl hs) hd, ?_, ?_, ?_⟩
      · simp [he, hs]
      · intro _
        simp only [isa_deallocating_eq, isa_extra_rc_eq, decode_set_deallocating] at he ⊢
        exact ⟨trivial, he⟩
      · intro hf; cases hf
    · by_cases hb : sidetable_getExtraRC_nolock o = 0
      · refine ⟨true, _, rootRelease_last cfg ops n pd h o hw hi ht he (Or.inr hb) hd, ?_, ?_, ?_⟩
        · simp [he, hb]
        · intro _
          simp only [isa_deallocating_eq, isa_extra_rc_eq, decode_set_deallocating] at he ⊢
          exact ⟨trivial, he⟩
        · intro hf; cases hf
      · refine ⟨false, _, rootRelease_borrow cfg ops n pd h o hw hi ht he hs hb, ?_, ?_, ?_⟩
        · simp [he, hs, hb]
        · intro hf; cases hf
        · intro _
          have hpos := rc_half_pos cfg.arch
          have hdbl := rc_half_double cfg.arch
          have hg : sidetable_getExtraRC_nolock
              ({ self := o.self
                 isa := set_extra_rc cfg.arch o.isa
                   (min (RC_HALF cfg.arch) (sidetable_getExtraRC_nolock o) - 1)
                 sidetable := (sidetable_subExtraRC_nolock (RC_HALF cfg.arch) o).2.sidetable
                 trace := o.trace ++ [Event.lock, Event.unlock] } : objc_object)
              = sidetable_getExtraRC_nolock (sidetable_subExtraRC_nolock (RC_HALF cfg.arch) o).2 :=
            rfl
          simp only [isa_deallocating_eq, isa_extra_rc_eq, isa_has_sidetable_rc_eq,
            decode_set_extra_rc, hg, sub_get] at he hs hd ⊢
          simp only [hs, ne_eq, not_false_eq_true, if_true]
          refine ⟨?_, hd⟩
          rw [Nat.mod_eq_of_lt (by omega)]
          omega
  · refine ⟨false, _, rootRelease_fast cfg ops (n + 1) pd h o hw hi ht he, ?_, ?_, ?_⟩
    · simp only [false_iff, Bool.false_eq_true]; omega
    · intro hf; cases hf
    · intro _
      have hg : sidetable_getExtraRC_nolock
          ({ o with isa := (subc o.isa (RC_ONE cfg.arch) 0).1 } : objc_object)
          = sidetable_getExtraRC_nolock o := rfl
      simp only [isa_deallocating_eq, isa_extra_rc_eq, isa_has_sidetable_rc_eq,
        decode_subc cfg.arch o.isa hw, hg] at he hd ⊢
      refine ⟨?_, hd⟩
      have : (isa_extra_rc cfg.arch o.isa + 2 ^ extra_rc_width cfg.arch - 1)
          % 2 ^ extra_rc_width cfg.arch = isa_extra_rc cfg.arch o.isa - 1 := by
        have h1 : isa_extra_rc cfg.arch o.isa + 2 ^ extra_rc_width cfg.arch - 1
            = (isa_extra_rc cfg.arch o.isa - 1) + 2 ^ extra_rc_width cfg.arch := by
          simp only [isa_extra_rc_eq] at he ⊢; omega
        rw [h1, Nat.add_mod_right, Nat.mod_eq_of_lt (by omega)]
      simp only [isa_extra_rc_eq] at this
      rw [this]
      omega

/-- C2 at a sample arm64 object with inline count 0 and two counts in the side
table. -/
theorem C2_rootRelease_result_witness :
    ∃ r o', rootRelease arm inertOps 2 true false (sample arm 0 1 0 (some 2)) = some (r, o')
      ∧ (r = true ↔
          isa_extra_rc arm.arch (sample arm 0 1 0 (some 2)).isa
            + (if isa_has_sidetable_rc arm.arch (sample arm 0 1 0 (some 2)).isa ≠ 0 then
                sidetable_getExtraRC_nolock (sample arm 0 1 0 (some 2))
               else 0) = 0)
      ∧ (r = true → isa_deallocating arm.arch o'.isa = 1 ∧ isa_extra_rc arm.arch o'.isa = 0)
      ∧ (r = false →
          isa_extra_rc arm.arch o'.isa
            + (if isa_has_sidetable_rc arm.arch o'.isa ≠ 0 then sidetable_getExtraRC_nolock o'
               else 0) + 1
            = isa_extra_rc arm.arch (sample arm 0 1 0 (some 2)).isa
              + (if isa_has_sidetable_rc arm.arch (sample arm 0 1 0 (some 2)).isa ≠ 0 then
                  sidetable_getExtraRC_nolock (sample arm 0 1 0 (some 2))
                 else 0)
          ∧ isa_deallocating arm.arch o'.isa = 0) :=
  C2_rootRelease_result arm inertOps 0 true false (sample arm 0 1 0 (some 2))
    (by decide) (by decide) (by decide) (by decide)

/-- C3: when `extra_rc` of an indexed isa is at its maximum, a retain that is
not refused (with overflow handling, directly or through the slow path) does
not wrap the inline count: it leaves exactly `RC_HALF` in `extra_rc`, sets
`has_sidetable_rc` and adds exactly `RC_HALF` to the side-table count, where
`2 * RC_HALF` is the range of `extra_rc`; so the inline count plus the
side-table count grows by exactly one, and so does the count that
`rootRetainCount` reads whenever a clear `has_sidetable_rc` came with an empty
side table. -/
theorem C3_rootRetain_overflow (cfg : Config) (ops : RawIsaOps) (n : Nat) (t h : Bool)
    (o : objc_object) (hw : o.isa < WORD) (hi : isa_indexed o.isa ≠ 0)
    (ht : isTaggedPointer cfg o = false)
    (hd : ¬ (t = true ∧ isa_deallocating cfg.arch o.isa ≠ 0))
    (hmax : isa_extra_rc cfg.arch o.isa = 2 ^ extra_rc_width cfg.arch - 1) :
    ∃ o', rootRetain cfg ops (n + 2) t h o = some (some o.self, o')
      ∧ rootRetain cfg ops (n + 1) t true o = some (some o.self, o')
      ∧ isa_extra_rc cfg.arch o'.isa = RC_HALF cfg.arch
      ∧ isa_has_sidetable_rc cfg.arch o'.isa = 1
      ∧ sidetable_getExtraRC_nolock o' = sidetable_getExtraRC_nolock o + RC_HALF cfg.arch
      ∧ 2 * RC_HALF cfg.arch = 2 ^ extra_rc_width cfg.arch
      ∧ isa_extra_rc cfg.arch o'.isa + sidetable_getExtraRC_nolock o'
          = isa_extra_rc cfg.arch o.isa + sidetable_getExtraRC_nolock o + 1
      ∧ ((isa_has_sidetable_rc cfg.arch o.isa = 0 → sidetable_getExtraRC_nolock o = 0) →
          isa_extra_rc cfg.arch o'.isa
            + (if isa_has_sidetable_rc cfg.arch o'.isa ≠ 0 then sidetable_getExtraRC_nolock o'
               else 0)
          = isa_extra_rc cfg.arch o.isa
            + (if isa_has_sidetable_rc cfg.arch o.isa ≠ 0 then sidetable_getExtraRC_nolock o
               else 0) + 1) := by
  have hpos : 0 < 2 ^ extra_rc_width cfg.arch := Nat.two_pow_pos _
  have he : isa_extra_rc cfg.arch o.isa + 1 = 2 ^ extra_rc_width cfg.arch := by omega
  have hdbl := rc_half_double cfg.arch
  have hc : (addc o.isa (RC_ONE cfg.arch) 0).2 ≠ 0 := (addc_carry_iff cfg.arch o.isa hw).2 he
  have hg : sidetable_getExtraRC_nolock
      ({ self := o.self
         isa := set_has_sidetable_rc cfg.arch
           (set_extra_rc cfg.arch (addc o.isa (RC_ONE cfg.arch) 0).1 (RC_HALF cfg.arch)) 1
         sidetable := (sidetable_addExtraRC_nolock (RC_HALF cfg.arch) o).sidetable
         trace := o.trace ++ (if t = true then [] else [Event.lock, Event.unlock]) }
        : objc_object)
      = sidetable_getExtraRC_nolock o + RC_HALF cfg.arch := by
    rw [← add_get]; rfl
  refine ⟨_, rootRetain_overflowing cfg ops n t h o hw hi ht hd he, ?_, ?_, ?_, hg, hdbl, ?_, ?_⟩
  · simp only [rootRetain, ht, rootRetain_loop, rootRetain_pass_overflow cfg ops t o hi hd hc]
    simp
  · simp only [isa_extra_rc_eq, decode_set_has_sidetable_rc, decode_set_extra_rc, rc_half_mod]
  · simp only [isa_has_sidetable_rc_eq, decode_set_has_sidetable_rc]
  · rw [hg]
    simp only [isa_extra_rc_eq, decode_set_has_sidetable_rc, decode_set_extra_rc, rc_half_mod]
    simp only [isa_extra_rc_eq] at he
    omega
  · intro hcons
    rw [hg]
    simp only [isa_extra_rc_eq, isa_has_sidetable_rc_eq, decode_set_has_sidetable_rc,
      decode_set_extra_rc, rc_half_mod] at he hcons ⊢
    simp only [Nat.one_mod, ne_eq, one_ne_zero, not_false_eq_true, if_true]
    by_cases hs : (decode cfg.arch o.isa).has_sidetable_rc = 0
    · have := hcons hs
      simp only [hs, ne_eq, not_true_eq_false, if_false]
      omega
    · simp only [hs, ne_eq, not_false_eq_true, if_true]
      omega

/-- C3 at a sample x86_64 object whose inline count is 255. -/
theorem C3_rootRetain_overflow_witness :
    ∃ o', rootRetain x86 inertOps 2 false false (sample x86 255 0 0 none)
        = some (some (sample x86 255 0 0 none).self, o')
      ∧ isa_extra_rc x86.arch o'.isa = 128
      ∧ isa_has_sidetable_rc x86.arch o'.isa = 1
      ∧ sidetable_getExtraRC_nolock o' = 128 := by
  obtain ⟨o', h1, _, h3, h4, h5, _⟩ :=
    C3_rootRetain_overflow x86 inertOps 0 false false (sample x86 255 0 0 none)
      (by decide) (by decide) (by decide) (by decide) (by decide)
  exact ⟨o', h1, h3, h4, h5⟩

/-- C4: for an indexed isa with `extra_rc = 0` and `has_sidetable_rc` set, when
the side table holds at least `RC_HALF` counts, `rootRelease` borrows `RC_HALF`
from the side table, stores `extra_rc = RC_HALF - 1`, returns false without
touching the deallocating flag or sending dealloc, and leaves
`has_sidetable_rc` set, also when the borrow drains the side table to zero. -/
theorem C4_rootRelease_borrows (cfg : Config) (ops : RawIsaOps) (n : Nat) (pd h : Bool)
    (o : objc_object) (hw : o.isa < WORD) (hi : isa_indexed o.isa ≠ 0)
    (ht : isTaggedPointer cfg o = false) (he : isa_extra_rc cfg.arch o.isa = 0)
    (hs : isa_has_sidetable_rc cfg.arch o.isa ≠ 0)
    (hside : RC_HALF cfg.arch ≤ sidetable_getExtraRC_nolock o) :
    ∃ o', rootRelease cfg ops (n + 2) pd h o = some (false, o')
      ∧ sidetable_getExtraRC_nolock o' + RC_HALF cfg.arch = sidetable_getExtraRC_nolock o
      ∧ isa_extra_rc cfg.arch o'.isa = RC_HALF cfg.arch - 1
      ∧ isa_deallocating cfg.arch o'.isa = isa_deallocating cfg.arch o.isa
      ∧ isa_has_sidetable_rc cfg.arch o'.isa = isa_has_sidetable_rc cfg.arch o.isa
      ∧ isa_has_sidetable_rc cfg.arch o'.isa ≠ 0
      ∧ o'.trace = o.trace ++ [Event.lock, Event.unlock] := by
  have hpos := rc_half_pos cfg.arch
  have hdbl := rc_half_double cfg.arch
  have hb : sidetable_getExtraRC_nolock o ≠ 0 := by omega
  have hmin : min (RC_HALF cfg.arch) (sidetable_getExtraRC_nolock o) = RC_HALF cfg.arch :=
    Nat.min_eq_left hside
  have hg : sidetable_getExtraRC_nolock
      ({ self := o.self
         isa := set_extra_rc cfg.arch o.isa
           (min (RC_HALF cfg.arch) (sidetable_getExtraRC_nolock o) - 1)
         sidetable := (sidetable_subExtraRC_nolock (RC_HALF cfg.arch) o).2.sidetable
         trace := o.trace ++ [Event.lock, Event.unlock] } : objc_object)
      = sidetable_getExtraRC_nolock (sidetable_subExtraRC_nolock (RC_HALF cfg.arch) o).2 := rfl
  refine ⟨_, rootRelease_borrow cfg ops n pd h o hw hi ht he hs hb, ?_, ?_, ?_, ?_, ?_, rfl⟩
  · rw [hg, sub_get, hmin]; omega
  · simp only [isa_extra_rc_eq, decode_set_extra_rc, hmin]
    exact Nat.mod_eq_of_lt (by omega)
  · simp only [isa_deallocating_eq, decode_set_extra_rc]
  · simp only [isa_has_sidetable_rc_eq, decode_set_extra_rc]
  · simp only [isa_has_sidetable_rc_eq, decode_set_extra_rc] at hs ⊢
    exact hs

/-- C4 at a sample x86_64 object whose side table holds exactly `RC_HALF`. -/
theorem C4_rootRelease_borrows_witness :
    ∃ o', rootRelease x86 inertOps 2 true false (sample x86 0 1 0 (some 128)) = some (false, o')
      ∧ sidetable_getExtraRC_nolock o' + 128 = 128
      ∧ isa_extra_rc x86.arch o'.isa = 127
      ∧ isa_has_sidetable_rc x86.arch o'.isa ≠ 0 := by
  obtain ⟨o', h1, h2, h3, _, _, h6, _⟩ :=
    C4_rootRelease_borrows x86 inertOps 0 true false (sample x86 0 1 0 (some 128))
      (by decide) (by decide) (by decide) (by decide) (by decide) (by decide)
  exact ⟨o', h1, h2, h3, h6⟩

/-- C5: for a non-tagged object with an indexed isa, `rootTryRetain` on an
object whose deallocating flag is set returns false (`rootRetain` with
`tryRetain = true` returns nil) and leaves the whole object state, isa word and
side table included, unchanged; on an object whose flag is clear it succeeds,
returns the object and raises the retain count by one. -/
theorem C5_rootTryRetain (cfg : Config) (ops : RawIsaOps) (n : Nat) (o : objc_object)
    (hw : o.isa < WORD) (hi : isa_indexed o.isa ≠ 0) (ht : isTaggedPointer cfg o = false) :
    (isa_deallocating cfg.arch o.isa ≠ 0 →
        rootTryRetain cfg ops (n + 2) o = some (false, o)
        ∧ rootRetain cfg ops (n + 2) true false o = some (none, o))
    ∧ (isa_deallocating cfg.arch o.isa = 0 →
        ∃ o', rootTryRetain cfg ops (n + 2) o = some (true, o')
          ∧ rootRetain cfg ops (n + 2) true false o = some (some o.self, o')
          ∧ isa_deallocating cfg.arch o'.isa = 0
          ∧ isa_extra_rc cfg.arch o'.isa + sidetable_getExtraRC_nolock o'
              = isa_extra_rc cfg.arch o.isa + sidetable_getExtraRC_nolock o + 1
          ∧ ((isa_has_sidetable_rc cfg.arch o.isa = 0 → sidetable_getExtraRC_nolock o = 0) →
              isa_extra_rc cfg.arch o'.isa
                + (if isa_has_sidetable_rc cfg.arch o'.isa ≠ 0 then
                    sidetable_getExtraRC_nolock o' else 0)
              = isa_extra_rc cfg.arch o.isa
                + (if isa_has_sidetable_rc cfg.arch o.isa ≠ 0 then
                    sidetable_getExtraRC_nolock o else 0) + 1)) := by
  constructor
  · intro hd
    have hr := rootRetain_tryfail cfg ops (n + 1) false o hi ht hd
    exact ⟨by simp [rootTryRetain, hr], hr⟩
  · intro hd
    have hnd : ¬ (true = true ∧ isa_deallocating cfg.arch o.isa ≠ 0) := fun hx => hx.2 hd
    obtain ⟨o', hr, _, _, _, hdl, hraw, hgated, _, _⟩ :=
      retain_step cfg ops n true false o hw hi ht hnd
    refine ⟨o', by simp [rootTryRetain, hr], hr, by rw [hdl, hd], hraw, ?_⟩
    intro hcons
    exact (hgated hcons).2

/-- C5 at a sample arm64 object that is deallocating. -/
theorem C5_rootTryRetain_witness :
    rootTryRetain arm inertOps 2 (sample arm 3 0 1 none) = some (false, sample arm 3 0 1 none) :=
  ((C5_rootTryRetain arm inertOps 0 (sample arm 3 0 1 none)
    (by decide) (by decide) (by decide)).1 (by decide)).1

/-- C6, as the code has it: an unconditional `rootRetain()` does not look at the
deallocating flag. On an object with an indexed isa whose flag is set it returns
the object, reports nothing, raises the count by one and leaves the flag set. -/
theorem C6_rootRetain_ignores_deallocating (cfg : Config) (ops : RawIsaOps) (n : Nat)
    (o : objc_object) (hw : o.isa < WORD) (hi : isa_indexed o.isa ≠ 0)
    (ht : isTaggedPointer cfg o = false) (hd : isa_deallocating cfg.arch o.isa ≠ 0) :
    ∃ o', rootRetain0 cfg ops (n + 2) o = some (some o.self, o')
      ∧ isa_deallocating cfg.arch o'.isa = isa_deallocating cfg.arch o.isa
      ∧ isa_deallocating cfg.arch o'.isa ≠ 0
      ∧ isa_extra_rc cfg.arch o'.isa + sidetable_getExtraRC_nolock o'
          = isa_extra_rc cfg.arch o.isa + sidetable_getExtraRC_nolock o + 1
      ∧ o'.trace.count Event.overrelease = o.trace.count Event.overrelease
      ∧ o'.trace.count Event.dealloc = o.trace.count Event.dealloc := by
  have hnd : ¬ (false = true ∧ isa_deallocating cfg.arch o.isa ≠ 0) := fun hx => by
    cases hx.1
  obtain ⟨o', hr, _, _, _, hdl, hraw, _, hde, hov⟩ :=
    retain_step cfg ops n false false o hw hi ht hnd
  exact ⟨o', hr, hdl, by rw [hdl]; exact hd, hraw, hov, hde⟩

/-- C6 at a sample x86_64 object that is deallocating. -/
theorem C6_rootRetain_ignores_deallocating_witness :
    ∃ o', rootRetain0 x86 inertOps 2 (sample x86 0 0 1 none) = some (some 0x1000, o')
      ∧ isa_deallocating x86.arch o'.isa ≠ 0
      ∧ isa_extra_rc x86.arch o'.isa + sidetable_getExtraRC_nolock o' = 0 + 0 + 1 := by
  obtain ⟨o', h1, _, h3, h4, _⟩ :=
    C6_rootRetain_ignores_deallocating x86 inertOps 0 (sample x86 0 0 1 none)
      (by decide) (by decide) (by decide) (by decide)
  exact ⟨o', h1, h3, h4⟩

/-- C6 fails as stated: on a deallocating x86_64 object an unconditional
`rootRetain()` returns the object itself, the inline count goes from 0 to 1,
and the trace stays empty, so nothing is reported. -/
theorem C6_counterexample :
    isa_deallocating x86.arch (sample x86 0 0 1 none).isa = 1
      ∧ isa_extra_rc x86.arch (sample x86 0 0 1 none).isa = 0
      ∧ rootRetain0 x86 inertOps 2 (sample x86 0 0 1 none)
          = some (some (sample x86 0 0 1 none).self, sample x86 1 0 1 none)
      ∧ isa_extra_rc x86.arch (sample x86 1 0 1 none).isa = 1
      ∧ (sample x86 1 0 1 none).trace = [] := by
  decide

/-- C7: for an indexed isa whose deallocating flag is already set and whose
count is at zero (`extra_rc = 0` and nothing to borrow from the side table),
`rootRelease` takes the over-release exit: its result is the result of
`overrelease_error`, no dealloc message is sent, and the isa word and the
side-table entry are unchanged. -/
theorem C7_rootRelease_overrelease (cfg : Config) (ops : RawIsaOps) (n : Nat) (pd h : Bool)
    (o : objc_object) (hw : o.isa < WORD) (hi : isa_indexed o.isa ≠ 0)
    (ht : isTaggedPointer cfg o = false) (hd : isa_deallocating cfg.arch o.isa ≠ 0)
    (he : isa_extra_rc cfg.arch o.isa = 0)
    (hz : isa_has_sidetable_rc cfg.arch o.isa = 0 ∨ sidetable_getExtraRC_nolock o = 0) :
    ∃ o1, rootRelease cfg ops (n + 2) pd h o = some (overrelease_error o1)
      ∧ o1.self = o.self ∧ o1.isa = o.isa ∧ o1.sidetable = o.sidetable
      ∧ (overrelease_error o1).2.isa = o.isa
      ∧ (overrelease_error o1).2.sidetable = o.sidetable
      ∧ (overrelease_error o1).2.trace.count Event.dealloc = o.trace.count Event.dealloc
      ∧ (overrelease_error o1).2.trace.count Event.overrelease
          = o.trace.count Event.overrelease + 1 := by
  refine ⟨_, rootRelease_over cfg ops n pd h o hw hi ht he hz hd, rfl, rfl, rfl, rfl, rfl, ?_, ?_⟩
  · by_cases hs : isa_has_sidetable_rc cfg.arch o.isa = 0 <;> simp [hs, overrelease_error]
  · by_cases hs : isa_has_sidetable_rc cfg.arch o.isa = 0 <;> simp [hs, overrelease_error]

/-- C7 at a sample arm64 object that is deallocating with nothing left to
borrow. -/
theorem C7_rootRelease_overrelease_witness :
    ∃ o1, rootRelease arm inertOps 2 true false (sample arm 0 1 1 (some 0))
        = some (overrelease_error o1)
      ∧ (overrelease_error o1).2.isa = (sample arm 0 1 1 (some 0)).isa := by
  obtain ⟨o1, h1, _, _, _, h5, _⟩ :=
    C7_rootRelease_overrelease arm inertOps 0 true false (sample arm 0 1 1 (some 0))
      (by decide) (by decide) (by decide) (by decide) (by decide) (by decide)
  exact ⟨o1, h1, h5⟩

/-! ## Claims -/

/-- C10: for a non-tagged object with an indexed isa, `rootRetainCount` returns
`1 + extra_rc`, plus the side-table count exactly when `has_sidetable_rc` is
set (the sum is formed in `uintptr_t`, and is exact whenever it is below
`2 ^ 64`), and the call leaves the isa word and the side-table entry as they
were: its only effect is taking and dropping the side-table lock. -/
theorem C10_rootRetainCount_reads (cfg : Config) (ops : RawIsaOps) (o : objc_object)
    (ht : isTaggedPointer cfg o = false) (hi : isa_indexed o.isa ≠ 0) :
    (rootRetainCount cfg ops o).1
        = (1 + isa_extra_rc cfg.arch o.isa
            + (if isa_has_sidetable_rc cfg.arch o.isa ≠ 0 then sidetable_getExtraRC_nolock o
               else 0)) % WORD
      ∧ (1 + isa_extra_rc cfg.arch o.isa
            + (if isa_has_sidetable_rc cfg.arch o.isa ≠ 0 then sidetable_getExtraRC_nolock o
               else 0) < WORD →
          (rootRetainCount cfg ops o).1
            = 1 + isa_extra_rc cfg.arch o.isa
              + (if isa_has_sidetable_rc cfg.arch o.isa ≠ 0 then sidetable_getExtraRC_nolock o
                 else 0))
      ∧ (rootRetainCount cfg ops o).2.isa = o.isa
      ∧ (rootRetainCount cfg ops o).2.sidetable = o.sidetable
      ∧ (rootRetainCount cfg ops o).2.self = o.self
      ∧ (rootRetainCount cfg ops o).2.trace = o.trace ++ [Event.lock, Event.unlock] := by
  have hval : (rootRetainCount cfg ops o).1
        = (1 + isa_extra_rc cfg.arch o.isa
            + (if isa_has_sidetable_rc cfg.arch o.isa ≠ 0 then sidetable_getExtraRC_nolock o
               else 0)) % WORD := by
    by_cases hs : isa_has_sidetable_rc cfg.arch o.isa = 0
    · simp [rootRetainCount, ht, hi, hs, LoadExclusive, sidetable_lock]
    · simp [rootRetainCount, ht, hi, hs, LoadExclusive, sidetable_lock,
        sidetable_getExtraRC_nolock]
  refine ⟨hval, ?_, ?_, ?_, ?_, ?_⟩
  · intro hlt
    rw [hval, Nat.mod_eq_of_lt hlt]
  all_goals simp [rootRetainCount, ht, hi, LoadExclusive, sidetable_lock, sidetable_unlock]

/-- C10 applied to an x86_64 object whose inline count is 255 and whose side
table holds 128 more. -/
theorem C10_rootRetainCount_reads_witness :
    (rootRetainCount x86 inertOps (sample x86 255 1 0 (some 128))).1 = (1 + 255 + 128) % WORD :=
  (C10_rootRetainCount_reads x86 inertOps (sample x86 255 1 0 (some 128))
    (by decide) (by decide)).1

/-! ## Initialisation and the frame of retain and release -/

theorem isa_shiftcls_eq (a : Arch) (b : Nat) : isa_shiftcls a b = (decode a b).shiftcls := rfl
theorem isa_magic_eq (a : Arch) (b : Nat) : isa_magic a b = (decode a b).magic := rfl
theorem isa_has_assoc_eq (a : Arch) (b : Nat) : isa_has_assoc b = (decode a b).has_assoc := rfl
theorem isa_has_cxx_dtor_eq (a : Arch) (b : Nat) :
    isa_has_cxx_dtor b = (decode a b).has_cxx_dtor := rfl
theorem isa_weakly_referenced_eq (a : Arch) (b : Nat) :
    isa_weakly_referenced a b = (decode a b).weakly_referenced := rfl

/-- C11: after `initInstanceIsa(cls, hasCxxDtor)` the isa is indexed with
`extra_rc = 0`, so that `rootRetainCount` of the (non-tagged) object is 1; the
flags deallocating, weakly_referenced, has_sidetable_rc and has_assoc are all
clear, and has_cxx_dtor equals the argument. -/
theorem C11_initInstanceIsa_fresh (cfg : Config) (ops : RawIsaOps) (cls : Class)
    (hasCxxDtor : Bool) (o : objc_object) (ht : isTaggedPointer cfg o = false) :
    isa_indexed (initInstanceIsa cfg cls hasCxxDtor o).isa = 1
      ∧ isa_extra_rc cfg.arch (initInstanceIsa cfg cls hasCxxDtor o).isa = 0
      ∧ (rootRetainCount cfg ops (initInstanceIsa cfg cls hasCxxDtor o)).1 = 1
      ∧ isa_deallocating cfg.arch (initInstanceIsa cfg cls hasCxxDtor o).isa = 0
      ∧ isa_weakly_referenced cfg.arch (initInstanceIsa cfg cls hasCxxDtor o).isa = 0
      ∧ isa_has_sidetable_rc cfg.arch (initInstanceIsa cfg cls hasCxxDtor o).isa = 0
      ∧ isa_has_assoc (initInstanceIsa cfg cls hasCxxDtor o).isa = 0
      ∧ isa_has_cxx_dtor (initInstanceIsa cfg cls hasCxxDtor o).isa = hasCxxDtor.toNat := by
  have hdec : decode cfg.arch (initInstanceIsa cfg cls hasCxxDtor o).isa = _ :=
    decode_initIsa cfg cls hasCxxDtor o
  have hmag := decode_magic_value cfg.arch
  have hi0 : isa_indexed (initInstanceIsa cfg cls hasCxxDtor o).isa = 1 := by
    rw [isa_indexed_eq cfg.arch, hdec, hmag]
  have he0 : isa_extra_rc cfg.arch (initInstanceIsa cfg cls hasCxxDtor o).isa = 0 := by
    rw [isa_extra_rc_eq, hdec, hmag]
  have hs0 : isa_has_sidetable_rc cfg.arch (initInstanceIsa cfg cls hasCxxDtor o).isa = 0 := by
    rw [isa_has_sidetable_rc_eq, hdec, hmag]
  have hself : (initInstanceIsa cfg cls hasCxxDtor o).self = o.self := by
    simp [initInstanceIsa, initIsa]
  refine ⟨hi0, he0, ?_, ?_, ?_, hs0, ?_, ?_⟩
  · rw [rootRetainCount_indexed cfg ops _
      (by rw [isTaggedPointer_congr cfg o _ hself]; exact ht) (by rw [hi0]; decide)]
    simp [he0, hs0, WORD]
  · rw [isa_deallocating_eq, hdec, hmag]
  · rw [isa_weakly_referenced_eq, hdec, hmag]
  · rw [isa_has_assoc_eq cfg.arch, hdec, hmag]
  · rw [isa_has_cxx_dtor_eq cfg.arch, hdec]
    cases hasCxxDtor <;> rfl

/-- C11 for a class with a C++ destructor on arm64. -/
theorem C11_initInstanceIsa_fresh_witness :
    (rootRetainCount arm inertOps (initInstanceIsa arm plainClass true blank)).1 = 1
      ∧ isa_has_cxx_dtor (initInstanceIsa arm plainClass true blank).isa = 1 :=
  ⟨(C11_initInstanceIsa_fresh arm inertOps plainClass true blank (by decide)).2.2.1,
   (C11_initInstanceIsa_fresh arm inertOps plainClass true blank (by decide)).2.2.2.2.2.2.2⟩

/-- A retain changes at most `extra_rc` and `has_sidetable_rc` of the isa
word. -/
theorem retain_frame (cfg : Config) (ops : RawIsaOps) (n : Nat) (t h : Bool)
    (o : objc_object) (hw : o.isa < WORD) (hi : isa_indexed o.isa ≠ 0)
    (ht : isTaggedPointer cfg o = false) :
    ∃ r o', rootRetain cfg ops (n + 2) t h o = some (r, o')
      ∧ ∃ e s, decode cfg.arch o'.isa
          = { decode cfg.arch o.isa with extra_rc := e, has_sidetable_rc := s } := by
  by_cases hd : t = true ∧ isa_deallocating cfg.arch o.isa ≠ 0
  · obtain ⟨ht1, hd1⟩ := hd
    subst ht1
    exact ⟨none, o, rootRetain_tryfail cfg ops (n + 1) h o hi ht hd1,
      (decode cfg.arch o.isa).extra_rc, (decode cfg.arch o.isa).has_sidetable_rc, rfl⟩
  · obtain ⟨o', hr, _, _, hfast, hover⟩ := rootRetain_spec cfg ops n t h o hw hi ht hd
    refine ⟨_, o', hr, ?_⟩
    by_cases he : isa_extra_rc cfg.arch o.isa + 1 = 2 ^ extra_rc_width cfg.arch
    · exact ⟨RC_HALF cfg.arch, 1, (hover he).1⟩
    · exact ⟨isa_extra_rc cfg.arch o.isa + 1, (decode cfg.arch o.isa).has_sidetable_rc,
        by rw [(hfast he).1]⟩

/-- A release changes at most `extra_rc` and `deallocating` of the isa word. -/
theorem release_frame (cfg : Config) (ops : RawIsaOps) (n : Nat) (pd h : Bool)
    (o : objc_object) (hw : o.isa < WORD) (hi : isa_indexed o.isa ≠ 0)
    (ht : isTaggedPointer cfg o = false) :
    ∃ r o', rootRelease cfg ops (n + 2) pd h o = some (r, o')
      ∧ ∃ e d, decode cfg.arch o'.isa
          = { decode cfg.arch o.isa with extra_rc := e, deallocating := d } := by
  by_cases he : isa_extra_rc cfg.arch o.isa = 0
  · by_cases hz : isa_has_sidetable_rc cfg.arch o.isa = 0 ∨ sidetable_getExtraRC_nolock o = 0
    · by_cases hd : isa_deallocating cfg.arch o.isa = 0
      · refine ⟨_, _, rootRelease_last cfg ops n pd h o hw hi ht he hz hd,
          (decode cfg.arch o.isa).extra_rc, 1 % 2, ?_⟩
        simp only [decode_set_deallocating]
      · exact ⟨_, _, rootRelease_over cfg ops n pd h o hw hi ht he hz hd,
          (decode cfg.arch o.isa).extra_rc, (decode cfg.arch o.isa).deallocating, rfl⟩
    · have hs : isa_has_sidetable_rc cfg.arch o.isa ≠ 0 := fun h0 => hz (Or.inl h0)
      have hb : sidetable_getExtraRC_nolock o ≠ 0 := fun h0 => hz (Or.inr h0)
      refine ⟨_, _, rootRelease_borrow cfg ops n pd h o hw hi ht he hs hb,
        (min (RC_HALF cfg.arch) (sidetable_getExtraRC_nolock o) - 1) % 2 ^ extra_rc_width cfg.arch,
        (decode cfg.arch o.isa).deallocating, ?_⟩
      simp only [decode_set_extra_rc]
  · refine ⟨_, _, rootRelease_fast cfg ops (n + 1) pd h o hw hi ht he,
      (isa_extra_rc cfg.arch o.isa + 2 ^ extra_rc_width cfg.arch - 1)
        % 2 ^ extra_rc_width cfg.arch,
      (decode cfg.arch o.isa).deallocating, ?_⟩
    simp only [decode_subc cfg.arch o.isa hw]

/-- C12: for an indexed isa, every call of `rootRetain`, `rootTryRetain` or
`rootRelease` (any arguments, hence any path) returns and leaves the class
field `shiftcls`, the `magic` field and the bits `has_assoc`, `has_cxx_dtor`
and `weakly_referenced` exactly as they were. -/
theorem C12_retain_release_frame (cfg : Config) (ops : RawIsaOps) (n : Nat) (o : objc_object)
    (hw : o.isa < WORD) (hi : isa_indexed o.isa ≠ 0) (ht : isTaggedPointer cfg o = false) :
    (∀ t h, ∃ r o', rootRetain cfg ops (n + 2) t h o = some (r, o')
        ∧ isa_shiftcls cfg.arch o'.isa = isa_shiftcls cfg.arch o.isa
        ∧ isa_magic cfg.arch o'.isa = isa_magic cfg.arch o.isa
        ∧ isa_has_assoc o'.isa = isa_has_assoc o.isa
        ∧ isa_has_cxx_dtor o'.isa = isa_has_cxx_dtor o.isa
        ∧ isa_weakly_referenced cfg.arch o'.isa = isa_weakly_referenced cfg.arch o.isa)
    ∧ (∃ r o', rootTryRetain cfg ops (n + 2) o = some (r, o')
        ∧ isa_shiftcls cfg.arch o'.isa = isa_shiftcls cfg.arch o.isa
        ∧ isa_magic cfg.arch o'.isa = isa_magic cfg.arch o.isa
        ∧ isa_has_assoc o'.isa = isa_has_assoc o.isa
        ∧ isa_has_cxx_dtor o'.isa = isa_has_cxx_dtor o.isa
        ∧ isa_weakly_referenced cfg.arch o'.isa = isa_weakly_referenced cfg.arch o.isa)
    ∧ (∀ pd h, ∃ r o', rootRelease cfg ops (n + 2) pd h o = some (r, o')
        ∧ isa_shiftcls cfg.arch o'.isa = isa_shiftcls cfg.arch o.isa
        ∧ isa_magic cfg.arch o'.isa = isa_magic cfg.arch o.isa
        ∧ isa_has_assoc o'.isa = isa_has_assoc o.isa
        ∧ isa_has_cxx_dtor o'.isa = isa_has_cxx_dtor o.isa
        ∧ isa_weakly_referenced cfg.arch o'.isa = isa_weakly_referenced cfg.arch o.isa) := by
  have hretain : ∀ t h, ∃ r o', rootRetain cfg ops (n + 2) t h o = some (r, o')
        ∧ isa_shiftcls cfg.arch o'.isa = isa_shiftcls cfg.arch o.isa
        ∧ isa_magic cfg.arch o'.isa = isa_magic cfg.arch o.isa
        ∧ isa_has_assoc o'.isa = isa_has_assoc o.isa
        ∧ isa_has_cxx_dtor o'.isa = isa_has_cxx_dtor o.isa
        ∧ isa_weakly_referenced cfg.arch o'.isa = isa_weakly_referenced cfg.arch o.isa := by
    intro t h
    obtain ⟨r, o', hr, e, s, hdec⟩ := retain_frame cfg ops n t h o hw hi ht
    refine ⟨r, o', hr, ?_⟩
    simp only [isa_shiftcls_eq, isa_magic_eq, isa_has_assoc_eq cfg.arch,
      isa_has_cxx_dtor_eq cfg.arch, isa_weakly_referenced_eq, hdec, and_self]
  refine ⟨hretain, ?_, ?_⟩
  · obtain ⟨r, o', hr, hrest⟩ := hretain true false
    exact ⟨r.isSome, o', by simp [rootTryRetain, hr], hrest⟩
  · intro pd h
    obtain ⟨r, o', hr, e, d, hdec⟩ := release_frame cfg ops n pd h o hw hi ht
    refine ⟨r, o', hr, ?_⟩
    simp only [isa_shiftcls_eq, isa_magic_eq, isa_has_assoc_eq cfg.arch,
      isa_has_cxx_dtor_eq cfg.arch, isa_weakly_referenced_eq, hdec, and_self]

/-- C12 on the overflow path of a sample x86_64 object. -/
theorem C12_retain_release_frame_witness :
    ∃ r o', rootRetain x86 inertOps 2 false false (sample x86 255 0 0 none) = some (r, o')
      ∧ isa_shiftcls x86.arch o'.isa = isa_shiftcls x86.arch (sample x86 255 0 0 none).isa
      ∧ isa_magic x86.arch o'.isa = isa_magic x86.arch (sample x86 255 0 0 none).isa
      ∧ isa_has_assoc o'.isa = isa_has_assoc (sample x86 255 0 0 none).isa
      ∧ isa_has_cxx_dtor o'.isa = isa_has_cxx_dtor (sample x86 255 0 0 none).isa
      ∧ isa_weakly_referenced x86.arch o'.isa
          = isa_weakly_referenced x86.arch (sample x86 255 0 0 none).isa :=
  (C12_retain_release_frame x86 inertOps 0 (sample x86 255 0 0 none)
    (by decide) (by decide) (by decide)).1 false false

/-! ## The weakly-referenced bit -/

theorem isa_weakly_referenced_le (a : Arch) (b : Nat) : isa_weakly_referenced a b ≤ 1 := by
  have : isa_weakly_referenced a b < 2 ^ 1 := by
    simp only [isa_weakly_referenced, getField]; exact Nat.mod_lt _ (Nat.two_pow_pos _)
  omega

/-- C13: for an object with an indexed isa, `setWeaklyReferenced_nolock`
returns with the weakly_referenced bit set, so that `isWeaklyReferenced`
answers true; every other field of the isa word (indexed, class, magic,
extra_rc, deallocating, has_sidetable_rc, has_assoc, has_cxx_dtor) and the rest
of the object are unchanged; and a second call changes nothing. -/
theorem C13_setWeaklyReferenced (cfg : Config) (ops : RawIsaOps) (n : Nat) (o : objc_object)
    (hi : isa_indexed o.isa ≠ 0) :
    ∃ o', setWeaklyReferenced_nolock cfg ops (n + 1) o = some o'
      ∧ isa_weakly_referenced cfg.arch o'.isa = 1
      ∧ isWeaklyReferenced cfg ops o' = true
      ∧ decode cfg.arch o'.isa = { decode cfg.arch o.isa with weakly_referenced := 1 }
      ∧ isa_indexed o'.isa = isa_indexed o.isa
      ∧ isa_shiftcls cfg.arch o'.isa = isa_shiftcls cfg.arch o.isa
      ∧ isa_extra_rc cfg.arch o'.isa = isa_extra_rc cfg.arch o.isa
      ∧ isa_deallocating cfg.arch o'.isa = isa_deallocating cfg.arch o.isa
      ∧ isa_has_sidetable_rc cfg.arch o'.isa = isa_has_sidetable_rc cfg.arch o.isa
      ∧ isa_has_assoc o'.isa = isa_has_assoc o.isa
      ∧ isa_has_cxx_dtor o'.isa = isa_has_cxx_dtor o.isa
      ∧ o'.self = o.self ∧ o'.sidetable = o.sidetable ∧ o'.trace = o.trace
      ∧ setWeaklyReferenced_nolock cfg ops (n + 1) o' = some o' := by
  have hdec : ∀ o' : objc_object,
      decode cfg.arch o'.isa = { decode cfg.arch o.isa with weakly_referenced := 1 } →
      isa_weakly_referenced cfg.arch o'.isa = 1
      ∧ isWeaklyReferenced cfg ops o' = true
      ∧ decode cfg.arch o'.isa = { decode cfg.arch o.isa with weakly_referenced := 1 }
      ∧ isa_indexed o'.isa = isa_indexed o.isa
      ∧ isa_shiftcls cfg.arch o'.isa = isa_shiftcls cfg.arch o.isa
      ∧ isa_extra_rc cfg.arch o'.isa = isa_extra_rc cfg.arch o.isa
      ∧ isa_deallocating cfg.arch o'.isa = isa_deallocating cfg.arch o.isa
      ∧ isa_has_sidetable_rc cfg.arch o'.isa = isa_has_sidetable_rc cfg.arch o.isa
      ∧ isa_has_assoc o'.isa = isa_has_assoc o.isa
      ∧ isa_has_cxx_dtor o'.isa = isa_has_cxx_dtor o.isa := by
    intro o' hd
    have hw1 : isa_weakly_referenced cfg.arch o'.isa = 1 := by
      rw [isa_weakly_referenced_eq, hd]
    have hi1 : isa_indexed o'.isa = isa_indexed o.isa := by
      rw [isa_indexed_eq cfg.arch, hd]; rfl
    refine ⟨hw1, ?_, hd, hi1, ?_, ?_, ?_, ?_, ?_, ?_⟩
    · simp [isWeaklyReferenced, hi1, hi, hw1]
    · rw [isa_shiftcls_eq, hd]; rfl
    · rw [isa_extra_rc_eq, hd]; rfl
    · rw [isa_deallocating_eq, hd]; rfl
    · rw [isa_has_sidetable_rc_eq, hd]; rfl
    · rw [isa_has_assoc_eq cfg.arch, hd]; rfl
    · rw [isa_has_cxx_dtor_eq cfg.arch, hd]; rfl
  have hcall := setWeaklyReferenced_indexed cfg ops n o hi
  by_cases hwk : isa_weakly_referenced cfg.arch o.isa = 0
  · simp only [hwk, ne_eq, not_true_eq_false, if_false] at hcall
    have hd : decode cfg.arch
        ({ o with isa := set_weakly_referenced cfg.arch o.isa 1 } : objc_object).isa
        = { decode cfg.arch o.isa with weakly_referenced := 1 } := by
      simp only [decode_set_weakly_referenced]
    obtain ⟨h1, h2, h3, h4, h5, h6, h7, h8, h9, h10⟩ := hdec _ hd
    refine ⟨_, hcall, h1, h2, h3, h4, h5, h6, h7, h8, h9, h10, rfl, rfl, rfl, ?_⟩
    have hi' : isa_indexed
        ({ o with isa := set_weakly_referenced cfg.arch o.isa 1 } : objc_object).isa ≠ 0 := by
      rw [h4]; exact hi
    rw [setWeaklyReferenced_indexed cfg ops n _ hi']
    simp [h1]
  · simp only [hwk, ne_eq, not_false_eq_true, if_true] at hcall
    have h1 : isa_weakly_referenced cfg.arch o.isa = 1 := by
      have := isa_weakly_referenced_le cfg.arch o.isa
      omega
    have hd : decode cfg.arch o.isa = { decode cfg.arch o.isa with weakly_referenced := 1 } := by
      rw [isa_weakly_referenced_eq] at h1
      cases hx : decode cfg.arch o.isa
      rw [hx] at h1
      simp only at h1
      simp [h1]
    obtain ⟨h1, h2, h3, h4, h5, h6, h7, h8, h9, h10⟩ := hdec o hd
    exact ⟨o, hcall, h1, h2, h3, h4, h5, h6, h7, h8, h9, h10, rfl, rfl, rfl, hcall⟩

/-- C13 at a sample arm64 object with two inline counts. -/
theorem C13_setWeaklyReferenced_witness :
    ∃ o', setWeaklyReferenced_nolock arm inertOps 1 (sample arm 2 0 0 none) = some o'
      ∧ isa_weakly_referenced arm.arch o'.isa = 1
      ∧ isWeaklyReferenced arm inertOps o' = true
      ∧ isa_extra_rc arm.arch o'.isa = isa_extra_rc arm.arch (sample arm 2 0 0 none).isa
      ∧ setWeaklyReferenced_nolock arm inertOps 1 o' = some o' := by
  obtain ⟨o', h1, h2, h3, _, _, _, h7, _, _, _, _, _, _, _, h15⟩ :=
    C13_setWeaklyReferenced arm inertOps 0 (sample arm 2 0 0 none) (by decide)
  exact ⟨o', h1, h2, h3, h7, h15⟩

/-! ## `ISA()` and `changeIsa` -/

theorem and_shifted_mask (b n : Nat) :
    b &&& ((2 ^ n - 1) <<< 3) = ((b >>> 3) % 2 ^ n) <<< 3 := by
  apply Nat.eq_of_testBit_eq
  intro j
  simp only [Nat.testBit_and, Nat.testBit_shiftLeft, Nat.testBit_shiftRight,
    Nat.testBit_mod_two_pow, Nat.testBit_two_pow_sub_one]
  by_cases hj : 3 ≤ j
  · have h3 : 3 + (j - 3) = j := by omega
    simp [hj, h3, Bool.and_comm]
  · simp [hj]

/-- The class pointer read by `ISA()` is the class field shifted back into
place. -/
theorem and_ISA_MASK (a : Arch) (b : Nat) : b &&& ISA_MASK a = isa_shiftcls a b * 2 ^ 3 := by
  cases a
  · have h := and_shifted_mask b 33
    have hm : (2 ^ 33 - 1) <<< 3 = ISA_MASK Arch.arm64 := by decide
    rw [hm] at h
    rw [h]
    simp only [isa_shiftcls, getField, off_shiftcls, shiftcls_width, Nat.shiftLeft_eq,
      Nat.shiftRight_eq_div_pow]
  · have h := and_shifted_mask b 44
    have hm : (2 ^ 44 - 1) <<< 3 = ISA_MASK Arch.x86_64 := by decide
    rw [hm] at h
    rw [h]
    simp only [isa_shiftcls, getField, off_shiftcls, shiftcls_width, Nat.shiftLeft_eq,
      Nat.shiftRight_eq_div_pow]

theorem isa_shiftcls_shifted_lt (a : Arch) (b : Nat) : isa_shiftcls a b * 2 ^ 3 < WORD := by
  cases a <;>
    simp only [isa_shiftcls, getField, off_shiftcls, shiftcls_width, WORD] <;> omega

theorem changeIsa_zero_to_indexed (cfg : Config) (newCls : Class) (n : Nat)
    (o : objc_object) (h0 : o.isa = 0) (hf : newCls.isFuture = false)
    (hc : newCls.canAllocIndexed = true) :
    changeIsa cfg newCls (n + 1) o
      = some (0,
          { self := o.self
            isa := set_shiftcls cfg.arch
              (set_has_cxx_dtor (ISA_MAGIC_VALUE cfg.arch) newCls.hasCxxDtor.toNat)
              (newCls.addr / 2 ^ 3)
            sidetable := o.sidetable
            trace := o.trace }) := by
  have hi : isa_indexed 0 = 0 := by decide
  simp [changeIsa, changeIsa_loop, changeIsa_pass, changeIsa_store, LoadExclusive, hf, hc,
    h0, hi, StoreExclusive]

theorem changeIsa_indexed_to_raw (cfg : Config) (newCls : Class) (n : Nat)
    (o : objc_object) (hi : isa_indexed o.isa ≠ 0)
    (hraw : ¬ (newCls.isFuture = false ∧ newCls.canAllocIndexed = true)) :
    changeIsa cfg newCls (n + 1) o
      = some (isa_shiftcls cfg.arch o.isa * 2 ^ 3 % WORD,
          sidetable_unlock
            (sidetable_moveExtraRC_nolock (isa_extra_rc cfg.arch o.isa)
              (isa_deallocating cfg.arch o.isa != 0) (isa_weakly_referenced cfg.arch o.isa != 0)
              { self := o.self
                isa := newCls.addr
                sidetable := o.sidetable
                trace := (sidetable_lock o).trace })) := by
  have hcond : ¬ ((o.isa = 0 ∨ isa_indexed o.isa ≠ 0) ∧ newCls.isFuture = false
      ∧ newCls.canAllocIndexed = true) := fun hx => hraw hx.2
  simp only [changeIsa, changeIsa_loop, changeIsa_pass, LoadExclusive, hcond, if_false]
  simp [hi, changeIsa_store, StoreExclusive, sidetable_lock]

theorem changeIsa_raw_to_raw (cfg : Config) (newCls : Class) (n : Nat)
    (o : objc_object) (hi : isa_indexed o.isa = 0)
    (hraw : ¬ (o.isa = 0 ∧ newCls.isFuture = false ∧ newCls.canAllocIndexed = true)) :
    changeIsa cfg newCls (n + 1) o
      = some (o.isa,
          { self := o.self, isa := newCls.addr, sidetable := o.sidetable, trace := o.trace }) := by
  have hcond : ¬ ((o.isa = 0 ∨ isa_indexed o.isa ≠ 0) ∧ newCls.isFuture = false
      ∧ newCls.canAllocIndexed = true) := by
    intro hx
    rcases hx.1 with h0 | h1
    · exact hraw ⟨h0, hx.2⟩
    · exact h1 hi
  simp only [changeIsa, changeIsa_loop, changeIsa_pass, LoadExclusive, hcond, if_false]
  simp [hi, changeIsa_store, StoreExclusive]

theorem ISA_of_shiftcls (cfg : Config) (o : objc_object) (p : Nat)
    (hs : isa_shiftcls cfg.arch o.isa = p / 2 ^ 3 % 2 ^ shiftcls_width cfg.arch)
    (hp : p &&& ISA_MASK cfg.arch = p) : ISA cfg o = p := by
  have h1 : isa_shiftcls cfg.arch p = p / 2 ^ 3 % 2 ^ shiftcls_width cfg.arch := by
    simp only [isa_shiftcls, getField, off_shiftcls]
  rw [ISA, and_ISA_MASK, hs, ← h1, ← and_ISA_MASK, hp]

/-- C14: `changeIsa(newCls)` returns the class that `ISA()` reported
immediately before the call, and immediately afterwards `ISA()` reports
`newCls`, on each of the four transitions (zero to indexed, indexed to
indexed, indexed to raw, raw to raw). Class pointers are pointers: `newCls`
and the pointer held by a raw isa have no bits outside `ISA_MASK`. -/
theorem C14_changeIsa_classes (cfg : Config) (newCls : Class) (n : Nat) (o : objc_object)
    (hnew : newCls.addr &&& ISA_MASK cfg.arch = newCls.addr)
    (hold : isa_indexed o.isa = 0 → o.isa &&& ISA_MASK cfg.arch = o.isa) :
    ∃ r o', changeIsa cfg newCls (n + 1) o = some (r, o')
      ∧ r = ISA cfg o
      ∧ ISA cfg o' = newCls.addr := by
  by_cases hok : newCls.isFuture = false ∧ newCls.canAllocIndexed = true
  · obtain ⟨hf, hc⟩ := hok
    by_cases hi : isa_indexed o.isa = 0
    · by_cases h0 : o.isa = 0
      · refine ⟨_, _, changeIsa_zero_to_indexed cfg newCls n o h0 hf hc, ?_, ?_⟩
        · simp [ISA, h0]
        · apply ISA_of_shiftcls cfg _ _ _ hnew
          simp only [isa_shiftcls_eq, decode_set_shiftcls]
      · refine ⟨_, _, changeIsa_raw_to_raw cfg newCls n o hi (fun hx => h0 hx.1), ?_, ?_⟩
        · rw [ISA, hold hi]
        · exact hnew
    · refine ⟨_, _, changeIsa_indexed_to_indexed cfg newCls n o hi hf hc, ?_, ?_⟩
      · rw [ISA, and_ISA_MASK, Nat.mod_eq_of_lt (isa_shiftcls_shifted_lt _ _)]
      · apply ISA_of_shiftcls cfg _ _ _ hnew
        simp only [isa_shiftcls_eq, decode_set_shiftcls]
  · by_cases hi : isa_indexed o.isa = 0
    · refine ⟨_, _, changeIsa_raw_to_raw cfg newCls n o hi (fun hx => hok hx.2), ?_, ?_⟩
      · rw [ISA, hold hi]
      · exact hnew
    · refine ⟨_, _, changeIsa_indexed_to_raw cfg newCls n o hi hok, ?_, ?_⟩
      · rw [ISA, and_ISA_MASK, Nat.mod_eq_of_lt (isa_shiftcls_shifted_lt _ _)]
      · simpa [ISA, sidetable_unlock, sidetable_moveExtraRC_nolock] using hnew

/-- C14 on x86_64: a fresh object of `plainClass` is changed to a class at
`0x3000` that requires a raw isa. -/
theorem C14_changeIsa_classes_witness :
    ∃ r o', changeIsa x86
        { addr := 0x3000, isFuture := false, canAllocIndexed := false, hasCxxDtor := false } 1
        (sample x86 5 0 0 none) = some (r, o')
      ∧ r = ISA x86 (sample x86 5 0 0 none)
      ∧ ISA x86 o' = 0x3000 :=
  C14_changeIsa_classes x86
    { addr := 0x3000, isFuture := false, canAllocIndexed := false, hasCxxDtor := false } 0
    (sample x86 5 0 0 none) (by decide) (by decide)

/-- C15: `changeIsa` does not lose reference-count state. When the isa stays
indexed, `extra_rc`, `has_sidetable_rc`, `deallocating`, `weakly_referenced`
and `has_assoc` and the side-table entry are unchanged, so `rootRetainCount`
reads the same before and after. When the isa goes from indexed to raw, the
object left behind is the one obtained by taking the side-table lock, storing
the raw class pointer, calling `sidetable_moveExtraRC_nolock` with exactly the
old `extra_rc`, `deallocating` and `weakly_referenced`, and dropping the lock;
the events that the call adds to the trace are, in this order, the lock, the
move with these three arguments, and the unlock, so the move happens while the
lock is held. -/
theorem C15_changeIsa_keeps_counts (cfg : Config) (ops : RawIsaOps) (newCls : Class) (n : Nat)
    (o : objc_object) (hi : isa_indexed o.isa ≠ 0) :
    (newCls.isFuture = false ∧ newCls.canAllocIndexed = true →
      ∃ r o', changeIsa cfg newCls (n + 1) o = some (r, o')
        ∧ isa_indexed o'.isa ≠ 0
        ∧ isa_extra_rc cfg.arch o'.isa = isa_extra_rc cfg.arch o.isa
        ∧ isa_has_sidetable_rc cfg.arch o'.isa = isa_has_sidetable_rc cfg.arch o.isa
        ∧ isa_deallocating cfg.arch o'.isa = isa_deallocating cfg.arch o.isa
        ∧ isa_weakly_referenced cfg.arch o'.isa = isa_weakly_referenced cfg.arch o.isa
        ∧ isa_has_assoc o'.isa = isa_has_assoc o.isa
        ∧ o'.sidetable = o.sidetable
        ∧ (isTaggedPointer cfg o = false →
            (rootRetainCount cfg ops o').1 = (rootRetainCount cfg ops o).1))
    ∧ (¬ (newCls.isFuture = false ∧ newCls.canAllocIndexed = true) →
      ∃ r o', changeIsa cfg newCls (n + 1) o = some (r, o')
        ∧ o' = sidetable_unlock
            (sidetable_moveExtraRC_nolock (isa_extra_rc cfg.arch o.isa)
              (isa_deallocating cfg.arch o.isa != 0) (isa_weakly_referenced cfg.arch o.isa != 0)
              { self := o.self
                isa := newCls.addr
                sidetable := o.sidetable
                trace := (sidetable_lock o).trace })
        ∧ o'.isa = newCls.addr
        ∧ o'.trace = o.trace
            ++ [Event.lock,
                Event.moveExtraRC (isa_extra_rc cfg.arch o.isa)
                  (isa_deallocating cfg.arch o.isa != 0)
                  (isa_weakly_referenced cfg.arch o.isa != 0),
                Event.unlock]
        ∧ o'.sidetable
            = some { retain_count := sidetable_getExtraRC_nolock o + isa_extra_rc cfg.arch o.isa
                     weakly_referenced := isa_weakly_referenced cfg.arch o.isa != 0
                     deallocating := isa_deallocating cfg.arch o.isa != 0 }) := by
  constructor
  · intro hok
    obtain ⟨hf, hc⟩ := hok
    have hdec : decode cfg.arch
        (set_shiftcls cfg.arch (set_has_cxx_dtor o.isa newCls.hasCxxDtor.toNat)
          (newCls.addr / 2 ^ 3))
        = { decode cfg.arch o.isa with
            has_cxx_dtor := newCls.hasCxxDtor.toNat % 2
            shiftcls := newCls.addr / 2 ^ 3 % 2 ^ shiftcls_width cfg.arch } := by
      simp only [decode_set_shiftcls, decode_set_has_cxx_dtor]
    have hi' : isa_indexed (set_shiftcls cfg.arch
        (set_has_cxx_dtor o.isa newCls.hasCxxDtor.toNat) (newCls.addr / 2 ^ 3))
        = isa_indexed o.isa := by
      rw [isa_indexed_eq cfg.arch, hdec]; rfl
    have he' : isa_extra_rc cfg.arch (set_shiftcls cfg.arch
        (set_has_cxx_dtor o.isa newCls.hasCxxDtor.toNat) (newCls.addr / 2 ^ 3))
        = isa_extra_rc cfg.arch o.isa := by
      rw [isa_extra_rc_eq, hdec]; rfl
    have hs' : isa_has_sidetable_rc cfg.arch (set_shiftcls cfg.arch
        (set_has_cxx_dtor o.isa newCls.hasCxxDtor.toNat) (newCls.addr / 2 ^ 3))
        = isa_has_sidetable_rc cfg.arch o.isa := by
      rw [isa_has_sidetable_rc_eq, hdec]; rfl
    refine ⟨_, _, changeIsa_indexed_to_indexed cfg newCls n o hi hf hc, ?_, he', hs', ?_, ?_,
      ?_, rfl, ?_⟩
    · show isa_indexed (set_shiftcls cfg.arch
        (set_has_cxx_dtor o.isa newCls.hasCxxDtor.toNat) (newCls.addr / 2 ^ 3)) ≠ 0
      rw [hi']; exact hi
    · show isa_deallocating cfg.arch (set_shiftcls cfg.arch
        (set_has_cxx_dtor o.isa newCls.hasCxxDtor.toNat) (newCls.addr / 2 ^ 3)) = _
      rw [isa_deallocating_eq, hdec]; rfl
    · show isa_weakly_referenced cfg.arch (set_shiftcls cfg.arch
        (set_has_cxx_dtor o.isa newCls.hasCxxDtor.toNat) (newCls.addr / 2 ^ 3)) = _
      rw [isa_weakly_referenced_eq, hdec]; rfl
    · show isa_has_assoc (set_shiftcls cfg.arch
        (set_has_cxx_dtor o.isa newCls.hasCxxDtor.toNat) (newCls.addr / 2 ^ 3)) = _
      rw [isa_has_assoc_eq cfg.arch, hdec]; rfl
    · intro ht
      rw [rootRetainCount_indexed cfg ops o ht hi,
        rootRetainCount_indexed cfg ops _ (by exact ht) (by
          show isa_indexed (set_shiftcls cfg.arch
            (set_has_cxx_dtor o.isa newCls.hasCxxDtor.toNat) (newCls.addr / 2 ^ 3)) ≠ 0
          rw [hi']; exact hi)]
      simp only [he', hs']
      rfl
  · intro hraw
    refine ⟨_, _, changeIsa_indexed_to_raw cfg newCls n o hi hraw, rfl, ?_, ?_, ?_⟩
    · simp [sidetable_unlock, sidetable_moveExtraRC_nolock]
    · simp [sidetable_unlock, sidetable_moveExtraRC_nolock, sidetable_lock]
    · simp [sidetable_unlock, sidetable_moveExtraRC_nolock, sidetable_getExtraRC_nolock]

/-- C15 on x86_64: a sample object with five inline counts and a weak
reference bit is changed to a class that requires a raw isa. -/
theorem C15_changeIsa_keeps_counts_witness :
    ∃ r o', changeIsa x86
        { addr := 0x3000, isFuture := false, canAllocIndexed := false, hasCxxDtor := false } 1
        (sample x86 5 0 0 none) = some (r, o')
      ∧ o'.isa = 0x3000
      ∧ o'.trace = [Event.lock, Event.moveExtraRC 5 false false, Event.unlock]
      ∧ o'.sidetable
          = some { retain_count := 5, weakly_referenced := false, deallocating := false } := by
  obtain ⟨r, o', h1, _, h3, h4, h5⟩ :=
    (C15_changeIsa_keeps_counts x86 inertOps
      { addr := 0x3000, isFuture := false, canAllocIndexed := false, hasCxxDtor := false } 0
      (sample x86 5 0 0 none) (by decide)).2 (by decide)
  exact ⟨r, o', h1, h3, h4, h5⟩

/-! ## Stripes and lock pairs -/

theorem stripeCount_pos (e : Bool) : 0 < StripeCount e := by
  cases e <;> decide

theorem stripeCount_lt (e : Bool) : StripeCount e < 2 ^ 32 := by
  cases e <;> decide

/-- C16: for every pointer value `p`, `StripedMap::indexForPointer(p)` equals
`((p >> 4) XOR (p >> 9)) mod StripeCount` and is strictly below `StripeCount`,
which is 64, or 8 on embedded targets; so `operator[]` on an array of
`StripeCount` stripes always selects one of them, and equal pointers select the
same stripe. -/
theorem C16_indexForPointer_in_range (e : Bool) (p : Nat) :
    indexForPointer e p = ((p >>> 4) ^^^ (p >>> 9)) % StripeCount e
      ∧ indexForPointer e p < StripeCount e
      ∧ (StripeCount e = 64 ∨ StripeCount e = 8)
      ∧ (StripeCount e = 8 ↔ e = true)
      ∧ (∀ (T : Type) (m : StripedMap T), m.array.length = StripeCount e →
          ∃ v, StripedMap.subscript e m p = some v)
      ∧ (∀ q, q = p → indexForPointer e q = indexForPointer e p) := by
  have hlt : ((p >>> 4) ^^^ (p >>> 9)) % StripeCount e < StripeCount e :=
    Nat.mod_lt _ (stripeCount_pos e)
  have heq : indexForPointer e p = ((p >>> 4) ^^^ (p >>> 9)) % StripeCount e := by
    simp only [indexForPointer]
    exact Nat.mod_eq_of_lt (Nat.lt_trans hlt (stripeCount_lt e))
  refine ⟨heq, by rw [heq]; exact hlt, ?_, ?_, ?_, ?_⟩
  · cases e <;> simp [StripeCount]
  · cases e <;> simp [StripeCount]
  · intro T m hlen
    have hidx : indexForPointer e p < m.array.length := by
      rw [hlen, heq]; exact hlt
    exact ⟨m.array[indexForPointer e p], by
      simp [StripedMap.subscript, List.getElem?_eq_getElem hidx]⟩
  · intro q hq
    rw [hq]

/-- C17, as the code has it: for two distinct spinlocks `lockTwo` acquires the
lock at the higher address first and the lock at the lower address second,
whichever way round they are passed: the discipline is address ordered, in
decreasing order. -/
theorem C17_lockTwo_higher_first (lock1 lock2 : Nat) (hne : lock1 ≠ lock2) :
    lockTwo lock1 lock2
      = [LockOp.acquire (max lock1 lock2), LockOp.acquire (min lock1 lock2)] := by
  by_cases h : lock1 > lock2
  · have h1 : max lock1 lock2 = lock1 := Nat.max_eq_left (Nat.le_of_lt h)
    have h2 : min lock1 lock2 = lock2 := Nat.min_eq_right (Nat.le_of_lt h)
    simp [lockTwo, h, h1, h2]
  · have hle : lock1 ≤ lock2 := Nat.le_of_not_gt h
    have h1 : max lock1 lock2 = lock2 := Nat.max_eq_right hle
    have h2 : min lock1 lock2 = lock1 := Nat.min_eq_left hle
    have hne' : lock2 ≠ lock1 := fun hx => hne hx.symm
    simp [lockTwo, h, h1, h2, hne']

/-- C17 for the locks at `0x40` and `0x80`. -/
theorem C17_lockTwo_higher_first_witness :
    lockTwo 0x40 0x80 = [LockOp.acquire (max 0x40 0x80), LockOp.acquire (min 0x40 0x80)] :=
  C17_lockTwo_higher_first 0x40 0x80 (by decide)

/-- C17 fails as stated: for the locks at `0x40` and `0x80`, passed in either
order, `lockTwo` acquires `0x80` first and `0x40` second, so the lock at the
lower address is not acquired before the lock at the higher address. -/
theorem C17_counterexample :
    lockTwo 0x40 0x80 = [LockOp.acquire 0x80, LockOp.acquire 0x40]
      ∧ lockTwo 0x80 0x40 = [LockOp.acquire 0x80, LockOp.acquire 0x40] := by
  decide

/-- C18: the acquisitions of `lockTwo` depend only on the two addresses, not on
the order of the arguments: `lockTwo(a, b)` and `lockTwo(b, a)` perform the same
sequence. When both arguments are the same lock, `lockTwo` acquires it exactly
once and `unlockTwo` releases it exactly once. -/
theorem C18_lockTwo_symmetric (a b : Nat) :
    lockTwo a b = lockTwo b a
      ∧ lockTwo a a = [LockOp.acquire a]
      ∧ unlockTwo a a = [LockOp.release a] := by
  refine ⟨?_, by simp [lockTwo], by simp [unlockTwo]⟩
  rcases Nat.lt_trichotomy a b with h | h | h
  · have h1 : ¬ a > b := by omega
    have h2 : b > a := h
    have h3 : b ≠ a := by omega
    simp [lockTwo, h1, h2, h3]
  · subst h; rfl
  · have h1 : a > b := h
    have h2 : ¬ b > a := by omega
    have h3 : a ≠ b := by omega
    simp [lockTwo, h1, h2, h3]

/-! ## Side-table state after the count has come back down -/

theorem isa_has_sidetable_rc_le (a : Arch) (b : Nat) : isa_has_sidetable_rc a b ≤ 1 := by
  have : isa_has_sidetable_rc a b < 2 ^ 1 := by
    simp only [isa_has_sidetable_rc, getField]; exact Nat.mod_lt _ (Nat.two_pow_pos _)
  omega

theorem add_sidetable_present (d : Nat) (o : objc_object) :
    (sidetable_addExtraRC_nolock d o).sidetable ≠ none := by
  cases o with
  | mk self isa st tr => cases st <;> simp [sidetable_addExtraRC_nolock]

theorem sub_sidetable_present (d : Nat) (o : objc_object) (h : o.sidetable ≠ none) :
    (sidetable_subExtraRC_nolock d o).2.sidetable ≠ none := by
  cases o with
  | mk self isa st tr =>
    cases st with
    | none => exact absurd rfl h
    | some e => simp [sidetable_subExtraRC_nolock]

/-- A retain never clears `has_sidetable_rc`, and an object that has the bit
set after it has a side-table entry if that was so before. -/
theorem retain_sidetable (cfg : Config) (ops : RawIsaOps) (n : Nat) (t h : Bool)
    (o : objc_object) (hw : o.isa < WORD) (hi : isa_indexed o.isa ≠ 0)
    (ht : isTaggedPointer cfg o = false) :
    ∃ r o', rootRetain cfg ops (n + 2) t h o = some (r, o')
      ∧ (isa_has_sidetable_rc cfg.arch o.isa ≠ 0 → isa_has_sidetable_rc cfg.arch o'.isa ≠ 0)
      ∧ ((isa_has_sidetable_rc cfg.arch o.isa ≠ 0 → o.sidetable ≠ none) →
          isa_has_sidetable_rc cfg.arch o'.isa ≠ 0 → o'.sidetable ≠ none) := by
  by_cases hd : t = true ∧ isa_deallocating cfg.arch o.isa ≠ 0
  · obtain ⟨ht1, hd1⟩ := hd
    subst ht1
    exact ⟨none, o, rootRetain_tryfail cfg ops (n + 1) h o hi ht hd1, id, id⟩
  · obtain ⟨o', hr, _, _, hfast, hover⟩ := rootRetain_spec cfg ops n t h o hw hi ht hd
    refine ⟨_, o', hr, ?_⟩
    by_cases he : isa_extra_rc cfg.arch o.isa + 1 = 2 ^ extra_rc_width cfg.arch
    · obtain ⟨hdec, hst, _⟩ := hover he
      have hs1 : isa_has_sidetable_rc cfg.arch o'.isa = 1 := by
        rw [isa_has_sidetable_rc_eq, hdec]
      refine ⟨fun _ => by rw [hs1]; decide, fun _ _ => ?_⟩
      rw [hst]; exact add_sidetable_present _ _
    · obtain ⟨hdec, hst, _⟩ := hfast he
      have hs1 : isa_has_sidetable_rc cfg.arch o'.isa = isa_has_sidetable_rc cfg.arch o.isa := by
        rw [isa_has_sidetable_rc_eq, hdec]; rfl
      rw [hs1, hst]
      exact ⟨id, id⟩

/-- A release never removes the side-table entry. -/
theorem release_sidetable (cfg : Config) (ops : RawIsaOps) (n : Nat) (pd h : Bool)
    (o : objc_object) (hw : o.isa < WORD) (hi : isa_indexed o.isa ≠ 0)
    (ht : isTaggedPointer cfg o = false) :
    ∃ r o', rootRelease cfg ops (n + 2) pd h o = some (r, o')
      ∧ (o.sidetable ≠ none → o'.sidetable ≠ none) := by
  by_cases he : isa_extra_rc cfg.arch o.isa = 0
  · by_cases hz : isa_has_sidetable_rc cfg.arch o.isa = 0 ∨ sidetable_getExtraRC_nolock o = 0
    · by_cases hd : isa_deallocating cfg.arch o.isa = 0
      · exact ⟨_, _, rootRelease_last cfg ops n pd h o hw hi ht he hz hd, id⟩
      · exact ⟨_, _, rootRelease_over cfg ops n pd h o hw hi ht he hz hd, id⟩
    · have hs : isa_has_sidetable_rc cfg.arch o.isa ≠ 0 := fun h0 => hz (Or.inl h0)
      have hb : sidetable_getExtraRC_nolock o ≠ 0 := fun h0 => hz (Or.inr h0)
      exact ⟨_, _, rootRelease_borrow cfg ops n pd h o hw hi ht he hs hb,
        sub_sidetable_present _ o⟩
  · exact ⟨_, _, rootRelease_fast cfg ops (n + 1) pd h o hw hi ht he, id⟩

/-- Along any call sequence on a well-formed indexed object, `has_sidetable_rc`
is never cleared, and an object with the bit set keeps its side-table entry. -/
theorem calls_sidetable (cfg : Config) (ops : RawIsaOps) (n : Nat) (calls : List Call) :
    ∀ o : objc_object, o.isa < WORD → isa_indexed o.isa ≠ 0 → isTaggedPointer cfg o = false →
      ∃ o', runCalls cfg ops (n + 2) calls o = some o'
        ∧ o'.isa < WORD ∧ isa_indexed o'.isa ≠ 0 ∧ isTaggedPointer cfg o' = false
        ∧ (isa_has_sidetable_rc cfg.arch o.isa ≠ 0 → isa_has_sidetable_rc cfg.arch o'.isa ≠ 0)
        ∧ ((isa_has_sidetable_rc cfg.arch o.isa ≠ 0 → o.sidetable ≠ none) →
            isa_has_sidetable_rc cfg.arch o'.isa ≠ 0 → o'.sidetable ≠ none) := by
  induction calls with
  | nil =>
    intro o hw hi ht
    exact ⟨o, rfl, hw, hi, ht, id, id⟩
  | cons c cs ih =>
    intro o hw hi ht
    obtain ⟨o1, hr, hw1, hi1, ht1, _, _⟩ := call_step cfg ops n c o hw hi ht
    have hstep : (isa_has_sidetable_rc cfg.arch o.isa ≠ 0 →
          isa_has_sidetable_rc cfg.arch o1.isa ≠ 0)
        ∧ ((isa_has_sidetable_rc cfg.arch o.isa ≠ 0 → o.sidetable ≠ none) →
            isa_has_sidetable_rc cfg.arch o1.isa ≠ 0 → o1.sidetable ≠ none) := by
      cases c with
      | retain =>
        obtain ⟨r, o1', hr', h1, h2⟩ := retain_sidetable cfg ops n false false o hw hi ht
        simp only [runCall, rootRetain0, hr', Option.map_some', Option.some.injEq] at hr
        subst hr
        exact ⟨h1, h2⟩
      | tryRetain =>
        obtain ⟨r, o1', hr', h1, h2⟩ := retain_sidetable cfg ops n true false o hw hi ht
        simp only [runCall, rootTryRetain, hr', Option.map_some', Option.some.injEq] at hr
        subst hr
        exact ⟨h1, h2⟩
      | release =>
        obtain ⟨r, o1', hr', h2⟩ := release_sidetable cfg ops n true false o hw hi ht
        obtain ⟨r2, o2', hr2, _, _, _, hhs, _⟩ := release_step cfg ops n true false o hw hi ht
        rw [hr'] at hr2
        simp only [Option.some.injEq, Prod.mk.injEq] at hr2
        obtain ⟨_, ho⟩ := hr2
        subst ho
        simp only [runCall, rootRelease0, hr', Option.map_some', Option.some.injEq] at hr
        subst hr
        rw [hhs]
        exact ⟨id, fun hJ hs => h2 (hJ hs)⟩
    obtain ⟨o2, hr2, hw2, hi2, ht2, hs2, hJ2⟩ := ih o1 hw1 hi1 ht1
    exact ⟨o2, by simp [runCalls, hr, hr2], hw2, hi2, ht2, fun hs => hs2 (hstep.1 hs),
      fun hJ => hJ2 (hstep.2 hJ)⟩

theorem runCalls_append (cfg : Config) (ops : RawIsaOps) (fuel : Nat) (xs ys : List Call) :
    ∀ o o1 : objc_object, runCalls cfg ops fuel xs o = some o1 →
      runCalls cfg ops fuel (xs ++ ys) o = runCalls cfg ops fuel ys o1 := by
  induction xs with
  | nil =>
    intro o o1 h
    simp only [runCalls, Option.some.injEq] at h
    subst h
    rfl
  | cons c cs ih =>
    intro o o1 h
    simp only [List.cons_append, runCalls]
    cases hc : runCall cfg ops fuel c o with
    | none => simp [runCalls, hc] at h
    | some o2 =>
      simp only [runCalls, hc] at h
      exact ih o2 o1 h

theorem up_down_live (N : Nat) :
    ∀ k, ((List.replicate N Call.retain ++ List.replicate N Call.release).take k).count
          Call.release
        ≤ ((List.replicate N Call.retain ++ List.replicate N Call.release).take k).count
          Call.retain := by
  intro k
  rw [List.take_append_eq_append_take]
  simp only [List.take_replicate, List.length_replicate, List.count_append, List.count_replicate]
  simp only [show (Call.retain == Call.release) = false by decide,
    show (Call.release == Call.retain) = false by decide,
    show (Call.retain == Call.retain) = true by decide,
    show (Call.release == Call.release) = true by decide, if_true, Bool.false_eq_true, if_false]
  omega

/-- C19, as the code has it: a fresh object is retained `N` times, with `N` at
least the range of `extra_rc` so that the count overflows into the side table,
and is then released `N` times, back down to a retain count of 1. All calls
return, the count reads 1, and both the inline count and the side-table count
are zero; but the side-table state is not cleaned up: `has_sidetable_rc` is
still set and the side-table entry created by the overflow is still there.
They stay until deallocation: after any further retains, try-retains and
releases (the deallocating release among them) the bit is still set and the
entry still there, and `clearDeallocating` on that object takes the entry
away. -/
theorem C19_sidetable_state_stays (cfg : Config) (ops : RawIsaOps) (n : Nat) (cls : Class)
    (hasCxxDtor : Bool) (o : objc_object) (N : Nat)
    (ht : isTaggedPointer cfg o = false) (hside : sidetable_getExtraRC_nolock o = 0)
    (hN : 2 ^ extra_rc_width cfg.arch ≤ N) :
    ∃ o', runCalls cfg ops (n + 2)
          (List.replicate N Call.retain ++ List.replicate N Call.release)
          (initIsa cfg cls true hasCxxDtor o) = some o'
      ∧ (rootRetainCount cfg ops o').1 = 1
      ∧ isa_deallocating cfg.arch o'.isa = 0
      ∧ isa_extra_rc cfg.arch o'.isa = 0
      ∧ sidetable_getExtraRC_nolock o' = 0
      ∧ isa_has_sidetable_rc cfg.arch o'.isa = 1
      ∧ o'.sidetable ≠ none
      ∧ (∀ later : List Call, ∃ o'', runCalls cfg ops (n + 2) later o' = some o''
          ∧ isa_indexed o''.isa ≠ 0
          ∧ isa_has_sidetable_rc cfg.arch o''.isa ≠ 0
          ∧ o''.sidetable ≠ none
          ∧ ∀ (raw : Nat → World → World) (this : Nat) (w : World), w.objects this = o'' →
              ((clearDeallocating cfg raw this w).objects this).sidetable = none) := by
  have hdec := decode_initIsa cfg cls hasCxxDtor o
  have hmag := decode_magic_value cfg.arch
  have hw0 := initIsa_lt cfg cls hasCxxDtor o
  have hi1 : isa_indexed (initIsa cfg cls true hasCxxDtor o).isa = 1 := by
    rw [isa_indexed_eq cfg.arch, hdec, hmag]
  have hi0 : isa_indexed (initIsa cfg cls true hasCxxDtor o).isa ≠ 0 := by
    rw [hi1]; decide
  have he0 : isa_extra_rc cfg.arch (initIsa cfg cls true hasCxxDtor o).isa = 0 := by
    rw [isa_extra_rc_eq, hdec, hmag]
  have hs0 : isa_has_sidetable_rc cfg.arch (initIsa cfg cls true hasCxxDtor o).isa = 0 := by
    rw [isa_has_sidetable_rc_eq, hdec, hmag]
  have hd0 : isa_deallocating cfg.arch (initIsa cfg cls true hasCxxDtor o).isa = 0 := by
    rw [isa_deallocating_eq, hdec, hmag]
  have hself : (initIsa cfg cls true hasCxxDtor o).self = o.self := by simp [initIsa]
  have ht0 : isTaggedPointer cfg (initIsa cfg cls true hasCxxDtor o) = false := by
    rw [isTaggedPointer_congr cfg o _ hself]; exact ht
  have hst : sidetable_getExtraRC_nolock (initIsa cfg cls true hasCxxDtor o) = 0 := by
    simpa [initIsa, sidetable_getExtraRC_nolock] using hside
  -- the retains
  obtain ⟨o1, hr1, hw1, hix, ht1, _, hJ1⟩ :=
    calls_sidetable cfg ops n (List.replicate N Call.retain) _ hw0 hi0 ht0
  obtain ⟨o1', hr1', _, _, _, hsum1⟩ :=
    live_calls cfg ops n (List.replicate N Call.retain) _ hw0 hi0 ht0 hd0 (fun _ => hst)
      (by intro c hc; exact Or.inl (List.eq_of_mem_replicate hc))
      (by
        intro k
        simp only [List.take_replicate, List.count_replicate,
          show (Call.retain == Call.release) = false by decide, Bool.false_eq_true, if_false]
        omega)
  rw [hr1] at hr1'
  simp only [Option.some.injEq] at hr1'
  subst hr1'
  have hsone : isa_has_sidetable_rc cfg.arch o1.isa ≠ 0 := by
    intro h0
    have hlt := isa_extra_rc_lt cfg.arch o1.isa
    rw [he0, hs0] at hsum1
    simp only [h0, List.count_replicate,
      show (Call.retain == Call.release) = false by decide,
      show (Call.retain == Call.retain) = true by decide, ne_eq, not_true_eq_false,
      Bool.false_eq_true, if_false, if_true] at hsum1
    omega
  -- the releases
  obtain ⟨o2, hr2, hw2, hi2, ht2, hs2, hJ2⟩ :=
    calls_sidetable cfg ops n (List.replicate N Call.release) o1 hw1 hix ht1
  have hrun : runCalls cfg ops (n + 2)
      (List.replicate N Call.retain ++ List.replicate N Call.release)
      (initIsa cfg cls true hasCxxDtor o) = some o2 := by
    rw [runCalls_append cfg ops (n + 2) _ _ _ o1 hr1, hr2]
  -- the count over the whole sequence
  obtain ⟨o2', hr', _, _, hd2, hsum2⟩ :=
    live_calls cfg ops n (List.replicate N Call.retain ++ List.replicate N Call.release) _
      hw0 hi0 ht0 hd0 (fun _ => hst)
      (by
        intro c hc
        rcases List.mem_append.1 hc with h | h
        · exact Or.inl (List.eq_of_mem_replicate h)
        · exact Or.inr (List.eq_of_mem_replicate h))
      (by
        intro k
        have := up_down_live N k
        omega)
  rw [hrun] at hr'
  simp only [Option.some.injEq] at hr'
  subst hr'
  have hs2' := hs2 hsone
  have hpresent : o2.sidetable ≠ none :=
    hJ2 (hJ1 (fun hx => absurd hs0 hx)) hs2'
  rw [he0, hs0] at hsum2
  simp only [hs2', List.count_append, List.count_replicate,
    show (Call.retain == Call.release) = false by decide,
    show (Call.release == Call.retain) = false by decide,
    show (Call.retain == Call.retain) = true by decide,
    show (Call.release == Call.release) = true by decide, ne_eq, not_true_eq_false,
    not_false_eq_true, Bool.false_eq_true, if_false, if_true] at hsum2
  have he2 : isa_extra_rc cfg.arch o2.isa = 0 := by omega
  have hg2 : sidetable_getExtraRC_nolock o2 = 0 := by omega
  have hone : isa_has_sidetable_rc cfg.arch o2.isa = 1 := by
    have := isa_has_sidetable_rc_le cfg.arch o2.isa
    omega
  refine ⟨o2, hrun, ?_, hd2, he2, hg2, hone, hpresent, ?_⟩
  · rw [rootRetainCount_indexed cfg ops o2 ht2 hi2]
    simp [he2, hg2, WORD]
  · intro later
    obtain ⟨o3, hr3, _, hi3, _, hs3, hJ3⟩ := calls_sidetable cfg ops n later o2 hw2 hi2 ht2
    have hs3' := hs3 hs2'
    refine ⟨o3, hr3, hi3, hs3', hJ3 (fun _ => hpresent) hs3', ?_⟩
    intro raw this w hw
    simp [clearDeallocating, clearDeallocating_slow, hw, hi3, hs3', sidetable_unlock,
      sidetable_lock]

/-- C19 on x86_64 with 256 retains and 256 releases. -/
theorem C19_sidetable_state_stays_witness :
    ∃ o', runCalls x86 inertOps 2
          (List.replicate 256 Call.retain ++ List.replicate 256 Call.release)
          (initIsa x86 plainClass true false blank) = some o'
      ∧ (rootRetainCount x86 inertOps o').1 = 1
      ∧ isa_has_sidetable_rc x86.arch o'.isa = 1
      ∧ o'.sidetable ≠ none
      ∧ ∃ o'', runCalls x86 inertOps 2 [Call.release] o' = some o''
          ∧ o''.sidetable ≠ none := by
  obtain ⟨o', h1, h2, _, _, _, h6, h7, h8⟩ :=
    C19_sidetable_state_stays x86 inertOps 0 plainClass false blank 256
      (by decide) (by decide) (by decide)
  obtain ⟨o'', h9, _, _, h10, _⟩ := h8 [Call.release]
  exact ⟨o', h1, h2, h6, h7, o'', h9, h10⟩

/-- C19 fails as stated: on x86_64 a fresh object retained 256 times and
released 256 times has a retain count of 1 again, yet `has_sidetable_rc` is
set and the side table still holds an entry for it, with count zero. -/
theorem C19_counterexample :
    (runCalls x86 inertOps 2
        (List.replicate 256 Call.retain ++ List.replicate 256 Call.release)
        (initInstanceIsa x86 plainClass false blank)).map
      (fun o => ((rootRetainCount x86 inertOps o).1, isa_has_sidetable_rc x86.arch o.isa,
        o.sidetable))
      = some (1, 1, some { retain_count := 0, weakly_referenced := false,
                           deallocating := false }) := by
  decide

/-! ## Weak references cleared at deallocation -/

/-- Registration of a weak referrer, on a referent with an indexed isa that is
not deallocating: the location is recorded in the referent's entry and the
referent is marked weakly referenced. -/
theorem weak_register_marks (cfg : Config) (ops : RawIsaOps) (n : Nat) (referent l : Nat)
    (w : World) (hi : isa_indexed (w.objects referent).isa ≠ 0)
    (hd : rootIsDeallocating cfg ops (w.objects referent) = false) :
    ∃ w' e, weak_register_no_lock cfg ops (n + 1) referent l w = some (some referent, w')
      ∧ w'.weak_table.lookup referent = some e
      ∧ l ∈ e.referrers
      ∧ isa_indexed (w'.objects referent).isa ≠ 0
      ∧ isa_weakly_referenced cfg.arch (w'.objects referent).isa ≠ 0 := by
  obtain ⟨o1, hset, hi', hwk'⟩ : ∃ o1, setWeaklyReferenced_nolock cfg ops (n + 1)
      (w.objects referent) = some o1 ∧ isa_indexed o1.isa ≠ 0
      ∧ isa_weakly_referenced cfg.arch o1.isa ≠ 0 := by
    refine ⟨_, setWeaklyReferenced_indexed cfg ops n (w.objects referent) hi, ?_⟩
    by_cases hwk : isa_weakly_referenced cfg.arch (w.objects referent).isa = 0
    · simp only [hwk, ne_eq, not_true_eq_false, if_false]
      simp only [isa_indexed_eq cfg.arch, isa_weakly_referenced_eq,
        decode_set_weakly_referenced] at hi ⊢
      exact ⟨hi, by decide⟩
    · rw [if_pos hwk]
      exact ⟨hi, hwk⟩
  cases hl : w.weak_table.lookup referent with
  | none =>
    refine ⟨{ objects := Function.update w.objects referent o1
              weak_table := (referent, weak_entry_t.inline_referrers [l])
                :: w.weak_table.filter fun kv => kv.1 != referent
              weak_vars := w.weak_vars },
      weak_entry_t.inline_referrers [l], ?_, ?_, ?_, ?_, ?_⟩
    · simp only [weak_register_no_lock, hd, Bool.false_eq_true, if_false, hset, hl]
    · simp [List.lookup]
    · simp [weak_entry_t.referrers]
    · simpa using hi'
    · simpa using hwk'
  | some e =>
    refine ⟨{ objects := Function.update w.objects referent o1
              weak_table := (referent, weak_entry_insert e l)
                :: w.weak_table.filter fun kv => kv.1 != referent
              weak_vars := w.weak_vars },
      weak_entry_insert e l, ?_, ?_, ?_, ?_, ?_⟩
    · simp only [weak_register_no_lock, hd, Bool.false_eq_true, if_false, hset, hl]
    · simp [List.lookup]
    · cases e with
      | inline_referrers refs =>
        by_cases hlen : refs.length < WEAK_INLINE_COUNT <;>
          simp [weak_entry_insert, hlen, weak_entry_t.referrers]
      | out_of_line refs => simp [weak_entry_insert, weak_entry_t.referrers]
    · simpa using hi'
    · simpa using hwk'

theorem addc_low_bits (a : Arch) (b : Nat) (hb : b < WORD)
    (hc : (addc b (RC_ONE a) 0).2 = 0) :
    (addc b (RC_ONE a) 0).1 = b + RC_ONE a
      ∧ (addc b (RC_ONE a) 0).1 % RC_ONE a = b % RC_ONE a
      ∧ isa_extra_rc a (addc b (RC_ONE a) 0).1 = isa_extra_rc a b + 1 := by
  cases a <;>
    simp only [addc, WORD, RC_ONE, isa_extra_rc, getField, off_extra_rc, shiftcls_width,
      extra_rc_width] at hb hc ⊢ <;>
    split at hc <;> omega

theorem subc_low_bits (a : Arch) (b : Nat) (hb : b < WORD)
    (hc : (subc b (RC_ONE a) 0).2 = 0) :
    (subc b (RC_ONE a) 0).1 + RC_ONE a = b
      ∧ (subc b (RC_ONE a) 0).1 % RC_ONE a = b % RC_ONE a
      ∧ isa_extra_rc a (subc b (RC_ONE a) 0).1 + 1 = isa_extra_rc a b := by
  cases a <;>
    simp only [subc, WORD, RC_ONE, isa_extra_rc, getField, off_extra_rc, shiftcls_width,
      extra_rc_width] at hb hc ⊢ <;>
    split at hc <;> omega

/-- C22: for every 64-bit isa word `b`, `addc(b, RC_ONE)` reports a carry
exactly when `extra_rc` is at its maximum and `subc(b, RC_ONE)` reports a
borrow exactly when `extra_rc` is 0. Without carry the new word is
`b + RC_ONE`, its `extra_rc` is one more, and the bits below `extra_rc` (all
the other fields) are those of `b`; without borrow the new word is
`b - RC_ONE`, its `extra_rc` is one less, and the other bits are those of
`b`. -/
theorem C22_rc_one_is_extra_rc (a : Arch) (b : Nat) (hb : b < WORD) :
    ((addc b (RC_ONE a) 0).2 ≠ 0 ↔ isa_extra_rc a b = 2 ^ extra_rc_width a - 1)
      ∧ ((subc b (RC_ONE a) 0).2 ≠ 0 ↔ isa_extra_rc a b = 0)
      ∧ ((addc b (RC_ONE a) 0).2 = 0 →
          (addc b (RC_ONE a) 0).1 = b + RC_ONE a
            ∧ isa_extra_rc a (addc b (RC_ONE a) 0).1 = isa_extra_rc a b + 1
            ∧ (addc b (RC_ONE a) 0).1 % RC_ONE a = b % RC_ONE a
            ∧ decode a (addc b (RC_ONE a) 0).1
                = { decode a b with extra_rc := isa_extra_rc a b + 1 })
      ∧ ((subc b (RC_ONE a) 0).2 = 0 →
          (subc b (RC_ONE a) 0).1 + RC_ONE a = b
            ∧ isa_extra_rc a (subc b (RC_ONE a) 0).1 + 1 = isa_extra_rc a b
            ∧ (subc b (RC_ONE a) 0).1 % RC_ONE a = b % RC_ONE a
            ∧ decode a (subc b (RC_ONE a) 0).1
                = { decode a b with extra_rc := isa_extra_rc a b - 1 }) := by
  have hlt := isa_extra_rc_lt a b
  have hpos : 0 < 2 ^ extra_rc_width a := Nat.two_pow_pos _
  refine ⟨?_, ?_, ?_, ?_⟩
  · rw [addc_carry_iff a b hb]; omega
  · have h := subc_borrow_iff a b hb
    constructor
    · intro h1
      by_contra h2
      exact h1 (h.mpr h2)
    · intro h1 h2
      exact (h.mp h2) h1
  · intro hc
    obtain ⟨h1, h2, h3⟩ := addc_low_bits a b hb hc
    refine ⟨h1, h3, h2, ?_⟩
    have hn : isa_extra_rc a b + 1 ≠ 2 ^ extra_rc_width a := by
      intro hmax
      exact ((addc_carry_iff a b hb).mpr hmax) hc
    rw [decode_addc, Nat.mod_eq_of_lt (by omega)]
  · intro hc
    obtain ⟨h1, h2, h3⟩ := subc_low_bits a b hb hc
    refine ⟨h1, h3, h2, ?_⟩
    have hn : isa_extra_rc a b ≠ 0 := (subc_borrow_iff a b hb).mp hc
    have he : (isa_extra_rc a b + 2 ^ extra_rc_width a - 1) % 2 ^ extra_rc_width a
        = isa_extra_rc a b - 1 := by
      have h4 : isa_extra_rc a b + 2 ^ extra_rc_width a - 1
          = (isa_extra_rc a b - 1) + 2 ^ extra_rc_width a := by omega
      rw [h4, Nat.add_mod_right, Nat.mod_eq_of_lt (by omega)]
    rw [decode_subc a b hb, he]

theorem C22_rc_one_is_extra_rc_witness :
    (sample x86 255 0 0 none).isa < WORD
      ∧ (addc (sample x86 255 0 0 none).isa (RC_ONE Arch.x86_64) 0).2 ≠ 0
      ∧ (subc (sample x86 255 0 0 none).isa (RC_ONE Arch.x86_64) 0).2 = 0
      ∧ isa_extra_rc Arch.x86_64 (subc (sample x86 255 0 0 none).isa (RC_ONE Arch.x86_64) 0).1
          = 254 :=
  have h := C22_rc_one_is_extra_rc Arch.x86_64 (sample x86 255 0 0 none).isa (by decide)
  ⟨by decide, h.1.mpr (by decide), by decide, by decide⟩

/-! ## C21: release to zero against try-retain -/

/-- With the value just loaded, the stale-load forms are the passes. -/
theorem rootRetain_stored_fresh (cfg : Config) (ops : RawIsaOps) (t h l : Bool)
    (o : objc_object) :
    rootRetain_stored cfg ops t h l (LoadExclusive o.isa) o = rootRetain_pass cfg ops t h l o :=
  rfl

theorem rootRelease_stored_fresh (cfg : Config) (ops : RawIsaOps) (pd h l : Bool)
    (o : objc_object) :
    rootRelease_stored cfg ops pd h l (LoadExclusive o.isa) o
      = rootRelease_pass cfg ops pd h l o :=
  rfl

theorem tryRetain_stored_ok (cfg : Config) (ops : RawIsaOps) (h l : Bool) (old : Nat)
    (x : objc_object) (hx : x.isa = old) (hi : isa_indexed old ≠ 0)
    (hd : isa_deallocating cfg.arch old = 0) (hc : (addc old (RC_ONE cfg.arch) 0).2 = 0) :
    rootRetain_stored cfg ops true h l old x
      = Pass.done (some x.self) { x with isa := (addc old (RC_ONE cfg.arch) 0).1 } := by
  simp [rootRetain_stored, hi, hd, hc, StoreExclusive, hx]

theorem tryRetain_stored_lost (cfg : Config) (ops : RawIsaOps) (h l : Bool) (old : Nat)
    (x : objc_object) (hx : x.isa ≠ old) (hi : isa_indexed old ≠ 0)
    (hd : isa_deallocating cfg.arch old = 0) (hc : (addc old (RC_ONE cfg.arch) 0).2 = 0) :
    rootRetain_stored cfg ops true h l old x = Pass.retry l x := by
  simp [rootRetain_stored, hi, hd, hc, StoreExclusive, hx]

theorem tryRetain_stored_nil (cfg : Config) (ops : RawIsaOps) (h l : Bool) (old : Nat)
    (x : objc_object) (hi : isa_indexed old ≠ 0) (hd : isa_deallocating cfg.arch old ≠ 0) :
    rootRetain_stored cfg ops true h l old x = Pass.done none x := by
  simp [rootRetain_stored, hi, hd]

theorem release_stored_fast (cfg : Config) (ops : RawIsaOps) (pd h l : Bool) (old : Nat)
    (x : objc_object) (hx : x.isa = old) (hi : isa_indexed old ≠ 0)
    (hc : (subc old (RC_ONE cfg.arch) 0).2 = 0) :
    ∃ x1, rootRelease_stored cfg ops pd h l old x = Pass.done false x1
      ∧ x1.isa = (subc old (RC_ONE cfg.arch) 0).1 ∧ x1.self = x.self
      ∧ x1.sidetable = x.sidetable := by
  cases l <;>
    simp [rootRelease_stored, hi, hc, StoreReleaseExclusive, StoreExclusive, hx,
      sidetable_unlock]

theorem release_stored_slow (cfg : Config) (ops : RawIsaOps) (pd l : Bool) (old : Nat)
    (x : objc_object) (hi : isa_indexed old ≠ 0) (hc : (subc old (RC_ONE cfg.arch) 0).2 ≠ 0)
    (hs : isa_has_sidetable_rc cfg.arch old ≠ 0) :
    rootRelease_stored cfg ops pd false l old x = Pass.slow x := by
  simp [rootRelease_stored, hi, hc, hs]

theorem release_dealloc_won (cfg : Config) (pd l : Bool) (old : Nat) (x : objc_object)
    (hx : x.isa = old) (hd : isa_deallocating cfg.arch old = 0) :
    ∃ x1, rootRelease_dealloc cfg pd l old old x = Pass.done true x1
      ∧ x1.isa = set_deallocating cfg.arch old 1 ∧ x1.self = x.self
      ∧ x1.sidetable = x.sidetable := by
  cases l <;> cases pd <;>
    simp [rootRelease_dealloc, hd, sidetable_unlock, send_dealloc, StoreExclusive, hx]

theorem release_dealloc_lost (cfg : Config) (pd l : Bool) (old : Nat) (x : objc_object)
    (hx : x.isa ≠ old) (hd : isa_deallocating cfg.arch old = 0) :
    ∃ x1, rootRelease_dealloc cfg pd l old old x = Pass.retry l x1
      ∧ x1.isa = x.isa ∧ x1.self = x.self ∧ x1.sidetable = x.sidetable := by
  cases l <;>
    simp [rootRelease_dealloc, hd, sidetable_unlock, StoreExclusive, hx]

/-- An underflow with nothing to borrow reaches the code below
`Really deallocate.`, on an object that differs from the one passed in by its
trace only. -/
theorem release_stored_underflow (cfg : Config) (ops : RawIsaOps) (pd h l : Bool) (old : Nat)
    (x : objc_object) (hi : isa_indexed old ≠ 0) (hc : (subc old (RC_ONE cfg.arch) 0).2 ≠ 0)
    (hxi : isa_indexed x.isa ≠ 0)
    (hs : isa_has_sidetable_rc cfg.arch old = 0
      ∨ (h = true ∧ sidetable_getExtraRC_nolock x = 0)) :
    ∃ l1 x0, rootRelease_stored cfg ops pd h l old x = rootRelease_dealloc cfg pd l1 old old x0
      ∧ x0.isa = x.isa ∧ x0.self = x.self ∧ x0.sidetable = x.sidetable := by
  by_cases hs0 : isa_has_sidetable_rc cfg.arch old = 0
  · exact ⟨l, x, by simp [rootRelease_stored, hi, hc, hs0], rfl, rfl, rfl⟩
  · rcases hs with hs | ⟨hh, hside⟩
    · exact absurd hs hs0
    · subst hh
      have hside1 : sidetable_getExtraRC_nolock (if (!l) = true then sidetable_lock x else x)
          = 0 := by
        cases l <;> simpa [sidetable_lock, sidetable_getExtraRC_nolock] using hside
      have hxi1 : isa_indexed (if (!l) = true then sidetable_lock x else x).isa ≠ 0 := by
        cases l <;> simpa [sidetable_lock] using hxi
      have h0 : (sidetable_subExtraRC_nolock (RC_HALF cfg.arch)
          (if (!l) = true then sidetable_lock x else x)).1 = 0 := by
        rw [sub_fst, hside1]; simp
      have h1 := sub_empty (RC_HALF cfg.arch) _ hside1
      refine ⟨true, if (!l) = true then sidetable_lock x else x, ?_, ?_, ?_, ?_⟩
      · simp only [rootRelease_stored, hi, hc, hs0, if_false, ne_eq, not_false_eq_true, if_true,
          Bool.true_eq_false, hxi1, and_false, h0, h1, lt_self_iff_false, gt_iff_lt]
      · cases l <;> simp [sidetable_lock]
      · cases l <;> simp [sidetable_lock]
      · cases l <;> simp [sidetable_lock]

/-- The three isa words of the race on an object with retain count 1: the
initial word, the word after the try-retain, the word after the release. -/
theorem race_words (a : Arch) (b : Nat) (hw : b < WORD) (hi : isa_indexed b ≠ 0)
    (hrc : isa_extra_rc a b = 0) (hd : isa_deallocating a b = 0) :
    (addc b (RC_ONE a) 0).2 = 0
      ∧ (subc b (RC_ONE a) 0).2 ≠ 0
      ∧ isa_indexed (addc b (RC_ONE a) 0).1 ≠ 0
      ∧ isa_deallocating a (addc b (RC_ONE a) 0).1 = 0
      ∧ (subc (addc b (RC_ONE a) 0).1 (RC_ONE a) 0).2 = 0
      ∧ (subc (addc b (RC_ONE a) 0).1 (RC_ONE a) 0).1 = b
      ∧ (addc b (RC_ONE a) 0).1 ≠ b
      ∧ isa_indexed (set_deallocating a b 1) ≠ 0
      ∧ isa_deallocating a (set_deallocating a b 1) ≠ 0
      ∧ set_deallocating a b 1 ≠ b := by
  have hc : (addc b (RC_ONE a) 0).2 = 0 := by
    by_contra hne
    have h1 := (addc_carry_iff a b hw).mp hne
    rw [hrc] at h1
    cases a <;> simp [extra_rc_width] at h1
  have hlt := addc_fst_lt b (RC_ONE a) 0
  obtain ⟨hsum, _, hrc1⟩ := addc_low_bits a b hw hc
  have hdec := decode_addc a b
  have hi1 : isa_indexed (addc b (RC_ONE a) 0).1 = isa_indexed b :=
    congrArg IsaFields.indexed hdec
  have hd1 : isa_deallocating a (addc b (RC_ONE a) 0).1 = isa_deallocating a b :=
    congrArg IsaFields.deallocating hdec
  have hb1 : (subc (addc b (RC_ONE a) 0).1 (RC_ONE a) 0).2 = 0 :=
    (subc_borrow_iff a _ hlt).mpr (by rw [hrc1]; omega)
  obtain ⟨hback, _, _⟩ := subc_low_bits a _ hlt hb1
  have hdd := decode_set_deallocating a b 1
  have hid : isa_indexed (set_deallocating a b 1) = isa_indexed b :=
    congrArg IsaFields.indexed hdd
  have hdd1 : isa_deallocating a (set_deallocating a b 1) = 1 :=
    congrArg IsaFields.deallocating hdd
  have hpos : 0 < RC_ONE a := by cases a <;> simp [RC_ONE]
  refine ⟨hc, ?_, ?_, ?_, hb1, ?_, ?_, ?_, ?_, ?_⟩
  · intro h0
    exact (subc_borrow_iff a b hw).mp h0 hrc
  · rw [hi1]; exact hi
  · rw [hd1]; exact hd
  · omega
  · omega
  · rw [hid]; exact hi
  · rw [hdd1]; decide
  · intro h
    rw [h] at hdd1
    omega

theorem get_of_sidetable (x o : objc_object) (h : x.sidetable = o.sidetable) :
    sidetable_getExtraRC_nolock x = sidetable_getExtraRC_nolock o := by
  simp only [sidetable_getExtraRC_nolock, h]

/-- The release that loaded the initial word: if the word is still in memory it
stores the deallocating bit and returns true (or first restarts with underflow
handling); if the try-retain has stored in between, its store fails and it
starts over. -/
theorem release_stored_initial (cfg : Config) (ops : RawIsaOps) (pd h l : Bool)
    (o x : objc_object) (hw : o.isa < WORD) (hi : isa_indexed o.isa ≠ 0)
    (hrc : isa_extra_rc cfg.arch o.isa = 0) (hd : isa_deallocating cfg.arch o.isa = 0)
    (hcount : isa_has_sidetable_rc cfg.arch o.isa = 0 ∨ sidetable_getExtraRC_nolock o = 0)
    (hside : x.sidetable = o.sidetable) (hxi : isa_indexed x.isa ≠ 0) :
    (h = false ∧ rootRelease_stored cfg ops pd h l o.isa x = Pass.slow x)
      ∨ (x.isa = o.isa ∧ ∃ x1, rootRelease_stored cfg ops pd h l o.isa x = Pass.done true x1
          ∧ x1.isa = set_deallocating cfg.arch o.isa 1 ∧ x1.self = x.self
          ∧ x1.sidetable = x.sidetable)
      ∨ (x.isa ≠ o.isa ∧ ∃ l1 x1, rootRelease_stored cfg ops pd h l o.isa x = Pass.retry l1 x1
          ∧ x1.isa = x.isa ∧ x1.self = x.self ∧ x1.sidetable = x.sidetable) := by
  obtain ⟨_, hb0, _⟩ := race_words cfg.arch o.isa hw hi hrc hd
  have hgx := get_of_sidetable x o hside
  by_cases hslow : h = false ∧ isa_has_sidetable_rc cfg.arch o.isa ≠ 0
  · left
    obtain ⟨hh, hs⟩ := hslow
    subst hh
    exact ⟨rfl, release_stored_slow cfg ops pd l o.isa x hi hb0 hs⟩
  · right
    have hs : isa_has_sidetable_rc cfg.arch o.isa = 0
        ∨ (h = true ∧ sidetable_getExtraRC_nolock x = 0) := by
      by_cases hs0 : isa_has_sidetable_rc cfg.arch o.isa = 0
      · exact Or.inl hs0
      · right
        constructor
        · cases h
          · exact absurd ⟨rfl, hs0⟩ hslow
          · rfl
        · rcases hcount with h1 | h1
          · exact absurd h1 hs0
          · rw [hgx]; exact h1
    obtain ⟨l1, x0, he, hx0i, hx0s, hx0t⟩ :=
      release_stored_underflow cfg ops pd h l o.isa x hi hb0 hxi hs
    by_cases hx : x.isa = o.isa
    · left
      obtain ⟨x1, h1, h2, h3, h4⟩ :=
        release_dealloc_won cfg pd l1 o.isa x0 (hx0i.trans hx) hd
      exact ⟨hx, x1, he.trans h1, h2, h3.trans hx0s, h4.trans hx0t⟩
    · right
      obtain ⟨x1, h1, h2, h3, h4⟩ :=
        release_dealloc_lost cfg pd l1 o.isa x0 (by rw [hx0i]; exact hx) hd
      exact ⟨hx, l1, x1, he.trans h1, h2.trans hx0i, h3.trans hx0s, h4.trans hx0t⟩

theorem pending_mono {ρ : Type} (vals more : List Nat) (p : Phase ρ)
    (hsub : ∀ v ∈ vals, v ∈ more) (h : Phase.pending vals p) : Phase.pending more p := by
  cases p with
  | loading _ _ => trivial
  | storing _ _ v => exact hsub v h
  | returned _ => exact h

/-- One step of the releasing thread keeps the race inside `Race.reachable`,
uses up one of the steps the thread has left, and does not add to the steps of
the other thread. -/
theorem race_step_release (cfg : Config) (ops : RawIsaOps) (pd : Bool) (o : objc_object)
    (ht : isTaggedPointer cfg o = false) (hw : o.isa < WORD) (hi : isa_indexed o.isa ≠ 0)
    (hrc : isa_extra_rc cfg.arch o.isa = 0) (hd : isa_deallocating cfg.arch o.isa = 0)
    (hcount : isa_has_sidetable_rc cfg.arch o.isa = 0 ∨ sidetable_getExtraRC_nolock o = 0)
    (s : Race) (hr : Race.reachable cfg o s) :
    Race.reachable cfg o (Race.stepRelease cfg ops pd s)
      ∧ Race.releaseBound o (Race.stepRelease cfg ops pd s) ≤ Race.releaseBound o s - 1
      ∧ Race.retainBound o (Race.stepRelease cfg ops pd s) ≤ Race.retainBound o s := by
  obtain ⟨hc0, hb0, hi1, hd1, hb1, hback, hne1, hid, hdd, hned⟩ :=
    race_words cfg.arch o.isa hw hi hrc hd
  obtain ⟨x, rel, ret⟩ := s
  obtain ⟨hself, hside, hmode⟩ := hr
  simp only at hself hside hmode
  have htx : isTaggedPointer cfg x = false := by
    rw [isTaggedPointer_congr cfg o x hself]; exact ht
  cases rel with
  | returned r =>
    exact ⟨⟨hself, hside, hmode⟩, by simp [Race.stepRelease, Race.releaseBound], le_refl _⟩
  | loading h l =>
    have hstep : Race.stepRelease cfg ops pd ⟨x, Phase.loading h l, ret⟩
        = ⟨x, Phase.storing h l x.isa, ret⟩ := rfl
    rw [hstep]
    rcases hmode with ⟨hx, _, hB⟩ | ⟨hx, hB, _⟩ | ⟨_, _, hA⟩ | ⟨_, hA, _⟩ | ⟨_, hA, _⟩
    · refine ⟨⟨hself, hside, Or.inl ⟨hx, ?_, hB⟩⟩, ?_, le_refl _⟩
      · simp [Phase.pending, hx]
      · simp only [Race.releaseBound, hx, if_true]
        cases h <;> simp
    · refine ⟨⟨hself, hside, Or.inr (Or.inl ⟨hx, hB, ?_⟩)⟩, ?_, le_refl _⟩
      · simp [Phase.pending, hx]
      · simp [Race.releaseBound, hx, hne1]
    · cases hA
    · cases hA
    · cases hA
  | storing h l v =>
    rcases hmode with ⟨hx, hA, hB⟩ | ⟨hx, hB, hA⟩ | ⟨_, _, hA⟩ | ⟨_, hA, _⟩ | ⟨_, hA, _⟩
    · have hv : v = o.isa := by simpa [Phase.pending] using hA
      subst hv
      have hxi : isa_indexed x.isa ≠ 0 := by rw [hx]; exact hi
      rcases release_stored_initial cfg ops pd h l o x hw hi hrc hd hcount hside hxi with
        ⟨hh, hs⟩ | ⟨_, x1, hs, h1, h2, h3⟩ | ⟨hne, _⟩
      · subst hh
        have hstep : Race.stepRelease cfg ops pd ⟨x, Phase.storing false l o.isa, ret⟩
            = ⟨x, Phase.loading true false, ret⟩ := by
          simp [Race.stepRelease, hs, htx]
        rw [hstep]
        refine ⟨⟨hself, hside, Or.inl ⟨hx, trivial, hB⟩⟩, ?_, le_refl _⟩
        simp [Race.releaseBound, hx]
      · have hstep : Race.stepRelease cfg ops pd ⟨x, Phase.storing h l o.isa, ret⟩
            = ⟨x1, Phase.returned true, ret⟩ := by
          simp [Race.stepRelease, hs]
        rw [hstep]
        refine ⟨⟨h2.trans hself, h3.trans hside,
          Or.inr (Or.inr (Or.inr (Or.inl ⟨h1, rfl, pending_mono _ _ _ (by simp) hB⟩)))⟩, ?_, ?_⟩
        · simp [Race.releaseBound]
        · cases ret with
          | returned r => exact absurd hB (by simp [Phase.pending])
          | loading h2 l2 => simp [Race.retainBound, h1, hx, hned]
          | storing h2 l2 v2 =>
            have hv2 : v2 = o.isa := by simpa [Phase.pending] using hB
            subst hv2
            simp [Race.retainBound, h1, hx, hned]
            split <;> omega
      · exact absurd hx hne
    · have hv : v = o.isa ∨ v = (addc o.isa (RC_ONE cfg.arch) 0).1 := by
        simpa [Phase.pending] using hA
      have hxi : isa_indexed x.isa ≠ 0 := by rw [hx]; exact hi1
      have hxne : x.isa ≠ o.isa := by rw [hx]; exact hne1
      rcases hv with hv | hv
      · subst hv
        rcases release_stored_initial cfg ops pd h l o x hw hi hrc hd hcount hside hxi with
          ⟨hh, hs⟩ | ⟨hxe, _⟩ | ⟨_, l1, x1, hs, h1, h2, h3⟩
        · subst hh
          have hstep : Race.stepRelease cfg ops pd ⟨x, Phase.storing false l o.isa, ret⟩
              = ⟨x, Phase.loading true false, ret⟩ := by
            simp [Race.stepRelease, hs, htx]
          rw [hstep]
          refine ⟨⟨hself, hside, Or.inr (Or.inl ⟨hx, hB, trivial⟩)⟩, ?_, le_refl _⟩
          simp [Race.releaseBound, hx, hne1, Ne.symm hne1]
        · exact absurd hxe hxne
        · have hstep : Race.stepRelease cfg ops pd ⟨x, Phase.storing h l o.isa, ret⟩
              = ⟨x1, Phase.loading h l1, ret⟩ := by
            simp [Race.stepRelease, hs]
          rw [hstep]
          refine ⟨⟨h2.trans hself, h3.trans hside,
            Or.inr (Or.inl ⟨h1.trans hx, hB, trivial⟩)⟩, ?_, ?_⟩
          · simp [Race.releaseBound, h1, hx, hne1, Ne.symm hne1]
          · simp [Race.retainBound, hB]
      · subst hv
        obtain ⟨x1, hs, h1, h2, h3⟩ :=
          release_stored_fast cfg ops pd h l _ x hx hi1 hb1
        have hstep : Race.stepRelease cfg ops pd
            ⟨x, Phase.storing h l (addc o.isa (RC_ONE cfg.arch) 0).1, ret⟩
            = ⟨x1, Phase.returned false, ret⟩ := by
          simp [Race.stepRelease, hs]
        rw [hstep]
        refine ⟨⟨h2.trans hself, h3.trans hside,
          Or.inr (Or.inr (Or.inl ⟨h1.trans hback, hB, rfl⟩))⟩, ?_, ?_⟩
        · simp [Race.releaseBound]
        · simp [Race.retainBound, hB]
    · cases hA
    · cases hA
    · cases hA

/-- One step of the try-retaining thread keeps the race inside
`Race.reachable`, uses up one of the steps the thread has left, and does not
add to the steps of the other thread. -/
theorem race_step_retain (cfg : Config) (ops : RawIsaOps) (o : objc_object)
    (hw : o.isa < WORD) (hi : isa_indexed o.isa ≠ 0)
    (hrc : isa_extra_rc cfg.arch o.isa = 0) (hd : isa_deallocating cfg.arch o.isa = 0)
    (s : Race) (hr : Race.reachable cfg o s) :
    Race.reachable cfg o (Race.stepTryRetain cfg ops s)
      ∧ Race.retainBound o (Race.stepTryRetain cfg ops s) ≤ Race.retainBound o s - 1
      ∧ Race.releaseBound o (Race.stepTryRetain cfg ops s) ≤ Race.releaseBound o s := by
  obtain ⟨hc0, hb0, hi1, hd1, hb1, hback, hne1, hid, hdd, hned⟩ :=
    race_words cfg.arch o.isa hw hi hrc hd
  obtain ⟨x, rel, ret⟩ := s
  obtain ⟨hself, hside, hmode⟩ := hr
  simp only at hself hside hmode
  cases ret with
  | returned r =>
    exact ⟨⟨hself, hside, hmode⟩, by simp [Race.stepTryRetain, Race.retainBound], le_refl _⟩
  | loading h l =>
    have hstep : Race.stepTryRetain cfg ops ⟨x, rel, Phase.loading h l⟩
        = ⟨x, rel, Phase.storing h l x.isa⟩ := rfl
    rw [hstep]
    rcases hmode with ⟨hx, hA, _⟩ | ⟨_, hB, _⟩ | ⟨_, hB, _⟩ | ⟨hx, hA, _⟩ | ⟨_, _, hB⟩
    · refine ⟨⟨hself, hside, Or.inl ⟨hx, hA, ?_⟩⟩, ?_, le_refl _⟩
      · simp [Phase.pending, hx]
      · simp [Race.retainBound, hx]
    · cases hB
    · cases hB
    · refine ⟨⟨hself, hside, Or.inr (Or.inr (Or.inr (Or.inl ⟨hx, hA, ?_⟩)))⟩, ?_, le_refl _⟩
      · simp [Phase.pending, hx]
      · simp [Race.retainBound, hx, hned]
    · cases hB
  | storing h l v =>
    rcases hmode with ⟨hx, hA, hB⟩ | ⟨_, hB, _⟩ | ⟨_, hB, _⟩ | ⟨hx, hA, hB⟩ | ⟨_, _, hB⟩
    · have hv : v = o.isa := by simpa [Phase.pending] using hB
      subst hv
      have hs := tryRetain_stored_ok cfg ops h l o.isa x hx hi hd hc0
      have hstep : Race.stepTryRetain cfg ops ⟨x, rel, Phase.storing h l o.isa⟩
          = ⟨{ x with isa := (addc o.isa (RC_ONE cfg.arch) 0).1 }, rel,
              Phase.returned (some o.self)⟩ := by
        simp [Race.stepTryRetain, hs, hself]
      rw [hstep]
      refine ⟨⟨hself, hside,
        Or.inr (Or.inl ⟨rfl, rfl, pending_mono _ _ _ (by simp) hA⟩)⟩, ?_, ?_⟩
      · simp [Race.retainBound]
      · cases rel with
        | returned r => exact absurd hA (by simp [Phase.pending])
        | loading h2 l2 =>
          simp [Race.releaseBound, hx, hne1]
          split <;> omega
        | storing h2 l2 v2 =>
          have hv2 : v2 = o.isa := by simpa [Phase.pending] using hA
          subst hv2
          simp [Race.releaseBound, hx, hne1]
          split <;> split <;> omega
    · cases hB
    · cases hB
    · have hv : v = o.isa ∨ v = set_deallocating cfg.arch o.isa 1 := by
        simpa [Phase.pending] using hB
      have hxne : x.isa ≠ o.isa := by rw [hx]; exact hned
      rcases hv with hv | hv
      · subst hv
        have hs := tryRetain_stored_lost cfg ops h l o.isa x hxne hi hd hc0
        have hstep : Race.stepTryRetain cfg ops ⟨x, rel, Phase.storing h l o.isa⟩
            = ⟨x, rel, Phase.loading h l⟩ := by
          simp [Race.stepTryRetain, hs]
        rw [hstep]
        refine ⟨⟨hself, hside, Or.inr (Or.inr (Or.inr (Or.inl ⟨hx, hA, trivial⟩)))⟩, ?_,
          le_refl _⟩
        simp [Race.retainBound, hx, hned, Ne.symm hned]
      · subst hv
        have hs := tryRetain_stored_nil cfg ops h l _ x hid hdd
        have hstep : Race.stepTryRetain cfg ops
            ⟨x, rel, Phase.storing h l (set_deallocating cfg.arch o.isa 1)⟩
            = ⟨x, rel, Phase.returned none⟩ := by
          simp [Race.stepTryRetain, hs]
        rw [hstep]
        refine ⟨⟨hself, hside, Or.inr (Or.inr (Or.inr (Or.inr ⟨hx, hA, rfl⟩)))⟩, ?_, le_refl _⟩
        simp [Race.retainBound]
    · cases hB

/-- Along every schedule the race stays inside `Race.reachable`, and each
thread has returned once it has been given the steps of its bound. -/
theorem race_run (cfg : Config) (ops : RawIsaOps) (pd : Bool) (o : objc_object)
    (ht : isTaggedPointer cfg o = false) (hw : o.isa < WORD) (hi : isa_indexed o.isa ≠ 0)
    (hrc : isa_extra_rc cfg.arch o.isa = 0) (hd : isa_deallocating cfg.arch o.isa = 0)
    (hcount : isa_has_sidetable_rc cfg.arch o.isa = 0 ∨ sidetable_getExtraRC_nolock o = 0) :
    ∀ (sched : List Thread) (s : Race), Race.reachable cfg o s →
      Race.reachable cfg o (Race.run cfg ops pd sched s)
        ∧ Race.releaseBound o (Race.run cfg ops pd sched s)
            ≤ Race.releaseBound o s - sched.count Thread.releaser
        ∧ Race.retainBound o (Race.run cfg ops pd sched s)
            ≤ Race.retainBound o s - sched.count Thread.retainer := by
  intro sched
  induction sched with
  | nil => intro s hr; exact ⟨hr, by simp [Race.run], by simp [Race.run]⟩
  | cons t rest ih =>
    intro s hr
    cases t with
    | releaser =>
      obtain ⟨h1, h2, h3⟩ := race_step_release cfg ops pd o ht hw hi hrc hd hcount s hr
      obtain ⟨k1, k2, k3⟩ := ih _ h1
      refine ⟨k1, ?_, ?_⟩
      · have hc : (Thread.releaser :: rest).count Thread.releaser
            = rest.count Thread.releaser + 1 := by simp
        rw [hc]
        show Race.releaseBound o (Race.run cfg ops pd rest (Race.stepRelease cfg ops pd s)) ≤ _
        omega
      · have hc : (Thread.releaser :: rest).count Thread.retainer
            = rest.count Thread.retainer := by simp
        rw [hc]
        show Race.retainBound o (Race.run cfg ops pd rest (Race.stepRelease cfg ops pd s)) ≤ _
        omega
    | retainer =>
      obtain ⟨h1, h2, h3⟩ := race_step_retain cfg ops o hw hi hrc hd s hr
      obtain ⟨k1, k2, k3⟩ := ih _ h1
      refine ⟨k1, ?_, ?_⟩
      · have hc : (Thread.retainer :: rest).count Thread.releaser
            = rest.count Thread.releaser := by simp
        rw [hc]
        show Race.releaseBound o (Race.run cfg ops pd rest (Race.stepTryRetain cfg ops s)) ≤ _
        omega
      · have hc : (Thread.retainer :: rest).count Thread.retainer
            = rest.count Thread.retainer + 1 := by simp
        rw [hc]
        show Race.retainBound o (Race.run cfg ops pd rest (Race.stepTryRetain cfg ops s)) ≤ _
        omega

theorem releaseBound_zero (o : objc_object) (s : Race) (h : Race.releaseBound o s = 0) :
    ∃ r, s.releasing = Phase.returned r := by
  obtain ⟨x, rel, ret⟩ := s
  cases rel with
  | returned r => exact ⟨r, rfl⟩
  | loading h1 l =>
    simp only [Race.releaseBound] at h
    split at h
    · split at h <;> omega
    · omega
  | storing h1 l v =>
    simp only [Race.releaseBound] at h
    split at h
    · split at h <;> omega
    · split at h <;> omega

theorem retainBound_zero (o : objc_object) (s : Race) (h : Race.retainBound o s = 0) :
    ∃ r, s.retaining = Phase.returned r := by
  obtain ⟨x, rel, ret⟩ := s
  cases ret with
  | returned r => exact ⟨r, rfl⟩
  | loading h1 l =>
    simp only [Race.retainBound] at h
    split at h <;> omega
  | storing h1 l v =>
    simp only [Race.retainBound] at h
    split at h
    · omega
    · split at h <;> omega

/-- C21: an object with retain count 1 (indexed isa, `extra_rc` 0, not
deallocating, nothing in the side table) on which one thread runs
`rootRelease` and another `rootTryRetain`, each load and each store a step of
its own, in any interleaving `sched`. It never happens that the try-retain has
returned the object and the release has returned true (deallocation
proceeds). If the try-retain returns nil the release has returned true and the
deallocating bit is set; if it returns the object the bit is clear, and a
release that has returned has returned false. Each thread has returned once it
has been given its steps: six for the release, four for the try-retain. -/
theorem C21_release_against_tryRetain (cfg : Config) (ops : RawIsaOps) (pd : Bool)
    (o : objc_object) (sched : List Thread)
    (ht : isTaggedPointer cfg o = false) (hw : o.isa < WORD) (hi : isa_indexed o.isa ≠ 0)
    (hrc : isa_extra_rc cfg.arch o.isa = 0) (hd : isa_deallocating cfg.arch o.isa = 0)
    (hcount : isa_has_sidetable_rc cfg.arch o.isa = 0 ∨ sidetable_getExtraRC_nolock o = 0) :
    (∀ x, ¬ ((Race.run cfg ops pd sched (Race.start o)).retaining = Phase.returned (some x)
        ∧ (Race.run cfg ops pd sched (Race.start o)).releasing = Phase.returned true))
      ∧ ((Race.run cfg ops pd sched (Race.start o)).retaining = Phase.returned none →
          (Race.run cfg ops pd sched (Race.start o)).releasing = Phase.returned true
            ∧ isa_deallocating cfg.arch (Race.run cfg ops pd sched (Race.start o)).obj.isa ≠ 0)
      ∧ (∀ x, (Race.run cfg ops pd sched (Race.start o)).retaining = Phase.returned (some x) →
          x = o.self
            ∧ isa_deallocating cfg.arch (Race.run cfg ops pd sched (Race.start o)).obj.isa = 0
            ∧ ∀ r, (Race.run cfg ops pd sched (Race.start o)).releasing = Phase.returned r →
                r = false)
      ∧ ((Race.run cfg ops pd sched (Race.start o)).releasing = Phase.returned false →
          (Race.run cfg ops pd sched (Race.start o)).retaining = Phase.returned (some o.self))
      ∧ (6 ≤ sched.count Thread.releaser →
          ∃ r, (Race.run cfg ops pd sched (Race.start o)).releasing = Phase.returned r)
      ∧ (4 ≤ sched.count Thread.retainer →
          ∃ r, (Race.run cfg ops pd sched (Race.start o)).retaining = Phase.returned r) := by
  obtain ⟨hc0, hb0, hi1, hd1, hb1, hback, hne1, hid, hdd, hned⟩ :=
    race_words cfg.arch o.isa hw hi hrc hd
  have hstart : Race.reachable cfg o (Race.start o) :=
    ⟨rfl, rfl, Or.inl ⟨rfl, trivial, trivial⟩⟩
  obtain ⟨hreach, hrel, hret⟩ := race_run cfg ops pd o ht hw hi hrc hd hcount sched _ hstart
  have hrel0 : Race.releaseBound o (Race.start o) = 6 := by simp [Race.releaseBound, Race.start]
  have hret0 : Race.retainBound o (Race.start o) = 4 := by simp [Race.retainBound, Race.start]
  rw [hrel0] at hrel
  rw [hret0] at hret
  generalize Race.run cfg ops pd sched (Race.start o) = s at *
  obtain ⟨_, _, hmode⟩ := hreach
  refine ⟨?_, ?_, ?_, ?_, ?_, ?_⟩
  · intro x hboth
    obtain ⟨hB, hA⟩ := hboth
    rcases hmode with ⟨_, h1, _⟩ | ⟨_, _, h1⟩ | ⟨_, _, h1⟩ | ⟨_, _, h1⟩ | ⟨_, _, h1⟩
    · rw [hA] at h1; exact h1
    · rw [hA] at h1; exact h1
    · rw [hA] at h1; cases h1
    · rw [hB] at h1; exact h1
    · rw [hB] at h1; cases h1
  · intro hB
    rcases hmode with ⟨_, _, h1⟩ | ⟨_, h1, _⟩ | ⟨_, h1, _⟩ | ⟨_, _, h1⟩ | ⟨hx, hA, _⟩
    · rw [hB] at h1; exact absurd h1 (by simp [Phase.pending])
    · rw [hB] at h1; cases h1
    · rw [hB] at h1; cases h1
    · rw [hB] at h1; exact absurd h1 (by simp [Phase.pending])
    · exact ⟨hA, by rw [hx]; exact hdd⟩
  · intro x hB
    rcases hmode with ⟨_, _, h1⟩ | ⟨hx, h1, hA⟩ | ⟨hx, h1, hA⟩ | ⟨_, _, h1⟩ | ⟨_, _, h1⟩
    · rw [hB] at h1; exact absurd h1 (by simp [Phase.pending])
    · rw [hB] at h1
      refine ⟨by cases h1; rfl, by rw [hx]; exact hd1, ?_⟩
      intro r hr
      rw [hr] at hA
      exact absurd hA (by simp [Phase.pending])
    · rw [hB] at h1
      refine ⟨by cases h1; rfl, by rw [hx]; exact hd, ?_⟩
      intro r hr
      rw [hr] at hA
      cases hA; rfl
    · rw [hB] at h1; exact absurd h1 (by simp [Phase.pending])
    · rw [hB] at h1; cases h1
  · intro hA
    rcases hmode with ⟨_, h1, _⟩ | ⟨_, _, h1⟩ | ⟨_, hB, _⟩ | ⟨_, h1, _⟩ | ⟨_, h1, _⟩
    · rw [hA] at h1; exact absurd h1 (by simp [Phase.pending])
    · rw [hA] at h1; exact absurd h1 (by simp [Phase.pending])
    · exact hB
    · rw [hA] at h1; cases h1
    · rw [hA] at h1; cases h1
  · intro h6
    exact releaseBound_zero o s (by omega)
  · intro h4
    exact retainBound_zero o s (by omega)

theorem C21_release_against_tryRetain_witness :
    isTaggedPointer x86 (sample x86 0 0 0 none) = false
      ∧ (sample x86 0 0 0 none).isa < WORD
      ∧ isa_extra_rc x86.arch (sample x86 0 0 0 none).isa = 0
      ∧ (Race.run x86 inertOps true
            [Thread.releaser, Thread.retainer, Thread.releaser, Thread.retainer,
              Thread.retainer, Thread.retainer]
            (Race.start (sample x86 0 0 0 none))).releasing = Phase.returned true
      ∧ (Race.run x86 inertOps true
            [Thread.releaser, Thread.retainer, Thread.releaser, Thread.retainer,
              Thread.retainer, Thread.retainer]
            (Race.start (sample x86 0 0 0 none))).retaining = Phase.returned none
      ∧ (Race.run x86 inertOps true
            [Thread.releaser, Thread.retainer, Thread.retainer, Thread.releaser,
              Thread.releaser, Thread.releaser]
            (Race.start (sample x86 0 0 0 none))).retaining = Phase.returned (some 0x1000)
      ∧ (Race.run x86 inertOps true
            [Thread.releaser, Thread.retainer, Thread.retainer, Thread.releaser,
              Thread.releaser, Thread.releaser]
            (Race.start (sample x86 0 0 0 none))).releasing = Phase.returned false
      ∧ ¬ ((Race.run x86 inertOps true
            [Thread.releaser, Thread.retainer, Thread.retainer, Thread.releaser,
              Thread.releaser, Thread.releaser]
            (Race.start (sample x86 0 0 0 none))).retaining = Phase.returned (some 0x1000)
          ∧ (Race.run x86 inertOps true
            [Thread.releaser, Thread.retainer, Thread.retainer, Thread.releaser,
              Thread.releaser, Thread.releaser]
            (Race.start (sample x86 0 0 0 none))).releasing = Phase.returned true) :=
  ⟨by decide, by decide, by decide, by decide, by decide, by decide, by decide,
    (C21_release_against_tryRetain x86 inertOps true (sample x86 0 0 0 none)
      [Thread.releaser, Thread.retainer, Thread.retainer, Thread.releaser,
        Thread.releaser, Thread.releaser]
      (by decide) (by decide) (by decide) (by decide) (by decide) (Or.inl (by decide))).1
      0x1000⟩

/-! ## C23: the class field sits where a class pointer has its bits -/

theorem and_shifted_mask_at (b n k : Nat) :
    b &&& ((2 ^ n - 1) <<< k) = ((b >>> k) % 2 ^ n) <<< k := by
  apply Nat.eq_of_testBit_eq
  intro j
  simp only [Nat.testBit_and, Nat.testBit_shiftLeft, Nat.testBit_shiftRight,
    Nat.testBit_mod_two_pow, Nat.testBit_two_pow_sub_one]
  by_cases hj : k ≤ j
  · have h3 : k + (j - k) = j := by omega
    simp [hj, h3, Bool.and_comm]
  · simp [hj]

/-- The bits selected by `ISA_MAGIC_MASK` are the field `magic` and the bit
`indexed`. -/
theorem and_ISA_MAGIC_MASK (a : Arch) (b : Nat) :
    b &&& ISA_MAGIC_MASK a = 2 ^ off_magic a * isa_magic a b + isa_indexed b := by
  have hm : ISA_MAGIC_MASK a = (2 ^ 6 - 1) <<< off_magic a ||| 1 := by cases a <;> decide
  have hk : 1 ≤ off_magic a := by cases a <;> decide
  have hi : isa_indexed b < 2 ^ off_magic a := by
    have h1 : isa_indexed b < 2 := by
      simp only [isa_indexed, getField, off_indexed]; omega
    have h2 : 2 ^ 1 ≤ 2 ^ off_magic a := Nat.pow_le_pow_right (by decide) hk
    omega
  rw [hm, Nat.and_or_distrib_left, and_shifted_mask_at, Nat.and_one_is_mod,
    Nat.mul_add_lt_is_or hi]
  simp only [isa_magic, isa_indexed, getField, off_indexed, Nat.shiftLeft_eq,
    Nat.shiftRight_eq_div_pow, Nat.pow_zero, Nat.div_one, Nat.pow_one, Nat.mul_comm]

/-- A 64-bit value with no bit outside `ISA_MASK` is unchanged by the mask. -/
theorem and_ISA_MASK_of_not (a : Arch) (c : Nat) (hc : c < WORD)
    (h : c &&& (WORD - 1 - ISA_MASK a) = 0) : c &&& ISA_MASK a = c := by
  have hall : ISA_MASK a ||| (WORD - 1 - ISA_MASK a) = 2 ^ 64 - 1 := by cases a <;> decide
  have h1 : c &&& (2 ^ 64 - 1) = c := by
    rw [Nat.and_pow_two_sub_one_eq_mod]
    exact Nat.mod_eq_of_lt hc
  rw [← hall, Nat.and_or_distrib_left, h, Nat.or_zero] at h1
  exact h1

/-- C23: for every class pointer `c` that is 8-byte aligned and inside the
address range (`c AND NOT ISA_MASK = 0`), after `initIsa(c, true, hasCxxDtor)`
the accessor `ISA()`, which is `bits AND ISA_MASK`, returns exactly `c`, and
`bits AND ISA_MAGIC_MASK` is `ISA_MAGIC_VALUE`. -/
theorem C23_class_field_is_pointer (cfg : Config) (cls : Class) (hasCxxDtor : Bool)
    (o : objc_object) (hc : cls.addr < WORD)
    (hmask : cls.addr &&& (WORD - 1 - ISA_MASK cfg.arch) = 0) :
    ISA cfg (initIsa cfg cls true hasCxxDtor o) = cls.addr
      ∧ (initIsa cfg cls true hasCxxDtor o).isa &&& ISA_MAGIC_MASK cfg.arch
          = ISA_MAGIC_VALUE cfg.arch := by
  have hd := decode_initIsa cfg cls hasCxxDtor o
  constructor
  · apply ISA_of_shiftcls
    · have h := congrArg IsaFields.shiftcls hd
      exact h
    · exact and_ISA_MASK_of_not _ _ hc hmask
  · have h1 : isa_magic cfg.arch (initIsa cfg cls true hasCxxDtor o).isa
        = isa_magic cfg.arch (ISA_MAGIC_VALUE cfg.arch) := congrArg IsaFields.magic hd
    have h2 : isa_indexed (initIsa cfg cls true hasCxxDtor o).isa
        = isa_indexed (ISA_MAGIC_VALUE cfg.arch) := congrArg IsaFields.indexed hd
    rw [and_ISA_MAGIC_MASK, h1, h2, ← and_ISA_MAGIC_MASK]
    cases cfg.arch <;> decide

theorem C23_class_field_is_pointer_witness :
    (0x00007fff12345678 : Nat) < WORD
      ∧ 0x00007fff12345678 &&& (WORD - 1 - ISA_MASK Arch.x86_64) = 0
      ∧ ISA x86 (initIsa x86 { plainClass with addr := 0x00007fff12345678 } true true blank)
          = 0x00007fff12345678 :=
  ⟨by decide, by decide,
    (C23_class_field_is_pointer x86 { plainClass with addr := 0x00007fff12345678 } true blank
      (by decide) (by decide)).1⟩

/-! ## C24: the borrow is conserved whatever the stores do -/

/-- Without interference the racing form is the sequential one. -/
theorem rootRelease_borrowed_racing_same (cfg : Config) (borrowed oldisa newisa : Nat)
    (o : objc_object) :
    rootRelease_borrowed_racing cfg borrowed oldisa newisa o.isa o.isa o
      = rootRelease_borrowed cfg borrowed oldisa newisa o := by
  simp only [rootRelease_borrowed_racing, rootRelease_borrowed, StoreExclusive,
    StoreReleaseExclusive, LoadExclusive]
  by_cases h : o.isa = oldisa <;> simp [h]

theorem addc_many (a : Arch) (b k : Nat) (hb : b < WORD) (hk : k < 2 ^ extra_rc_width a)
    (hc : (addc b (RC_ONE a * k % WORD) 0).2 = 0) :
    isa_extra_rc a (addc b (RC_ONE a * k % WORD) 0).1 = isa_extra_rc a b + k := by
  cases a <;>
    simp only [addc, WORD, RC_ONE, isa_extra_rc, getField, off_extra_rc, shiftcls_width,
      extra_rc_width] at hb hk hc ⊢ <;>
    split at hc <;> omega

theorem get_unlock (o : objc_object) :
    sidetable_getExtraRC_nolock (sidetable_unlock o) = sidetable_getExtraRC_nolock o := rfl

theorem get_with_isa (o : objc_object) (v : Nat) :
    sidetable_getExtraRC_nolock { o with isa := v } = sidetable_getExtraRC_nolock o := rfl

theorem add_isa (d : Nat) (o : objc_object) : (sidetable_addExtraRC_nolock d o).isa = o.isa := by
  cases o with
  | mk self isa st tr => cases st <;> simp [sidetable_addExtraRC_nolock]

theorem racing_first (cfg : Config) (b oldisa reread atstore : Nat) (o : objc_object)
    (h : o.isa = oldisa) :
    rootRelease_borrowed_racing cfg b oldisa oldisa reread atstore o
      = Pass.done false
          (sidetable_unlock { o with isa := set_extra_rc cfg.arch oldisa (b - 1) }) := by
  simp [rootRelease_borrowed_racing, StoreExclusive, h]

theorem racing_second (cfg : Config) (b oldisa reread atstore : Nat) (o : objc_object)
    (h : o.isa ≠ oldisa) (hi : isa_indexed reread ≠ 0)
    (hc : (addc reread (RC_ONE cfg.arch * (b - 1) % WORD) 0).2 = 0) (hs : atstore = reread) :
    rootRelease_borrowed_racing cfg b oldisa oldisa reread atstore o
      = Pass.done false
          (sidetable_unlock
            { o with isa := (addc reread (RC_ONE cfg.arch * (b - 1) % WORD) 0).1 }) := by
  simp [rootRelease_borrowed_racing, StoreExclusive, StoreReleaseExclusive, LoadExclusive, h, hi,
    hc, hs]

theorem racing_no_second (cfg : Config) (b oldisa reread atstore : Nat) (o : objc_object)
    (h : o.isa ≠ oldisa)
    (hi : isa_indexed reread = 0 ∨ (addc reread (RC_ONE cfg.arch * (b - 1) % WORD) 0).2 ≠ 0) :
    rootRelease_borrowed_racing cfg b oldisa oldisa reread atstore o
      = Pass.retry true (sidetable_addExtraRC_nolock b { o with isa := reread }) := by
  rcases hi with hi | hi
  · simp [rootRelease_borrowed_racing, StoreExclusive, LoadExclusive, h, hi]
  · by_cases hx : isa_indexed reread = 0
    · simp [rootRelease_borrowed_racing, StoreExclusive, LoadExclusive, h, hx]
    · simp [rootRelease_borrowed_racing, StoreExclusive, LoadExclusive, h, hx, hi]

theorem racing_second_fails (cfg : Config) (b oldisa reread atstore : Nat) (o : objc_object)
    (h : o.isa ≠ oldisa) (hi : isa_indexed reread ≠ 0)
    (hc : (addc reread (RC_ONE cfg.arch * (b - 1) % WORD) 0).2 = 0) (hs : atstore ≠ reread) :
    rootRelease_borrowed_racing cfg b oldisa oldisa reread atstore o
      = Pass.retry true (sidetable_addExtraRC_nolock b { o with isa := atstore }) := by
  simp [rootRelease_borrowed_racing, StoreExclusive, StoreReleaseExclusive, LoadExclusive, h, hi,
    hc, hs]

/-- C24: in the underflow path of `rootRelease`, after a positive amount has
been borrowed from the side table, inline count plus side-table count is
conserved whatever the stores do. If the first store succeeds (the word in
memory is still `oldisa`), or the immediate second attempt on the re-read word
succeeds, the call returns false and the sum is exactly one less than the
inline count in memory at that store plus the side-table count before the
borrow. If the re-read word is not indexed, the add would overflow, or the
second store fails too, the borrowed amount is put back: the side-table count
is what it was before the borrow, the word in memory is not written, and the
call goes back to `retry`. -/
theorem C24_borrow_conserved (cfg : Config) (oldisa reread atstore : Nat) (o : objc_object)
    (hre : reread < WORD) (hold : oldisa < WORD)
    (hunder : (subc oldisa (RC_ONE cfg.arch) 0).2 ≠ 0)
    (hb : 0 < (sidetable_subExtraRC_nolock (RC_HALF cfg.arch) o).1) :
    (o.isa = oldisa →
        ∃ o1, rootRelease_borrowed_racing cfg (sidetable_subExtraRC_nolock (RC_HALF cfg.arch) o).1
              oldisa oldisa reread atstore (sidetable_subExtraRC_nolock (RC_HALF cfg.arch) o).2
            = Pass.done false o1
          ∧ isa_extra_rc cfg.arch o1.isa + sidetable_getExtraRC_nolock o1 + 1
              = isa_extra_rc cfg.arch o.isa + sidetable_getExtraRC_nolock o)
      ∧ (o.isa ≠ oldisa → isa_indexed reread ≠ 0 →
          (addc reread (RC_ONE cfg.arch
            * ((sidetable_subExtraRC_nolock (RC_HALF cfg.arch) o).1 - 1) % WORD) 0).2 = 0 →
          atstore = reread →
        ∃ o1, rootRelease_borrowed_racing cfg (sidetable_subExtraRC_nolock (RC_HALF cfg.arch) o).1
              oldisa oldisa reread atstore (sidetable_subExtraRC_nolock (RC_HALF cfg.arch) o).2
            = Pass.done false o1
          ∧ isa_extra_rc cfg.arch o1.isa + sidetable_getExtraRC_nolock o1 + 1
              = isa_extra_rc cfg.arch atstore + sidetable_getExtraRC_nolock o)
      ∧ (o.isa ≠ oldisa →
          (isa_indexed reread = 0
            ∨ (addc reread (RC_ONE cfg.arch
                * ((sidetable_subExtraRC_nolock (RC_HALF cfg.arch) o).1 - 1) % WORD) 0).2 ≠ 0) →
        ∃ o1, rootRelease_borrowed_racing cfg (sidetable_subExtraRC_nolock (RC_HALF cfg.arch) o).1
              oldisa oldisa reread atstore (sidetable_subExtraRC_nolock (RC_HALF cfg.arch) o).2
            = Pass.retry true o1
          ∧ o1.isa = reread
          ∧ sidetable_getExtraRC_nolock o1 = sidetable_getExtraRC_nolock o)
      ∧ (o.isa ≠ oldisa → isa_indexed reread ≠ 0 →
          (addc reread (RC_ONE cfg.arch
            * ((sidetable_subExtraRC_nolock (RC_HALF cfg.arch) o).1 - 1) % WORD) 0).2 = 0 →
          atstore ≠ reread →
        ∃ o1, rootRelease_borrowed_racing cfg (sidetable_subExtraRC_nolock (RC_HALF cfg.arch) o).1
              oldisa oldisa reread atstore (sidetable_subExtraRC_nolock (RC_HALF cfg.arch) o).2
            = Pass.retry true o1
          ∧ o1.isa = atstore
          ∧ sidetable_getExtraRC_nolock o1 = sidetable_getExtraRC_nolock o) := by
  have hfst := sub_fst (RC_HALF cfg.arch) o
  have hget := sub_get (RC_HALF cfg.arch) o
  obtain ⟨_, hisa, _⟩ := sub_frame (RC_HALF cfg.arch) o
  have hhalf := rc_half_double cfg.arch
  have hzero : isa_extra_rc cfg.arch oldisa = 0 := by
    by_contra hne
    exact hunder ((subc_borrow_iff cfg.arch oldisa hold).mpr hne)
  generalize (sidetable_subExtraRC_nolock (RC_HALF cfg.arch) o).1 = b at *
  generalize (sidetable_subExtraRC_nolock (RC_HALF cfg.arch) o).2 = o2 at *
  have hb1 : b ≤ RC_HALF cfg.arch := by rw [hfst]; exact Nat.min_le_left _ _
  have hb2 : b ≤ sidetable_getExtraRC_nolock o := by rw [hfst]; exact Nat.min_le_right _ _
  have hget2 : sidetable_getExtraRC_nolock o2 = sidetable_getExtraRC_nolock o - b := by
    rw [hget, hfst]
  have hk : b - 1 < 2 ^ extra_rc_width cfg.arch := by omega
  refine ⟨?_, ?_, ?_, ?_⟩
  · intro h
    refine ⟨_, racing_first cfg b oldisa reread atstore o2 (hisa.trans h), ?_⟩
    have he : isa_extra_rc cfg.arch (set_extra_rc cfg.arch oldisa (b - 1)) = b - 1 := by
      have hd := congrArg IsaFields.extra_rc (decode_set_extra_rc cfg.arch oldisa (b - 1))
      simp only [decode] at hd
      rw [hd, Nat.mod_eq_of_lt hk]
    show isa_extra_rc cfg.arch (set_extra_rc cfg.arch oldisa (b - 1))
      + sidetable_getExtraRC_nolock o2 + 1 = _
    rw [he, hget2, h, hzero]
    omega
  · intro h hi hc hs
    refine ⟨_, racing_second cfg b oldisa reread atstore o2 (by rw [hisa]; exact h) hi hc hs, ?_⟩
    show isa_extra_rc cfg.arch (addc reread (RC_ONE cfg.arch * (b - 1) % WORD) 0).1
      + sidetable_getExtraRC_nolock o2 + 1 = _
    rw [addc_many cfg.arch reread (b - 1) hre hk hc, hget2, hs]
    omega
  · intro h hi
    refine ⟨_, racing_no_second cfg b oldisa reread atstore o2 (by rw [hisa]; exact h) hi, ?_, ?_⟩
    · rw [add_isa]
    · rw [add_get]
      show sidetable_getExtraRC_nolock o2 + b = _
      omega
  · intro h hi hc hs
    refine ⟨_, racing_second_fails cfg b oldisa reread atstore o2 (by rw [hisa]; exact h) hi hc hs,
      ?_, ?_⟩
    · rw [add_isa]
    · rw [add_get]
      show sidetable_getExtraRC_nolock o2 + b = _
      omega

theorem C24_borrow_conserved_witness :
    (sample x86 0 1 0 (some 200)).isa < WORD
      ∧ (subc (sample x86 0 1 0 (some 200)).isa (RC_ONE x86.arch) 0).2 ≠ 0
      ∧ 0 < (sidetable_subExtraRC_nolock (RC_HALF x86.arch) (sample x86 0 1 0 (some 200))).1
      ∧ ∃ o1, rootRelease_borrowed_racing x86
              (sidetable_subExtraRC_nolock (RC_HALF x86.arch) (sample x86 0 1 0 (some 200))).1
              (sample x86 0 1 0 (some 200)).isa (sample x86 0 1 0 (some 200)).isa
              (sample x86 0 1 0 (some 200)).isa (sample x86 0 1 0 (some 200)).isa
              (sidetable_subExtraRC_nolock (RC_HALF x86.arch) (sample x86 0 1 0 (some 200))).2
            = Pass.done false o1
          ∧ isa_extra_rc x86.arch o1.isa + sidetable_getExtraRC_nolock o1 + 1
              = isa_extra_rc x86.arch (sample x86 0 1 0 (some 200)).isa
                + sidetable_getExtraRC_nolock (sample x86 0 1 0 (some 200)) :=
  ⟨by decide, by decide, by decide,
    (C24_borrow_conserved x86 (sample x86 0 1 0 (some 200)).isa
      (sample x86 0 1 0 (some 200)).isa (sample x86 0 1 0 (some 200)).isa
      (sample x86 0 1 0 (some 200)) (by decide) (by decide) (by decide) (by decide)).1 rfl⟩

/-! ## C25: which objects are freed directly -/

theorem clearDeallocating_by_path (cfg : Config) (raw : Nat → World → World) (this : Nat)
    (w : World) :
    clearDeallocating cfg raw this w
      = match clearDeallocating_path cfg (w.objects this) with
        | ClearPath.sidetable => raw this w
        | ClearPath.slow => clearDeallocating_slow cfg this w
        | ClearPath.nothing => w := by
  unfold clearDeallocating clearDeallocating_path
  split
  · rfl
  · split <;> rfl

/-- C25: for every non-tagged object, `rootDealloc` frees the memory directly
if and only if the isa is indexed and `weakly_referenced`, `has_assoc`,
`has_cxx_dtor` and `has_sidetable_rc` are all clear, and goes through
`object_dispose` in every other case, in particular whenever the object is
weakly referenced or has side-table count. `clearDeallocating` takes its slow
path exactly when the isa is indexed and `weakly_referenced` or
`has_sidetable_rc` is set: then its result is that of `clearDeallocating_slow`,
and the side-table lock is taken. -/
theorem C25_rootDealloc_fast_path (cfg : Config) (raw : Nat → World → World) (this : Nat)
    (w : World) (o : objc_object) (ho : o = w.objects this)
    (ht : isTaggedPointer cfg o = false) :
    (rootDealloc cfg o = Disposal.freed ↔
        isa_indexed o.isa ≠ 0 ∧ isa_weakly_referenced cfg.arch o.isa = 0
          ∧ isa_has_assoc o.isa = 0 ∧ isa_has_cxx_dtor o.isa = 0
          ∧ isa_has_sidetable_rc cfg.arch o.isa = 0)
      ∧ (rootDealloc cfg o ≠ Disposal.freed → rootDealloc cfg o = Disposal.disposed)
      ∧ (isa_weakly_referenced cfg.arch o.isa ≠ 0 ∨ isa_has_sidetable_rc cfg.arch o.isa ≠ 0 →
          rootDealloc cfg o = Disposal.disposed)
      ∧ (clearDeallocating_path cfg o = ClearPath.slow ↔
          isa_indexed o.isa ≠ 0
            ∧ (isa_weakly_referenced cfg.arch o.isa ≠ 0
              ∨ isa_has_sidetable_rc cfg.arch o.isa ≠ 0))
      ∧ (clearDeallocating_path cfg o = ClearPath.slow →
          clearDeallocating cfg raw this w = clearDeallocating_slow cfg this w
            ∧ ((clearDeallocating cfg raw this w).objects this).trace
                = o.trace ++ [Event.lock, Event.unlock])
      ∧ (clearDeallocating_path cfg o = ClearPath.nothing →
          clearDeallocating cfg raw this w = w) := by
  refine ⟨?_, ?_, ?_, ?_, ?_, ?_⟩
  · unfold rootDealloc
    rw [ht]
    simp only [Bool.false_eq_true, if_false]
    split
    · rename_i h; simp [h]
    · rename_i h; simp [h]
  · unfold rootDealloc
    rw [ht]
    simp only [Bool.false_eq_true, if_false]
    split
    · intro h; exact absurd rfl h
    · intro _; rfl
  · intro h
    unfold rootDealloc
    rw [ht]
    simp only [Bool.false_eq_true, if_false]
    split
    · rename_i h1
      rcases h with h | h
      · exact absurd h1.2.1 h
      · exact absurd h1.2.2.2.2 h
    · rfl
  · unfold clearDeallocating_path
    split
    · rename_i h; simp [h]
    · rename_i h
      split
      · rename_i h2; simp [h, h2]
      · rename_i h2; simp [h2]
  · intro hp
    have hq : clearDeallocating cfg raw this w = clearDeallocating_slow cfg this w := by
      rw [clearDeallocating_by_path, ← ho, hp]
    refine ⟨hq, ?_⟩
    rw [hq, ho]
    simp only [clearDeallocating_slow, Function.update_same, sidetable_unlock, sidetable_lock]
    split <;> simp
  · intro hp
    rw [clearDeallocating_by_path, ← ho, hp]

theorem C25_rootDealloc_fast_path_witness :
    isTaggedPointer x86 (weakWorld.objects 0x1000) = false
      ∧ rootDealloc x86 (weakWorld.objects 0x1000) = Disposal.disposed
      ∧ clearDeallocating_path x86 (weakWorld.objects 0x1000) = ClearPath.slow :=
  have h := C25_rootDealloc_fast_path x86 (fun _ w => w) 0x1000 weakWorld
    (weakWorld.objects 0x1000) rfl (by decide)
  ⟨by decide, h.2.2.1 (Or.inl (by decide)), h.2.2.2.1.mpr ⟨by decide, Or.inl (by decide)⟩⟩

/-! ## C26: `clearFlags` -/

/-- Bit by bit, `clearFlags` flips the bits of `clear`: bit `j` of the new flags
word is set exactly when it was set in one of `flags` and `clear` and not in
the other. -/
theorem clearFlags_testBit (flags clear j : Nat) :
    (class_rw_t.clearFlags flags clear).testBit j
      = (decide (j < 32) && (flags.testBit j != clear.testBit j)) := by
  simp only [class_rw_t.clearFlags, Nat.testBit_mod_two_pow, Nat.testBit_xor]

/-- A bit of `clear` that was set in `flags` is cleared by `clearFlags`. -/
theorem clearFlags_of_set (flags clear j : Nat) (hc : clear.testBit j = true)
    (hf : flags.testBit j = true) :
    (class_rw_t.clearFlags flags clear).testBit j = false := by
  rw [clearFlags_testBit, hc, hf]; simp

/-- A bit of `clear` that was not set in `flags` is set by `clearFlags`. -/
theorem clearFlags_of_unset (flags clear j : Nat) (hj : j < 32) (hc : clear.testBit j = true)
    (hf : flags.testBit j = false) :
    (class_rw_t.clearFlags flags clear).testBit j = true := by
  rw [clearFlags_testBit, hc, hf]; simp [hj]

/-- C26: on the flags word of a realized class, `RW_REALIZED` only, with
`clear = RW_INITIALIZING`, a bit that is not set beforehand, `clearFlags` (and
`clearInfo`, which calls it) returns `0x90000000`: the bit of `clear` is set
afterwards and `flags AND clear` is not zero, while `changeFlags(0, clear)` on
the same word leaves the bit clear. The same happens in `setHasCustomAWZ`,
which calls `clearFlags(RW_HAS_DEFAULT_AWZ)`: on a class without the bit,
`hasDefaultAWZ` is true afterwards. -/
theorem C26_clearFlags_sets_unset_bit :
    class_rw_t.clearFlags RW_REALIZED RW_INITIALIZING = 0x90000000
      ∧ objc_class.clearInfo RW_REALIZED RW_INITIALIZING = 0x90000000
      ∧ class_rw_t.clearFlags RW_REALIZED RW_INITIALIZING &&& RW_INITIALIZING ≠ 0
      ∧ class_rw_t.changeFlags RW_REALIZED 0 RW_INITIALIZING = RW_REALIZED
      ∧ class_rw_t.changeFlags RW_REALIZED 0 RW_INITIALIZING &&& RW_INITIALIZING = 0
      ∧ objc_class.hasDefaultAWZ RW_REALIZED = false
      ∧ objc_class.hasDefaultAWZ (objc_class.setHasCustomAWZ RW_REALIZED) = true := by
  refine ⟨?_, ?_, ?_, ?_, ?_, ?_, ?_⟩ <;> decide

/-! ## C27: `attachLists` puts the added lists in front -/

theorem count_foldl (count_of : Nat → Nat) (lists : List Nat) (acc : Nat) :
    lists.foldl (fun result list => (result + count_of list % 2 ^ 32) % 2 ^ 32) (acc % 2 ^ 32)
      = (acc + (lists.map count_of).sum) % 2 ^ 32 := by
  induction lists generalizing acc with
  | nil => simp
  | cons x xs ih =>
    simp only [List.foldl_cons, List.map_cons, List.sum_cons]
    rw [ih (acc % 2 ^ 32 + count_of x % 2 ^ 32)]
    omega

/-- The method `count()` is the sum of the `count` words of the iterated lists,
in `uint32_t`. -/
theorem count_eq_sum (count_of : Nat → Nat) (s : list_array_tt) :
    s.count count_of = ((s.iterated.map count_of).sum) % 2 ^ 32 := by
  have h := count_foldl count_of s.iterated 0
  simp only [Nat.zero_mod, Nat.zero_add] at h
  exact h

/-- With the array as long as its `count`, `countLists()` is the number of
iterated lists. -/
theorem countLists_eq_length (s : list_array_tt)
    (hwf : ∀ a, s = list_array_tt.many a → a.count ≤ a.lists.length) :
    s.countLists = s.iterated.length := by
  cases s with
  | single list =>
    simp only [list_array_tt.countLists, list_array_tt.iterated]
    split <;> rfl
  | many a =>
    have h := hwf a rfl
    simp only [list_array_tt.countLists, list_array_tt.iterated, List.length_take]
    omega

theorem attachLists_iterated (s : list_array_tt) (A : List Nat) (n : Nat)
    (hwf : ∀ a, s = list_array_tt.many a → a.count ≤ a.lists.length)
    (hn : 1 ≤ n) (hA : A.length = n) (hnn : ∀ l ∈ A, l ≠ 0)
    (hfit : s.countLists + n < 2 ^ 32) :
    (s.attachLists A n).iterated = A ++ s.iterated
      ∧ (s.attachLists A n).countLists = s.countLists + n := by
  have hn0 : n ≠ 0 := by omega
  have htake : A.take n = A := by rw [← hA]; exact List.take_length A
  cases s with
  | many a =>
    have h := hwf a rfl
    simp only [list_array_tt.countLists] at hfit
    simp only [list_array_tt.attachLists, hn0, if_false, list_array_tt.iterated,
      list_array_tt.countLists, htake, Nat.mod_eq_of_lt hfit]
    constructor
    · apply List.take_of_length_le
      simp only [List.length_append, List.length_take, hA]
      omega
    · trivial
  | single list =>
    simp only [list_array_tt.countLists] at hfit
    by_cases h0 : list = 0
    · subst h0
      by_cases h1 : n = 1
      · subst h1
        cases A with
        | nil => simp at hA
        | cons x xs =>
          have hxs : xs = [] := by
            cases xs with
            | nil => rfl
            | cons y ys => simp at hA
          subst hxs
          have hx : x ≠ 0 := hnn x (List.mem_singleton.mpr rfl)
          simp [list_array_tt.attachLists, list_array_tt.iterated, list_array_tt.countLists, hx]
      · simp only [ne_eq, not_true_eq_false, if_false, Nat.zero_add] at hfit
        simp only [list_array_tt.attachLists, hn0, if_false, h1, and_false, ne_eq,
          not_true_eq_false, Nat.zero_add, list_array_tt.iterated, list_array_tt.countLists,
          htake, Nat.mod_eq_of_lt hfit, List.append_nil]
        exact ⟨trivial, trivial⟩
    · simp only [ne_eq, h0, not_false_eq_true, if_true] at hfit
      simp only [list_array_tt.attachLists, hn0, if_false, h0, false_and, ne_eq,
        not_false_eq_true, if_true, list_array_tt.iterated, list_array_tt.countLists,
        htake, Nat.mod_eq_of_lt hfit]
      constructor
      · apply List.take_of_length_le
        simp only [List.length_append, List.length_singleton]
        omega
      · trivial

/-- C27: for every `list_array_tt` that holds the lists `L` (empty, a single
list, or an array with a slot for each of its `count` lists) and every array
`A` of `n >= 1` non-null lists, with fewer than 2^32 lists in all, after
`attachLists(A, n)` the lists iterated from `beginLists()` to `endLists()` are
`A` in order followed by `L` in order, `countLists()` is `|L| + n`, and
`count()` is the sum of the element counts of all of them (in `uint32_t`);
`attachLists` with `n = 0` changes nothing. -/
theorem C27_attachLists (count_of : Nat → Nat) (s : list_array_tt) (A : List Nat) (n : Nat)
    (hwf : ∀ a, s = list_array_tt.many a → a.count ≤ a.lists.length)
    (hn : 1 ≤ n) (hA : A.length = n) (hnn : ∀ l ∈ A, l ≠ 0)
    (hfit : s.iterated.length + n < 2 ^ 32) :
    (s.attachLists A n).iterated = A ++ s.iterated
      ∧ (s.attachLists A n).countLists = s.iterated.length + n
      ∧ (s.attachLists A n).count count_of
          = ((A.map count_of).sum + (s.iterated.map count_of).sum) % 2 ^ 32
      ∧ ((A.map count_of).sum + (s.iterated.map count_of).sum < 2 ^ 32 →
          (s.attachLists A n).count count_of
            = (A.map count_of).sum + (s.iterated.map count_of).sum)
      ∧ s.attachLists A 0 = s
      ∧ s.attachLists [] 0 = s := by
  have hlen := countLists_eq_length s hwf
  rw [← hlen] at hfit
  obtain ⟨h1, h2⟩ := attachLists_iterated s A n hwf hn hA hnn hfit
  have hc : (s.attachLists A n).count count_of
      = ((A.map count_of).sum + (s.iterated.map count_of).sum) % 2 ^ 32 := by
    rw [count_eq_sum, h1, List.map_append, List.sum_append]
  refine ⟨h1, ?_, hc, ?_, ?_, ?_⟩
  · rw [h2, hlen]
  · intro hs
    rw [hc, Nat.mod_eq_of_lt hs]
  · simp [list_array_tt.attachLists]
  · simp [list_array_tt.attachLists]

theorem C27_attachLists_witness :
    (list_array_tt.attachLists (list_array_tt.many ⟨2, [0x300, 0x400]⟩) [0x100, 0x200] 2).iterated
        = [0x100, 0x200, 0x300, 0x400]
      ∧ (list_array_tt.attachLists (list_array_tt.single 0x300) [0x100, 0x200] 2).iterated
        = [0x100, 0x200, 0x300]
      ∧ (list_array_tt.attachLists (list_array_tt.single 0) [0x100] 1).iterated = [0x100]
      ∧ (list_array_tt.attachLists (list_array_tt.many ⟨2, [0x300, 0x400]⟩)
          [0x100, 0x200] 2).count (fun l => l / 0x100) = 10 :=
  have h := C27_attachLists (fun l => l / 0x100) (list_array_tt.many ⟨2, [0x300, 0x400]⟩)
    [0x100, 0x200] 2 (by intro a ha; cases ha; decide) (by decide) (by decide) (by decide)
    (by decide)
  ⟨h.1, by decide, by decide, h.2.2.2.1 (by decide)⟩

/-! ## C28: the traversal of the class tree -/

theorem climb_mono (g : ClassLinks) (top : Nat) :
    ∀ (f c r : Nat), climb g top f c = some r → climb g top (f + 1) c = some r := by
  intro f
  induction f with
  | zero => intro c r h; simp [climb] at h
  | succ f ih =>
    intro c r h
    rw [climb] at h ⊢
    split
    · rename_i hc
      rw [if_pos hc] at h
      exact ih _ _ h
    · rename_i hc
      rw [if_neg hc] at h
      exact h

theorem foreach_loop_mono (g : ClassLinks) (code : Nat → Bool) (top : Nat) :
    ∀ (f c : Nat) (v r : List Nat),
      foreach_loop g code top f c v = some r → foreach_loop g code top (f + 1) c v = some r := by
  intro f
  induction f with
  | zero => intro c v r h; simp [foreach_loop] at h
  | succ f ih =>
    intro c v r h
    rw [foreach_loop] at h ⊢
    by_cases hcode : code c = true
    · simp only [hcode, Bool.not_true, Bool.false_eq_true, if_false] at h ⊢
      by_cases hfirst : g.firstSubclass c ≠ 0
      · rw [if_pos hfirst] at h ⊢
        exact ih _ _ _ h
      · rw [if_neg hfirst] at h ⊢
        cases hcl : climb g top (f + 1) c with
        | none => rw [hcl] at h; simp at h
        | some c1 =>
          rw [hcl] at h
          rw [climb_mono g top _ _ _ hcl]
          simp only at h ⊢
          by_cases htop : c1 = top
          · rw [if_pos htop] at h ⊢; exact h
          · rw [if_neg htop] at h ⊢; exact ih _ _ _ h
    · have hf : code c = false := by simpa using hcode
      simp only [hf, Bool.not_false, if_true] at h ⊢
      exact h

theorem foreach_loop_mono_le (g : ClassLinks) (code : Nat → Bool) (top : Nat)
    (f f1 c : Nat) (v r : List Nat) (hle : f ≤ f1)
    (h : foreach_loop g code top f c v = some r) : foreach_loop g code top f1 c v = some r := by
  induction hle with
  | refl => exact h
  | step _ ih => exact foreach_loop_mono g code top _ _ _ _ ih

/-- At a class without subclasses on which `code` returns true, the loop goes
on as `foreach_leave` says. -/
theorem foreach_loop_leaf (g : ClassLinks) (code : Nat → Bool) (top f c : Nat) (v : List Nat)
    (hcode : code c = true) (hfirst : g.firstSubclass c = 0) :
    foreach_loop g code top (f + 1) c v = foreach_leave g code top f c (v ++ [c]) := by
  rw [foreach_loop, foreach_leave]
  simp only [hcode, Bool.not_true, Bool.false_eq_true, if_false, hfirst, ne_eq,
    not_true_eq_false]

/-- At a class with subclasses on which `code` returns true, the loop goes to
the first subclass. -/
theorem foreach_loop_down (g : ClassLinks) (code : Nat → Bool) (top f c : Nat) (v : List Nat)
    (hcode : code c = true) (hfirst : g.firstSubclass c ≠ 0) :
    foreach_loop g code top (f + 1) c v
      = foreach_loop g code top f (g.firstSubclass c) (v ++ [c]) := by
  rw [foreach_loop]
  simp only [hcode, Bool.not_true, Bool.false_eq_true, if_false, hfirst, ne_eq,
    not_false_eq_true, if_true]

/-- Where `code` returns false the loop is left at once. -/
theorem foreach_loop_stop (g : ClassLinks) (code : Nat → Bool) (top f c : Nat) (v : List Nat)
    (hcode : code c = false) :
    foreach_loop g code top (f + 1) c v = some (v ++ [c]) := by
  rw [foreach_loop]
  simp only [hcode, Bool.not_false, if_true]

/-- Leaving a class that has a next sibling continues at that sibling. -/
theorem foreach_leave_sibling (g : ClassLinks) (code : Nat → Bool) (top f c : Nat)
    (v : List Nat) (hnext : g.nextSiblingClass c ≠ 0) (htop : c ≠ top) :
    foreach_leave g code top f c v = foreach_loop g code top f (g.nextSiblingClass c) v := by
  rw [foreach_leave, climb]
  simp only [hnext, false_and, if_false, htop]

/-- Leaving a last sibling is leaving its superclass. -/
theorem foreach_leave_up (g : ClassLinks) (code : Nat → Bool) (top f c : Nat)
    (v r : List Nat) (hnext : g.nextSiblingClass c = 0) (htop : c ≠ top)
    (h : foreach_leave g code top f (g.superclass c) v = some r) :
    foreach_leave g code top (f + 1) c v = some r := by
  rw [foreach_leave] at h ⊢
  rw [climb]
  simp only [hnext, htop, ne_eq, not_false_eq_true, and_self, if_true]
  cases hcl : climb g top (f + 1) (g.superclass c) with
  | none => rw [hcl] at h; simp at h
  | some c1 =>
    rw [hcl] at h
    simp only at h ⊢
    by_cases h1 : c1 = top
    · rw [if_pos h1] at h ⊢; exact h
    · rw [if_neg h1] at h ⊢; exact foreach_loop_mono g code top _ _ _ _ h

/-- Leaving `top` ends the loop. -/
theorem foreach_leave_top (g : ClassLinks) (code : Nat → Bool) (top f : Nat) (v : List Nat) :
    foreach_leave g code top f top v = some v := by
  rw [foreach_leave, climb]
  simp

theorem forest_head_ne_zero (g : ClassLinks) (p : Nat) (F : Forest) (hl : Forest.linked g p F)
    (hne : F ≠ Forest.none) : F.head ≠ 0 := by
  cases F with
  | none => exact absurd rfl hne
  | node x K S =>
    simp only [Forest.linked] at hl
    exact hl.1

/-- Walking a forest on which `code` returns true throughout: the loop started
at the first class visits the classes of the forest in order and then leaves
the superclass. -/
theorem walk_forest (g : ClassLinks) (code : Nat → Bool) (top : Nat) :
    ∀ (F : Forest) (p : Nat), Forest.linked g p F → F ≠ Forest.none →
      (∀ c ∈ F.classes, c ≠ top) → (∀ c ∈ F.classes, code c = true) →
      ∀ (visited r : List Nat) (fe : Nat),
        foreach_leave g code top fe p (visited ++ F.classes) = some r →
        ∃ f, foreach_loop g code top f F.head visited = some r := by
  intro F
  induction F with
  | none => intro p _ hne; exact absurd rfl hne
  | node x K S ihK ihS =>
    intro p hl _ htop hcode visited r fe hleave
    simp only [Forest.linked] at hl
    obtain ⟨_, hsup, hfirst, hnext, hlK, hlS⟩ := hl
    simp only [Forest.classes] at htop hcode hleave
    have hxtop : x ≠ top := htop x (List.mem_cons_self _ _)
    have hcx : code x = true := hcode x (List.mem_cons_self _ _)
    have htopK : ∀ c ∈ K.classes, c ≠ top := fun c hc =>
      htop c (List.mem_cons_of_mem _ (List.mem_append_left _ hc))
    have htopS : ∀ c ∈ S.classes, c ≠ top := fun c hc =>
      htop c (List.mem_cons_of_mem _ (List.mem_append_right _ hc))
    have hcodeK : ∀ c ∈ K.classes, code c = true := fun c hc =>
      hcode c (List.mem_cons_of_mem _ (List.mem_append_left _ hc))
    have hcodeS : ∀ c ∈ S.classes, code c = true := fun c hc =>
      hcode c (List.mem_cons_of_mem _ (List.mem_append_right _ hc))
    -- after `x` and its subclasses: on to the siblings, or up
    have hx : ∃ fe1, foreach_leave g code top fe1 x (visited ++ x :: K.classes) = some r := by
      by_cases hS : S = Forest.none
      · subst hS
        simp only [Forest.head] at hnext
        simp only [Forest.classes, List.append_nil] at hleave
        refine ⟨fe + 1, foreach_leave_up g code top fe x _ r hnext hxtop ?_⟩
        rw [hsup]; exact hleave
      · have hh := forest_head_ne_zero g p S hlS hS
        have hassoc : visited ++ x :: (K.classes ++ S.classes)
            = (visited ++ x :: K.classes) ++ S.classes := by simp
        rw [hassoc] at hleave
        obtain ⟨f1, hf1⟩ := ihS p hlS hS htopS hcodeS _ r fe hleave
        refine ⟨f1, ?_⟩
        rw [foreach_leave_sibling g code top f1 x _ (by rw [hnext]; exact hh) hxtop, hnext]
        exact hf1
    obtain ⟨fe1, hfe1⟩ := hx
    show ∃ f, foreach_loop g code top f x visited = some r
    by_cases hK : K = Forest.none
    · subst hK
      simp only [Forest.head] at hfirst
      simp only [Forest.classes] at hfe1
      exact ⟨fe1 + 1, by rw [foreach_loop_leaf g code top fe1 x visited hcx hfirst]; exact hfe1⟩
    · have hh := forest_head_ne_zero g x K hlK hK
      have hassoc : visited ++ x :: K.classes = (visited ++ [x]) ++ K.classes := by simp
      rw [hassoc] at hfe1
      obtain ⟨f, hf⟩ := ihK x hlK hK htopK hcodeK _ r fe1 hfe1
      refine ⟨f + 1, ?_⟩
      rw [foreach_loop_down g code top f x visited hcx (by rw [hfirst]; exact hh), hfirst]
      exact hf

/-- One class with its subclasses, `code` true on all of them: the loop started
at the class visits them in order and then leaves the class. -/
theorem walk_node (g : ClassLinks) (code : Nat → Bool) (top x : Nat) (K : Forest)
    (hfirst : g.firstSubclass x = K.head) (hlK : Forest.linked g x K)
    (htopK : ∀ c ∈ K.classes, c ≠ top) (hcx : code x = true)
    (hcodeK : ∀ c ∈ K.classes, code c = true) (visited r : List Nat) (fe : Nat)
    (hleave : foreach_leave g code top fe x (visited ++ x :: K.classes) = some r) :
    ∃ f, foreach_loop g code top f x visited = some r := by
  by_cases hK : K = Forest.none
  · subst hK
    simp only [Forest.head] at hfirst
    simp only [Forest.classes] at hleave
    exact ⟨fe + 1, by rw [foreach_loop_leaf g code top fe x visited hcx hfirst]; exact hleave⟩
  · have hh := forest_head_ne_zero g x K hlK hK
    have hassoc : visited ++ x :: K.classes = (visited ++ [x]) ++ K.classes := by simp
    rw [hassoc] at hleave
    obtain ⟨f, hf⟩ := walk_forest g code top K x hlK hK htopK hcodeK _ r fe hleave
    refine ⟨f + 1, ?_⟩
    rw [foreach_loop_down g code top f x visited hcx (by rw [hfirst]; exact hh), hfirst]
    exact hf

theorem visitedUntil_all (code : Nat → Bool) (l : List Nat) (h : ∀ c ∈ l, code c = true) :
    visitedUntil code l = l := by
  induction l with
  | nil => rfl
  | cons c rest ih =>
    simp only [visitedUntil, h c (List.mem_cons_self _ _), if_true]
    rw [ih (fun d hd => h d (List.mem_cons_of_mem _ hd))]

theorem visitedUntil_append_all (code : Nat → Bool) (l m : List Nat)
    (h : ∀ c ∈ l, code c = true) :
    visitedUntil code (l ++ m) = l ++ visitedUntil code m := by
  induction l with
  | nil => rfl
  | cons c rest ih =>
    simp only [List.cons_append, visitedUntil, h c (List.mem_cons_self _ _), if_true]
    exact congrArg (List.cons c) (ih (fun d hd => h d (List.mem_cons_of_mem _ hd)))

theorem visitedUntil_append_stop (code : Nat → Bool) (l m : List Nat)
    (h : ∃ c ∈ l, code c = false) :
    visitedUntil code (l ++ m) = visitedUntil code l := by
  induction l with
  | nil => obtain ⟨c, hc, _⟩ := h; simp at hc
  | cons c rest ih =>
    simp only [List.cons_append, visitedUntil]
    by_cases hc : code c = true
    · simp only [hc, if_true]
      obtain ⟨d, hd, hfd⟩ := h
      rcases List.mem_cons.mp hd with h1 | h1
      · subst h1; rw [hc] at hfd; simp at hfd
      · exact congrArg (List.cons c) (ih ⟨d, h1, hfd⟩)
    · simp only [hc, Bool.false_eq_true, if_false]

/-- Walking a forest in which `code` returns false somewhere: the loop started
at the first class visits the classes in order up to the first such class and
is left there. -/
theorem walk_forest_stop (g : ClassLinks) (code : Nat → Bool) (top : Nat) :
    ∀ (F : Forest) (p : Nat), Forest.linked g p F →
      (∀ c ∈ F.classes, c ≠ top) → (∃ c ∈ F.classes, code c = false) →
      ∀ (visited : List Nat),
        ∃ f, foreach_loop g code top f F.head visited
          = some (visited ++ visitedUntil code F.classes) := by
  intro F
  induction F with
  | none => intro p _ _ hex; obtain ⟨c, hc, _⟩ := hex; simp [Forest.classes] at hc
  | node x K S ihK ihS =>
    intro p hl htop hex visited
    simp only [Forest.linked] at hl
    obtain ⟨_, hsup, hfirst, hnext, hlK, hlS⟩ := hl
    simp only [Forest.classes] at htop hex ⊢
    have hxtop : x ≠ top := htop x (List.mem_cons_self _ _)
    have htopK : ∀ c ∈ K.classes, c ≠ top := fun c hc =>
      htop c (List.mem_cons_of_mem _ (List.mem_append_left _ hc))
    have htopS : ∀ c ∈ S.classes, c ≠ top := fun c hc =>
      htop c (List.mem_cons_of_mem _ (List.mem_append_right _ hc))
    show ∃ f, foreach_loop g code top f x visited = _
    by_cases hcx : code x = true
    · simp only [visitedUntil, hcx, if_true]
      by_cases hK : ∃ c ∈ K.classes, code c = false
      · have hKne : K ≠ Forest.none := by
          intro h0; subst h0
          obtain ⟨c, hc, _⟩ := hK
          simp [Forest.classes] at hc
        have hh := forest_head_ne_zero g x K hlK hKne
        obtain ⟨f, hf⟩ := ihK x hlK htopK hK (visited ++ [x])
        refine ⟨f + 1, ?_⟩
        rw [foreach_loop_down g code top f x visited hcx (by rw [hfirst]; exact hh), hfirst, hf,
          visitedUntil_append_stop code _ _ hK]
        simp
      · have hcodeK : ∀ c ∈ K.classes, code c = true := by
          intro c hc
          by_contra hne
          exact hK ⟨c, hc, by simpa using hne⟩
        have hSex : ∃ c ∈ S.classes, code c = false := by
          obtain ⟨c, hc, hfc⟩ := hex
          rcases List.mem_cons.mp hc with h1 | h1
          · subst h1; rw [hcx] at hfc; simp at hfc
          · rcases List.mem_append.mp h1 with h2 | h2
            · rw [hcodeK c h2] at hfc; simp at hfc
            · exact ⟨c, h2, hfc⟩
        have hSne : S ≠ Forest.none := by
          intro h0; subst h0
          obtain ⟨c, hc, _⟩ := hSex
          simp [Forest.classes] at hc
        have hh := forest_head_ne_zero g p S hlS hSne
        obtain ⟨f1, hf1⟩ := ihS p hlS htopS hSex (visited ++ x :: K.classes)
        have hleave : foreach_leave g code top f1 x (visited ++ x :: K.classes)
            = some (visited ++ x :: K.classes ++ visitedUntil code S.classes) := by
          rw [foreach_leave_sibling g code top f1 x _ (by rw [hnext]; exact hh) hxtop, hnext]
          exact hf1
        obtain ⟨f, hf⟩ := walk_node g code top x K hfirst hlK htopK hcx hcodeK visited _ f1 hleave
        refine ⟨f, ?_⟩
        rw [hf, visitedUntil_append_all code _ _ hcodeK]
        simp
    · have hf : code x = false := by simpa using hcx
      refine ⟨1, ?_⟩
      rw [foreach_loop_stop g code top 0 x visited hf]
      simp [visitedUntil, hf]

/-- The whole loop on a well-formed tree: enough fuel gives the classes of the
tree in order, up to the first class on which `code` returns false. -/
theorem foreach_loop_top (g : ClassLinks) (code : Nat → Bool) (top : Nat) (K : Forest)
    (hwf : wellFormedTree g top K) :
    ∃ f, foreach_loop g code top f top []
      = some (visitedUntil code (top :: K.classes)) := by
  obtain ⟨_, hfirst, hlK, hnd⟩ := hwf
  have htopK : ∀ c ∈ K.classes, c ≠ top := by
    intro c hc h
    subst h
    exact (List.nodup_cons.mp hnd).1 hc
  by_cases hct : code top = true
  · by_cases hK : ∃ c ∈ K.classes, code c = false
    · have hKne : K ≠ Forest.none := by
        intro h0; subst h0
        obtain ⟨c, hc, _⟩ := hK
        simp [Forest.classes] at hc
      have hh := forest_head_ne_zero g top K hlK hKne
      obtain ⟨f, hf⟩ := walk_forest_stop g code top K top hlK htopK hK ([] ++ [top])
      refine ⟨f + 1, ?_⟩
      rw [foreach_loop_down g code top f top [] hct (by rw [hfirst]; exact hh), hfirst, hf]
      simp [visitedUntil, hct]
    · have hcodeK : ∀ c ∈ K.classes, code c = true := by
        intro c hc
        by_contra hne
        exact hK ⟨c, hc, by simpa using hne⟩
      have hall : ∀ c ∈ top :: K.classes, code c = true := by
        intro c hc
        rcases List.mem_cons.mp hc with h1 | h1
        · rw [h1]; exact hct
        · exact hcodeK c h1
      rw [visitedUntil_all code _ hall]
      exact walk_node g code top top K hfirst hlK htopK hct hcodeK [] _ 0
        (foreach_leave_top g code top 0 _)
  · have hf : code top = false := by simpa using hct
    refine ⟨1, ?_⟩
    rw [foreach_loop_stop g code top 0 top [] hf]
    simp [visitedUntil, hf]

/-- In the order of a forest every class comes after its superclass, unless
the superclass is the one above the forest. -/
theorem forest_superclass_first (g : ClassLinks) :
    ∀ (F : Forest) (p : Nat), Forest.linked g p F →
      ∀ (pre : List Nat) (c : Nat) (post : List Nat), F.classes = pre ++ c :: post →
        g.superclass c = p ∨ g.superclass c ∈ pre := by
  intro F
  induction F with
  | none => intro p _ pre c post h; simp [Forest.classes] at h
  | node x K S ihK ihS =>
    intro p hl pre c post h
    simp only [Forest.linked] at hl
    obtain ⟨_, hsup, _, _, hlK, hlS⟩ := hl
    simp only [Forest.classes] at h
    cases pre with
    | nil =>
      simp only [List.nil_append, List.cons.injEq] at h
      left
      rw [← h.1]; exact hsup
    | cons y pre1 =>
      simp only [List.cons_append, List.cons.injEq] at h
      obtain ⟨hy, h⟩ := h
      subst hy
      rcases List.append_eq_append_iff.mp h with ⟨a1, h1, h2⟩ | ⟨c1, h1, h2⟩
      · rcases ihS p hlS a1 c post h2 with h3 | h3
        · left; exact h3
        · right
          rw [h1]
          exact List.mem_cons_of_mem _ (List.mem_append_right _ h3)
      · cases c1 with
        | nil =>
          simp only [List.nil_append] at h2
          rcases ihS p hlS [] c post h2.symm with h3 | h3
          · left; exact h3
          · simp at h3
        | cons d c2 =>
          simp only [List.cons_append, List.cons.injEq] at h2
          obtain ⟨hd, _⟩ := h2
          subst hd
          rcases ihK x hlK pre1 c c2 h1 with h3 | h3
          · right; rw [h3]; exact List.mem_cons_self _ _
          · right; exact List.mem_cons_of_mem _ h3

theorem visitedUntil_dropLast (code : Nat → Bool) (l : List Nat) :
    ∀ c ∈ (visitedUntil code l).dropLast, code c = true := by
  induction l with
  | nil => intro c hc; simp [visitedUntil] at hc
  | cons x rest ih =>
    intro c hc
    by_cases hx : code x = true
    · simp only [visitedUntil, hx, if_true] at hc
      cases hv : visitedUntil code rest with
      | nil => rw [hv] at hc; simp at hc
      | cons y ys =>
        rw [hv, List.dropLast_cons₂] at hc
        rcases List.mem_cons.mp hc with h1 | h1
        · rw [h1]; exact hx
        · apply ih
          rw [hv]; exact h1
    · simp [visitedUntil, hx] at hc

/-- C28: for every finite, well-formed class tree (the links `superclass`,
`firstSubclass` and `nextSiblingClass` consistent with a forest of subclasses
below `top`, no class twice), `foreach_realized_class_and_subclass(top, code)`
terminates (enough fuel gives a result, and every result is the same) and
invokes `code` on `top` and the classes below it in order, each exactly once,
each after its superclass, and on no other class;
`foreach_realized_class_and_subclass_2` visits the same classes in the same
order up to and including the first one on which `code` returns false, so
`code` returned true on every class visited before the last. -/
theorem C28_foreach_realized_class (g : ClassLinks) (top : Nat) (K : Forest)
    (hwf : wellFormedTree g top K) :
    (∃ enough, ∀ fuel, enough ≤ fuel →
        foreach_realized_class_and_subclass g fuel top = some (top :: K.classes))
      ∧ (∀ c, (top :: K.classes).count c = if c ∈ top :: K.classes then 1 else 0)
      ∧ (∀ pre c post, top :: K.classes = pre ++ c :: post → c ≠ top →
          g.superclass c ∈ pre)
      ∧ (∀ code, ∃ enough, ∀ fuel, enough ≤ fuel →
          foreach_realized_class_and_subclass_2 g fuel top code
            = some (visitedUntil code (top :: K.classes)))
      ∧ (∀ code fuel r, foreach_realized_class_and_subclass_2 g fuel top code = some r →
          r = visitedUntil code (top :: K.classes) ∧ ∀ c ∈ r.dropLast, code c = true) := by
  have htotal : ∀ code, ∃ enough, ∀ fuel, enough ≤ fuel →
      foreach_realized_class_and_subclass_2 g fuel top code
        = some (visitedUntil code (top :: K.classes)) := by
    intro code
    obtain ⟨f, hf⟩ := foreach_loop_top g code top K hwf
    exact ⟨f, fun fuel hle => foreach_loop_mono_le g code top f fuel top [] _ hle hf⟩
  refine ⟨?_, ?_, ?_, htotal, ?_⟩
  · obtain ⟨f, hf⟩ := htotal (fun _ => true)
    refine ⟨f, fun fuel hle => ?_⟩
    have h := hf fuel hle
    rw [visitedUntil_all _ _ (fun _ _ => rfl)] at h
    exact h
  · intro c
    by_cases hc : c ∈ top :: K.classes
    · rw [if_pos hc]
      exact List.count_eq_one_of_mem hwf.2.2.2 hc
    · rw [if_neg hc]
      exact List.count_eq_zero_of_not_mem hc
  · intro pre c post h hc
    cases pre with
    | nil =>
      simp only [List.nil_append, List.cons.injEq] at h
      exact absurd h.1.symm hc
    | cons y pre1 =>
      simp only [List.cons_append, List.cons.injEq] at h
      obtain ⟨hy, h⟩ := h
      subst hy
      rcases forest_superclass_first g K top hwf.2.2.1 pre1 c post h with h3 | h3
      · rw [h3]; exact List.mem_cons_self _ _
      · exact List.mem_cons_of_mem _ h3
  · intro code fuel r hr
    obtain ⟨f, hf⟩ := htotal code
    have h1 := hf (max f fuel) (Nat.le_max_left _ _)
    have h2 := foreach_loop_mono_le g code top fuel (max f fuel) top [] r (Nat.le_max_right _ _) hr
    have h3 : r = visitedUntil code (top :: K.classes) := by
      have h4 : some r = some (visitedUntil code (top :: K.classes)) := h2.symm.trans h1
      exact Option.some.inj h4
    refine ⟨h3, ?_⟩
    rw [h3]
    exact visitedUntil_dropLast code _

theorem C28_foreach_realized_class_witness :
    wellFormedTree sampleLinks 1 sampleForest
      ∧ foreach_realized_class_and_subclass sampleLinks 10 1 = some [1, 2, 3, 4, 5]
      ∧ foreach_realized_class_and_subclass_2 sampleLinks 10 1 (fun c => c != 3) = some [1, 2, 3]
      ∧ sampleLinks.superclass 4 ∈ [1, 2, 3] :=
  have hwf : wellFormedTree sampleLinks 1 sampleForest := by
    simp [wellFormedTree, Forest.linked, sampleLinks, sampleForest, Forest.head, Forest.classes]
  have h := C28_foreach_realized_class sampleLinks 1 sampleForest hwf
  ⟨hwf, by decide, by decide, h.2.2.1 [1, 2, 3] 4 [5] (by decide) (by decide)⟩

/-! ## C29: `indexOfMethod` inverts `get` -/

/-- Rounding up to a multiple of the word size: the closed form of
`word_align` wherever the sum stays inside `uint32_t`. -/
theorem word_align_eq (x : Nat) (hx : x + WORD_MASK < 2 ^ 32) :
    word_align x = (x + 7) / 8 * 8 := by
  have hm : WORD - 1 - WORD_MASK = (2 ^ 61 - 1) <<< 3 := by decide
  simp only [WORD_MASK] at hx
  have h1 : (x + 7) % WORD = x + 7 := by
    simp only [WORD]; omega
  rw [word_align, hm, and_shifted_mask]
  simp only [WORD_MASK, h1, Nat.shiftLeft_eq, Nat.shiftRight_eq_div_pow]
  omega

/-- The result of `word_align` is a multiple of the word size whatever the
argument, also where the narrowing to `uint32_t` wraps. -/
theorem word_align_mod (x : Nat) : word_align x % 8 = 0 := by
  have hm : WORD - 1 - WORD_MASK = (2 ^ 61 - 1) <<< 3 := by decide
  rw [word_align, hm, and_shifted_mask]
  simp only [Nat.shiftLeft_eq]
  omega

/-- C30, as the code has it: for every realized class and every `extraBytes`,
`instanceSize(extraBytes)` is the larger of 16 and `A + extraBytes`, the sum
taken in `size_t` (so it is `max(16, A + extraBytes)` whenever the sum is
below 2^64), and it is never below 16. Here `A = alignedInstanceSize()` is
always a multiple of the word size, 8, and for an ivar size of at most
2^32 - 8 it is the least such multiple that is at least
`unalignedInstanceSize()`. -/
theorem C30_instanceSize (ro : class_ro_t) (extraBytes : Nat) :
    objc_class.instanceSize ro extraBytes
        = max 16 ((objc_class.alignedInstanceSize ro + extraBytes) % WORD)
      ∧ (objc_class.alignedInstanceSize ro + extraBytes < WORD →
          objc_class.instanceSize ro extraBytes
            = max 16 (objc_class.alignedInstanceSize ro + extraBytes))
      ∧ 16 ≤ objc_class.instanceSize ro extraBytes
      ∧ (objc_class.unalignedInstanceSize ro + WORD_MASK < 2 ^ 32 →
          objc_class.alignedInstanceSize ro % 8 = 0
            ∧ objc_class.unalignedInstanceSize ro ≤ objc_class.alignedInstanceSize ro
            ∧ ∀ m, m % 8 = 0 → objc_class.unalignedInstanceSize ro ≤ m →
                objc_class.alignedInstanceSize ro ≤ m)
      ∧ objc_class.alignedInstanceSize ro % 8 = 0 := by
  have hmain : objc_class.instanceSize ro extraBytes
      = max 16 ((objc_class.alignedInstanceSize ro + extraBytes) % WORD) := by
    simp only [objc_class.instanceSize]
    split <;> omega
  refine ⟨hmain, ?_, ?_, ?_, word_align_mod _⟩
  · intro h
    rw [hmain, Nat.mod_eq_of_lt h]
  · rw [hmain]; omega
  · intro h
    have ha : objc_class.alignedInstanceSize ro
        = (objc_class.unalignedInstanceSize ro + 7) / 8 * 8 := word_align_eq _ h
    rw [ha]
    refine ⟨by omega, by omega, ?_⟩
    intro m hm hle
    omega

theorem C30_instanceSize_witness :
    objc_class.alignedInstanceSize ⟨9⟩ = 16
      ∧ objc_class.instanceSize ⟨9⟩ 4 = 20
      ∧ objc_class.instanceSize ⟨0⟩ 3 = 16 :=
  have h := C30_instanceSize ⟨9⟩ 4
  ⟨by decide, h.1.trans (by decide), by decide⟩

/-- C30 fails as stated at the ends of the integer ranges. For a class with
ivar size 9 (so `A = 16`) and `extraBytes = 2^64 - 8` the sum wraps to 8 in
`size_t` and `instanceSize` returns 16, not `max(16, A + extraBytes)`. For a
class with ivar size `0xffffffff` the rounding wraps in `uint32_t` and
`alignedInstanceSize()` is 0, which is below `unalignedInstanceSize()`. -/
theorem C30_counterexample :
    objc_class.alignedInstanceSize ⟨9⟩ = 16
      ∧ objc_class.instanceSize ⟨9⟩ (2 ^ 64 - 8) = 16
      ∧ objc_class.instanceSize ⟨9⟩ (2 ^ 64 - 8)
          ≠ max 16 (objc_class.alignedInstanceSize ⟨9⟩ + (2 ^ 64 - 8))
      ∧ objc_class.alignedInstanceSize ⟨0xffffffff⟩ = 0
      ∧ ¬ (objc_class.unalignedInstanceSize ⟨0xffffffff⟩
            ≤ objc_class.alignedInstanceSize ⟨0xffffffff⟩) := by
  decide

end Objc
